import Mathlib

/-! Recipe explorer (`src/app.js`): schema normaliser and bill-of-materials engine.

A shallow embedding of the core of `app.js` and theorems about it.

Modelling conventions.

* A raw record is a value of `Json`, the values `JSON.parse` can produce.  A missing property
  reads as `undefined` in JavaScript; the code never tells `undefined` and `null` apart
  (it only tests truthiness, `== null`, `??`, `Array.isArray`, `typeof`), so both are `Json.null`.
  The one place where the printed form would differ (`'#' + o.tag` on an Option without a tag)
  is spelled out in `optLabel`.
* Numbers are exact rationals.  `Math.ceil (a / b)` is `Int.ceil (a / b)`; for the integer
  quantities of the data model (below 2^53) the double-precision result is the same.
* Strings are Lean strings; `toLowerCase` is the ASCII lowering, `length` and indexing count
  characters.
* `Map` and `Set` are insertion-ordered association lists and lists; keys are compared with
  structural equality, which is `SameValueZero` on strings, numbers, booleans and `null`.
* A JavaScript exception is an `Except.error`: `typeError` (property read on `null` or
  `undefined`, `in` on a primitive), `referenceError` (unbound identifier).  `unsupported`
  marks inputs on which the code relies on a coercion this embedding does not compute
  (a non-numeric value used as a number, a pattern row that is not a string); `outOfFuel` is
  the recursion budget of `bomForRecipe` running out.
-/

namespace Crafting

/-! ## JSON values and the JavaScript primitives the code uses -/

/-- Values of `JSON.parse`; an object is its list of own properties in order. -/
inductive Json where
  | null
  | bool (b : Bool)
  | num (q : ℚ)
  | str (s : String)
  | arr (xs : List Json)
  | obj (kvs : List (String × Json))

mutual
/-- Structural equality on JSON values is decidable. -/
def Json.decEq : (a b : Json) → Decidable (a = b)
  | .null, .null => isTrue rfl
  | .bool a, .bool b =>
    if h : a = b then isTrue (congrArg Json.bool h) else isFalse (fun e => h (Json.bool.inj e))
  | .num a, .num b =>
    if h : a = b then isTrue (congrArg Json.num h) else isFalse (fun e => h (Json.num.inj e))
  | .str a, .str b =>
    if h : a = b then isTrue (congrArg Json.str h) else isFalse (fun e => h (Json.str.inj e))
  | .arr a, .arr b =>
    match Json.decEqList a b with
    | isTrue h => isTrue (congrArg Json.arr h)
    | isFalse h => isFalse (fun e => h (Json.arr.inj e))
  | .obj a, .obj b =>
    match Json.decEqFields a b with
    | isTrue h => isTrue (congrArg Json.obj h)
    | isFalse h => isFalse (fun e => h (Json.obj.inj e))
  | .null, .bool _ | .null, .num _ | .null, .str _ | .null, .arr _ | .null, .obj _ => isFalse nofun
  | .bool _, .null | .bool _, .num _ | .bool _, .str _ | .bool _, .arr _ | .bool _, .obj _ =>
    isFalse nofun
  | .num _, .null | .num _, .bool _ | .num _, .str _ | .num _, .arr _ | .num _, .obj _ =>
    isFalse nofun
  | .str _, .null | .str _, .bool _ | .str _, .num _ | .str _, .arr _ | .str _, .obj _ =>
    isFalse nofun
  | .arr _, .null | .arr _, .bool _ | .arr _, .num _ | .arr _, .str _ | .arr _, .obj _ =>
    isFalse nofun
  | .obj _, .null | .obj _, .bool _ | .obj _, .num _ | .obj _, .str _ | .obj _, .arr _ =>
    isFalse nofun
/-- Equality of lists of JSON values. -/
def Json.decEqList : (a b : List Json) → Decidable (a = b)
  | [], [] => isTrue rfl
  | [], _ :: _ => isFalse nofun
  | _ :: _, [] => isFalse nofun
  | x :: xs, y :: ys =>
    match Json.decEq x y with
    | isFalse h => isFalse (fun e => h (List.cons.inj e).1)
    | isTrue h₁ =>
      match Json.decEqList xs ys with
      | isFalse h => isFalse (fun e => h (List.cons.inj e).2)
      | isTrue h₂ => isTrue (by rw [h₁, h₂])
/-- Equality of property lists. -/
def Json.decEqFields : (a b : List (String × Json)) → Decidable (a = b)
  | [], [] => isTrue rfl
  | [], _ :: _ => isFalse nofun
  | _ :: _, [] => isFalse nofun
  | (k, x) :: xs, (l, y) :: ys =>
    if hk : k = l then
      match Json.decEq x y with
      | isFalse h => isFalse (fun e => h (Prod.mk.inj (List.cons.inj e).1).2)
      | isTrue h₁ =>
        match Json.decEqFields xs ys with
        | isFalse h => isFalse (fun e => h (List.cons.inj e).2)
        | isTrue h₂ => isTrue (by rw [hk, h₁, h₂])
    else isFalse (fun e => hk (Prod.mk.inj (List.cons.inj e).1).1)
end

instance : DecidableEq Json := Json.decEq

instance : Inhabited Json := ⟨Json.null⟩

/-- JavaScript truthiness (`if (v)`, `!v`, `v || w`). -/
def Json.truthy : Json → Bool
  | .null => false
  | .bool b => b
  | .num q => decide (q ≠ 0)
  | .str s => decide (s ≠ "")
  | .arr _ => true
  | .obj _ => true

/-- The expression `a || b`. -/
def Json.orElse (a b : Json) : Json := if a.truthy then a else b

/-- Own property `k` of a property list; a missing property reads as `undefined`. -/
def lookupField (k : String) : List (String × Json) → Json
  | [] => .null
  | (k', v) :: rest => if k' = k then v else lookupField k rest

/-- Property read `v.k` on a value that is not `null`/`undefined`, for the property names the
code reads (none of which exists on a prototype): only objects have them. -/
def Json.get (v : Json) (k : String) : Json :=
  match v with
  | .obj kvs => lookupField k kvs
  | _ => .null

/-- The four kinds of abnormal outcome (see the header). -/
inductive Err where
  | typeError
  | referenceError
  | unsupported
  | outOfFuel
  deriving DecidableEq, Repr

/-- Outcomes can be compared. -/
instance instDecidableEqExcept {ε α : Type} [DecidableEq ε] [DecidableEq α] :
    DecidableEq (Except ε α)
  | .ok a, .ok b =>
    if h : a = b then isTrue (congrArg Except.ok h) else isFalse (fun e => h (Except.ok.inj e))
  | .error a, .error b =>
    if h : a = b then isTrue (congrArg Except.error h)
    else isFalse (fun e => h (Except.error.inj e))
  | .ok _, .error _ => isFalse nofun
  | .error _, .ok _ => isFalse nofun

/-- Property read `v.k` on any value: reading a property of `null`/`undefined` throws. -/
def Json.getOrThrow (v : Json) (k : String) : Except Err Json :=
  match v with
  | .null => .error .typeError
  | v => .ok (v.get k)

/-- `Array.isArray(v) ? v : []` as a list. -/
def Json.arrayOrEmpty : Json → List Json
  | .arr xs => xs
  | _ => []

/-- Decimal digits of the fraction `r / d` (with `r < d`), at most `fuel` of them. -/
def fracDigits : Nat → Nat → Nat → List Char
  | 0, _, _ => []
  | fuel + 1, r, d =>
    if r = 0 then [] else Char.ofNat (48 + r * 10 / d) :: fracDigits fuel (r * 10 % d) d

/-- `String(q)` for a number: exact for integers and for terminating decimals printed in
positional form (JavaScript switches to exponent form from 1e21 and below 1e-6). -/
def numToString (q : ℚ) : String :=
  if q.den = 1 then toString q.num
  else
    (if q.num < 0 then "-" else "") ++ toString (q.num.natAbs / q.den) ++ "." ++
      String.mk (fracDigits q.den (q.num.natAbs % q.den) q.den)

mutual
/-- `String(v)`, also what a template literal and `RegExp.test` apply to their argument. -/
def Json.toStr : Json → String
  | .null => "null"
  | .bool b => if b then "true" else "false"
  | .num q => numToString q
  | .str s => s
  | .arr xs => Json.joinComma xs
  | .obj _ => "[object Object]"
/-- `xs.join(',')`: `null` and `undefined` elements print as the empty string. -/
def Json.joinComma : List Json → String
  | [] => ""
  | x :: xs =>
    (match x with
      | .null => ""
      | .bool b => if b then "true" else "false"
      | .num q => numToString q
      | .str s => s
      | .arr ys => Json.joinComma ys
      | .obj _ => "[object Object]") ++ Json.joinTail xs
/-- The elements after the first, each preceded by a comma. -/
def Json.joinTail : List Json → String
  | [] => ""
  | x :: xs =>
    "," ++
    (match x with
      | .null => ""
      | .bool b => if b then "true" else "false"
      | .num q => numToString q
      | .str s => s
      | .arr ys => Json.joinComma ys
      | .obj _ => "[object Object]") ++ Json.joinTail xs
end

/-- `ToNumber(v)` for `null`, booleans and numbers; the string, array and object coercions
are not computed. -/
def Json.toNumber : Json → Except Err ℚ
  | .null => .ok 0
  | .bool b => .ok (if b then 1 else 0)
  | .num q => .ok q
  | _ => .error .unsupported

/-- `a === b` between parsed values: by value on primitives; two arrays or objects reached
through different properties are never the same reference. -/
def strictEq : Json → Json → Bool
  | .null, .null => true
  | .bool a, .bool b => a == b
  | .num a, .num b => decide (a = b)
  | .str a, .str b => a == b
  | _, _ => false

/-! ## Strings -/

/-- Does `pat` occur in the character list as a contiguous block? -/
def containsChars (pat : List Char) : List Char → Bool
  | [] => pat.isEmpty
  | c :: cs => pat.isPrefixOf (c :: cs) || containsChars pat cs

/-- `s.includes(pat)`; also `/pat/.test(s)` for a literal pattern. -/
def includes (s pat : String) : Bool := containsChars pat.data s.data

/-- `s.endsWith(suf)`. -/
def endsWith (s suf : String) : Bool := suf.data.isSuffixOf s.data

/-- `s.startsWith(pre)`. -/
def startsWith (s pre : String) : Bool := pre.data.isPrefixOf s.data

/-- `s.toLowerCase()` (ASCII). -/
def toLowerCase (s : String) : String := String.mk (s.data.map Char.toLower)

/-- `s.split(sep)` for a one-character separator, on character lists. -/
def splitOnChar (sep : Char) : List Char → List (List Char)
  | [] => [[]]
  | c :: cs =>
    match splitOnChar sep cs with
    | [] => [[]]
    | seg :: rest => if c = sep then [] :: seg :: rest else (c :: seg) :: rest

/-! ## The canonical Recipe (section 3 of the specification) -/

/-- One ingredient Option as `normalizeIngredient` builds it: the object `{item: id}` or the
object `{tag: t}`. -/
inductive Opt where
  | item (id : Json)
  | tag (t : Json)
  deriving DecidableEq

/-- The property `o.item` (`undefined` on a tag Option). -/
def Opt.itemField : Opt → Json
  | .item id => id
  | .tag _ => .null

/-- The property `o.tag` (`undefined` on an item Option). -/
def Opt.tagField : Opt → Json
  | .item _ => .null
  | .tag t => t

/-- An output `{item, count, chance}`; `chance` is `null` when absent or `undefined`.  Entries
of a `resultsList` have the same shape. -/
structure Output where
  item : Json
  count : Json
  chance : Json := .null
  deriving DecidableEq

/-- Grid dimensions `{rows, cols}`. -/
structure Dims where
  rows : Nat
  cols : Nat
  deriving DecidableEq

/-- A gunsmith material `{options, count}`; `count` is a number by construction. -/
structure Material where
  options : List Opt
  count : ℚ
  deriving DecidableEq

/-- A fluid consumed by a sequence step, `{id, amount}`. -/
structure ExtraFluid where
  id : Json
  amount : Json
  deriving DecidableEq

/-- A step of a sequenced assembly, `{action, extra, extraFluids}`. -/
structure Step where
  action : String
  extra : List Opt
  extraFluids : List ExtraFluid
  deriving DecidableEq

/-- The fields that come with each `kind`. -/
inductive RecipeBody where
  | shaped (grid : List (List Opt)) (dims : Dims)
  | shapeless (grid : List (List Opt)) (dims : Option Dims)
  | simple (action : String) (inputs : List Opt) (resultsList : List (Option Output))
  | smithing (baseIn tmpl add : List Opt)
  | gunsmith (materials : List Material)
  | sequenced (baseInput : List Opt) (transitional : Json) (loops : ℚ) (steps : List Step)
      (resultsList : List Output)
  | process (inputs addition : List Opt)
  | unknown
  deriving DecidableEq

/-- The object returned by `normalizeRecipe`: `{type, kind, ...}`. -/
structure Recipe where
  type : String
  body : RecipeBody
  deriving DecidableEq

/-- A recipe as stored by `ingestRecipe`, with `__source`, `__out` and `__allOuts`. -/
structure IndexedRecipe where
  recipe : Recipe
  source : String
  out : Output
  allOuts : Option (List Output)
  deriving DecidableEq

/-- The map `state.byOutput`, in insertion order. -/
abbrev ByOutput := List (Json × List IndexedRecipe)

/-! ## Ingredient and output resolvers (`normalizeIngredient`, `normalizeOutput`) -/

mutual
/-- The function `normalizeIngredient(ing)`. -/
def normalizeIngredient : Json → List Opt
  | .null => []
  | .bool _ => []
  | .num _ => []
  | .str s => if s = "" then [] else [Opt.item (Json.str s)]
  | .arr xs => normalizeIngredientList xs
  | .obj kvs =>
    if (lookupField "item" kvs).truthy then [Opt.item (lookupField "item" kvs)]
    else if (lookupField "tag" kvs).truthy then [Opt.tag (lookupField "tag" kvs)]
    else if ((lookupField "fluid" kvs).orElse (lookupField "fluidTag" kvs)).truthy then
      [Opt.item (Json.str ("fluid:" ++
        ((lookupField "fluid" kvs).orElse (lookupField "fluidTag" kvs)).toStr))]
    else if (lookupField "ingredient" kvs).truthy then normalizeIngredientField "ingredient" kvs
    else if (lookupField "ingredients" kvs).truthy then
      normalizeIngredientField "ingredients" kvs
    else []
/-- The call `ing.flatMap(normalizeIngredient)`. -/
def normalizeIngredientList : List Json → List Opt
  | [] => []
  | x :: xs => normalizeIngredient x ++ normalizeIngredientList xs
/-- The call `normalizeIngredient(ing[k])` on the property list of `ing`. -/
def normalizeIngredientField (k : String) : List (String × Json) → List Opt
  | [] => []
  | (k', v) :: rest =>
    if k' = k then normalizeIngredient v else normalizeIngredientField k rest
end

mutual
/-- The function `normalizeOutput(res)`; `none` is the returned `null`. -/
def normalizeOutput : Json → Option Output
  | .null => none
  | .bool _ => none
  | .num _ => none
  | .str s => if s = "" then none else some { item := Json.str s, count := Json.num 1 }
  | .arr xs =>
    match xs.find? (fun e => e.truthy && ((e.get "item").orElse (e.get "id")).truthy) with
    | none => none
    | some first =>
      some { item := (first.get "item").orElse (first.get "id"),
             count := (first.get "count").orElse (Json.num 1) }
  | .obj kvs =>
    if (lookupField "item" kvs).truthy then
      some { item := lookupField "item" kvs,
             count := (lookupField "count" kvs).orElse (Json.num 1) }
    else if (lookupField "id" kvs).truthy then
      some { item := lookupField "id" kvs,
             count := (lookupField "count" kvs).orElse (Json.num 1) }
    else if (lookupField "result" kvs).truthy then normalizeOutputResult kvs
    else none
/-- The call `normalizeOutput(res.result)` on the property list of `res`. -/
def normalizeOutputResult : List (String × Json) → Option Output
  | [] => none
  | (k, v) :: rest => if k = "result" then normalizeOutput v else normalizeOutputResult rest
end

/-! ## Schema normaliser (`normalizeRecipe`) -/

/-- The read `r.length` on a pattern row inside `pattern.reduce`: rows are strings; a `null`
row throws. -/
def patternRowLength : Json → Except Err Nat
  | .null => .error .typeError
  | .str s => .ok s.length
  | _ => .error .unsupported

/-- The fold `pattern.reduce((m, r) => Math.max(m, r.length), 0)`. -/
def maxRowLength (pattern : List Json) : Except Err Nat :=
  pattern.foldlM (fun m r => do
    let n ← patternRowLength r
    pure (max m n)) 0

/-- The row `pattern[r] || ''`, as characters. -/
def rowChars (pattern : List Json) (r : Nat) : List Char :=
  match pattern.getD r Json.null with
  | .str s => s.data
  | _ => []

/-- The symbol `row[c]` as a property name (`undefined` past the end of the row). -/
def charAt (row : List Char) (c : Nat) : String :=
  match row.get? c with
  | some x => String.mk [x]
  | none => "undefined"

/-- The read `key[ch]` where `key = rec.key || {}`; a string or array `key` would be indexed
by digit symbols, which is not computed. -/
def keyLookup (key : Json) (ch : String) : Except Err Json :=
  match key with
  | .obj kvs => .ok (lookupField ch kvs)
  | .str _ => .error .unsupported
  | .arr _ => .error .unsupported
  | _ => .ok Json.null

/-- The slot stored for a symbol: `mapped ? normalizeIngredient(mapped) : []`. -/
def slotFor (mapped : Json) : List Opt :=
  if mapped.truthy then normalizeIngredient mapped else []

/-- The inner loop over the columns `cs` of row `r`, writing `grid[r * stride + c]`. -/
def fillRow (key : Json) (row : List Char) (r stride : Nat) (cs : List Nat)
    (grid : List (List Opt)) : Except Err (List (List Opt)) :=
  cs.foldlM (fun grid c => do
    let mapped ← keyLookup key (charAt row c)
    pure (grid.set (r * stride + c) (slotFor mapped))) grid

/-- The two loops of the `crafting_shaped` branch: index `r * 3 + c`, columns below
`Math.min(cols, row.length)`. -/
def shapedGrid (pattern : List Json) (key : Json) (rows cols : Nat) :
    Except Err (List (List Opt)) :=
  (List.range rows).foldlM (fun grid r =>
    fillRow key (rowChars pattern r) r 3
      (List.range (min cols (rowChars pattern r).length)) grid) (List.replicate 9 [])

/-- The two loops of the `mechanical_crafting` branch: index `r * cols + c`, all columns. -/
def mechanicalGrid (pattern : List Json) (key : Json) (rows cols : Nat) :
    Except Err (List (List Opt)) :=
  (List.range rows).foldlM (fun grid r =>
    fillRow key (rowChars pattern r) r cols (List.range cols) grid)
    (List.replicate (rows * cols) [])

/-- The loop `opts.forEach((opt, i) => { if (i < 9) grid[i] = [opt]; })` from index `i`. -/
def placeOpts : Nat → List Opt → List (List Opt) → List (List Opt)
  | _, [], grid => grid
  | i, o :: rest, grid => placeOpts (i + 1) rest (if i < 9 then grid.set i [o] else grid)

/-- The shapeless grid: nine empty slots, then the flattened Options placed in order. -/
def shapelessGrid (ings : List Json) : List (List Opt) :=
  placeOpts 0 (ings.map normalizeIngredient).flatten (List.replicate 9 [])

/-- The test `/create:(crushing|milling|pressing|cutting|mixing|deploying|filling|haunting|`
`splashing|polishing)/`. -/
def isCreateSimple (type : String) : Bool :=
  ["crushing", "milling", "pressing", "cutting", "mixing", "deploying", "filling", "haunting",
    "splashing", "polishing"].any (fun a => includes type ("create:" ++ a))

/-- One entry `{item: r.item || r.id, count: r.count || 1, chance: r.chance}` of
`rec.results.map(...)`; a `null` element throws. -/
def resultEntry (r : Json) : Except Err Output :=
  match r with
  | .null => .error .typeError
  | r => .ok { item := (r.get "item").orElse (r.get "id"),
               count := (r.get "count").orElse (Json.num 1),
               chance := r.get "chance" }

/-- The list `[normalizeOutput(rec.result)].filter(Boolean)`. -/
def singleResult (rec : Json) : List Output := (normalizeOutput (rec.get "result")).toList

/-- The expression `Array.isArray(rec.results) ? rec.results.map((r) => (...)) : fallback`. -/
def resultsListOf (rec : Json) (fallback : List Output) : Except Err (List Output) :=
  match rec.get "results" with
  | .arr rs => rs.mapM resultEntry
  | _ => pure fallback

/-- The fluid pushed for `maybe` when `maybe && typeof maybe === 'object' && maybe.fluid`. -/
def fluidOf (maybe : Json) : List ExtraFluid :=
  match maybe with
  | .obj kvs =>
    if (lookupField "fluid" kvs).truthy then
      [{ id := lookupField "fluid" kvs, amount := (lookupField "amount" kvs).orElse (Json.num 0) }]
    else []
  | _ => []

/-- The callback of `seq.map(...)` in the `sequenced_assembly` branch. -/
def normalizeStep (s : Json) : Except Err Step :=
  match s with
  | .null => .error .typeError
  | s =>
    let st := String.mk
      ((splitOnChar ':' ((s.get "type").orElse (Json.str "")).toStr.data).getLast?.getD [])
    match s.get "ingredients" with
    | .arr ings =>
      let maybe := (ings.getD 1 Json.null).orElse (ings.getD 0 Json.null)
      .ok { action := st, extra := normalizeIngredient maybe, extraFluids := fluidOf maybe }
    | _ =>
      let maybe := (s.get "ingredient").orElse (s.get "input")
      if maybe.truthy then
        .ok { action := st, extra := normalizeIngredient maybe, extraFluids := fluidOf maybe }
      else .ok { action := st, extra := [], extraFluids := [] }

/-- The callback of `mats.map(...)` in the gunsmith branch. -/
def normalizeMaterial (m : Json) : Except Err Material :=
  match m with
  | .null => .error .typeError
  | m =>
    .ok { options := normalizeIngredient (((m.get "item").orElse (m.get "ingredient")).orElse m),
          count := match m.get "count" with
            | .num q => q
            | _ => 1 }

/-- The test `k in rec`: an own property for an object, `false` for an array (the names
tested are not indices), a TypeError for a primitive. -/
def hasKey (rec : Json) (k : String) : Except Err Bool :=
  match rec with
  | .obj kvs => .ok (kvs.any (fun kv => kv.1 == k))
  | .arr _ => .ok false
  | _ => .error .typeError

/-- The guard of the processing branch. -/
def isProcessRecord (type : String) (rec : Json) : Except Err Bool :=
  if endsWith type "smelting" || endsWith type "blasting" || endsWith type "smoking" ||
      endsWith type "stonecutting" || endsWith type "smithing" then .ok true
  else do
    let hasIng ← (do
      let a ← hasKey rec "ingredient"
      if a then pure true else hasKey rec "ingredients")
    if hasIng then do
      let b ← hasKey rec "result"
      if b then pure true else hasKey rec "results"
    else pure false

/-- The value `transitional` of the `sequenced_assembly` branch. -/
def transitionalOf (rec : Json) (baseInput : List Opt) : Json :=
  let t := rec.get "transitionalItem"
  if t.truthy then ((t.get "item").orElse (t.get "id")).orElse t
  else
    match baseInput.head? with
    | some o => o.itemField.orElse (Json.str "create:incomplete")
    | none => Json.str "create:incomplete"

/-- The dispatch of `normalizeRecipe` on the lower-cased `type` and the fields of `rec`:
the `kind` and the fields that each branch adds to `base = { type }`. -/
def normalizeBody (type : String) (rec : Json) : Except Err RecipeBody :=
  if endsWith type "crafting_shaped" then do
    let pattern := (rec.get "pattern").arrayOrEmpty
    let key := (rec.get "key").orElse (Json.obj [])
    let rows := min 3 pattern.length
    let cols := min 3 (← maxRowLength pattern)
    let grid ← shapedGrid pattern key rows cols
    pure (.shaped grid { rows := max 1 rows, cols := max 1 cols })
  else if endsWith type "crafting_shapeless" then
    let ings := (rec.get "ingredients").arrayOrEmpty
    pure (.shapeless (shapelessGrid ings) (some { rows := 3, cols := 3 }))
  else if includes type "mechanical_crafting" then do
    let pattern := (rec.get "pattern").arrayOrEmpty
    let key := (rec.get "key").orElse (Json.obj [])
    let rows := max 1 pattern.length
    let cols := max 1 (← maxRowLength pattern)
    let grid ← mechanicalGrid pattern key rows cols
    pure (.shaped grid { rows := rows, cols := cols })
  else if isCreateSimple type then do
    let extra := ((rec.get "ingredients").orElse (rec.get "ingredient")).orElse (rec.get "input")
    let inputs := normalizeIngredient extra
    let resultsList ← resultsListOf rec (singleResult rec)
    pure (.simple (String.mk ((splitOnChar ':' type.data).getD 1 [])) inputs
      (resultsList.map some))
  else if includes type "farmersdelight:cooking" then
    pure (.simple "cooking" (normalizeIngredient ((rec.get "ingredients").orElse (Json.arr [])))
      ((singleResult rec).map some))
  else if includes type "farmersdelight:cutting" then
    let inputs := normalizeIngredient ((rec.get "ingredients").orElse (rec.get "ingredient"))
    let resultsList := match rec.get "result" with
      | .arr rs => rs.map normalizeOutput
      | _ => (singleResult rec).map some
    pure (.simple "cutting" inputs resultsList)
  else if endsWith type "smithing_transform" || endsWith type "smithing_trim" then
    pure (.smithing (normalizeIngredient (rec.get "base"))
      (normalizeIngredient (rec.get "template")) (normalizeIngredient (rec.get "addition")))
  else if includes type "gun_smith_table_crafting" then do
    let materials ← (rec.get "materials").arrayOrEmpty.mapM normalizeMaterial
    pure (.gunsmith materials)
  else if includes type "sequenced_assembly" then do
    let baseInput := normalizeIngredient ((rec.get "ingredient").orElse (rec.get "input"))
    let transitional := transitionalOf rec baseInput
    let loops : ℚ := match rec.get "loops" with
      | .num q => q
      | _ => 1
    let steps ← (rec.get "sequence").arrayOrEmpty.mapM normalizeStep
    let resultsList ← resultsListOf rec []
    pure (.sequenced baseInput transitional loops steps resultsList)
  else do
    let isProc ← isProcessRecord type rec
    if isProc then
      let ing := ((((rec.get "ingredient").orElse (rec.get "base")).orElse (rec.get "input")).orElse
        (rec.get "ingredients")).orElse (rec.get "template")
      let addl := (rec.get "addition").orElse Json.null
      pure (.process (normalizeIngredient ing) (normalizeIngredient addl))
    else
      match rec.get "ingredients" with
      | .arr ings => pure (.shapeless (shapelessGrid ings) none)
      | _ => pure .unknown

/-- The body of `normalizeRecipe(rec)` for a `rec` that is not `null`, so that its properties
can be read: `type` is `String(rec.type || '').toLowerCase()`, and every branch returns
`{ ...base, kind, ... }`. -/
def normalizeRecord (rec : Json) : Except Err Recipe := do
  let type := toLowerCase ((rec.get "type").orElse (Json.str "")).toStr
  let body ← normalizeBody type rec
  pure { type := type, body := body }

/-- The function `normalizeRecipe(rec)`: its first statement reads `rec.type`, which throws
when `rec` is `null`. -/
def normalizeRecipe (rec : Json) : Except Err Recipe :=
  match rec with
  | .null => .error .typeError
  | rec => normalizeRecord rec

/-! ## Recipe selector (`recipeScoreForBase`, `chooseRecipeForBase`) -/

/-- The table `{shaped: 3, shapeless: 3, gunsmith: 2, sequenced: 2, process: 2, unknown: 0}`
read at `rec.kind`, `|| 0`. -/
def kindScore : RecipeBody → ℚ
  | .shaped _ _ => 3
  | .shapeless _ _ => 3
  | .gunsmith _ => 2
  | .sequenced _ _ _ _ _ => 2
  | .process _ _ => 2
  | .unknown => 0
  | .simple _ _ _ => 0
  | .smithing _ _ _ => 0

/-- The truthy tags among a list of Options (`if (o.tag) inputTags.push(o.tag)`). -/
def tagsOf (opts : List Opt) : List Json :=
  (opts.map Opt.tagField).filter Json.truthy

/-- The list `inputTags` of `recipeScoreForBase`. -/
def inputTags : RecipeBody → List Json
  | .shaped grid _ => (grid.map tagsOf).flatten
  | .shapeless grid _ => (grid.map tagsOf).flatten
  | .process inputs _ => tagsOf inputs
  | .sequenced baseInput _ _ _ _ => tagsOf baseInput
  | _ => []

/-- The test `/(^|[:/])ores\//`. -/
def isOreTag (t : String) : Bool :=
  startsWith t "ores/" || includes t ":ores/" || includes t "/ores/"

/-- The test `/raw(_materials)?\//`. -/
def isRawTag (t : String) : Bool :=
  includes t "raw/" || includes t "raw_materials/"

/-- The test `/nuggets\//`. -/
def isNuggetTag (t : String) : Bool := includes t "nuggets/"

/-- The test `/smelt|blast|smoking|stonecut/`. -/
def isFurnaceType (type : String) : Bool :=
  includes type "smelt" || includes type "blast" || includes type "smoking" ||
    includes type "stonecut"

/-- The value `inputCount` of `recipeScoreForBase`. -/
def inputCount : RecipeBody → Nat
  | .shaped grid _ => (grid.filter (fun g => !g.isEmpty)).length
  | .shapeless grid _ => (grid.filter (fun g => !g.isEmpty)).length
  | .process inputs addition => inputs.length + addition.length
  | .gunsmith materials => materials.length
  | .sequenced _ _ _ steps _ => 1 + (steps.filter (fun s => !s.extra.isEmpty)).length
  | _ => 0

/-- The test `entry.chance != null && entry.chance < 100`. -/
def chanceBelow100 : Json → Except Err Bool
  | .null => .ok false
  | .bool _ => .ok true
  | .num q => .ok (decide (q < 100))
  | _ => .error .unsupported

/-- The chance penalty: 12 when the recipe is sequenced and the first entry of its
`resultsList` whose item is `itemId` has a chance below 100. -/
def chancePenalty (itemId : Json) : RecipeBody → Except Err ℚ
  | .sequenced _ _ _ _ resultsList =>
    match resultsList.find? (fun r => strictEq r.item itemId) with
    | none => .ok 0
    | some entry => do
      let low ← chanceBelow100 entry.chance
      pure (if low then 12 else 0)
  | _ => .ok 0

/-- Is the body of kind `process`? -/
def RecipeBody.isProcess : RecipeBody → Bool
  | .process _ _ => true
  | _ => false

/-- The function `recipeScoreForBase(itemId, rec)`. -/
def recipeScoreForBase (itemId : Json) (rec : Recipe) : Except Err ℚ := do
  let type := toLowerCase rec.type
  let id := itemId.toStr
  let tags := (inputTags rec.body).map Json.toStr
  let hasOre := tags.any isOreTag
  let hasRaw := tags.any isRawTag
  let hasNuggets := tags.any isNuggetTag
  let penalty ← chancePenalty itemId rec.body
  pure (kindScore rec.body
    + (if isFurnaceType type && (hasOre || hasRaw) then 6 else 0)
    + (if includes id "ingot" && rec.body.isProcess then 2 else 0)
    - (if hasNuggets then 2 else 0)
    - penalty
    - (((inputCount rec.body - 2 : Nat) : ℚ) * (1 / 2))
    + (if id = "create:shaft" && includes type "cutting" then 8 else 0))

/-- The function `chooseRecipeForBase(itemId)`: the candidates sorted by descending score with
a stable sort, first element. -/
def chooseRecipeForBase (byOutput : ByOutput) (itemId : Json) :
    Except Err (Option IndexedRecipe) :=
  match byOutput.lookup itemId with
  | none => .ok none
  | some [] => .ok none
  | some rs => do
    let scored ← rs.mapM (fun r => do
      let s ← recipeScoreForBase itemId r.recipe
      pure (s, r))
    pure (((scored.insertionSort (fun a b => b.1 ≤ a.1)).head?).map Prod.snd)

/-! ## Bill of materials (`aggregate`, `bomForRecipe`, `reduceKnownItemToBase`) -/

/-- A `Map` from BOM keys to quantities, in insertion order. -/
abbrev QtyMap := List (String × ℚ)

/-- The call `map.get(key)`. -/
def mapGet : QtyMap → String → Option ℚ
  | [], _ => none
  | (k, v) :: rest, key => if k = key then some v else mapGet rest key

/-- The call `map.set(key, v)`: an existing key keeps its position. -/
def mapSet : QtyMap → String → ℚ → QtyMap
  | [], key, v => [(key, v)]
  | (k, w) :: rest, key, v => if k = key then (k, v) :: rest else (k, w) :: mapSet rest key v

/-- The function `aggregate(map, key, n)`. -/
def aggregate (map : QtyMap) (key : String) (n : ℚ) : QtyMap :=
  if key = "" ∨ n = 0 then map else mapSet map key ((mapGet map key).getD 0 + n)

/-- The merge `sub.forEach((v, k) => aggregate(map, k, v))`. -/
def mergeInto (map sub : QtyMap) : QtyMap :=
  sub.foldl (fun m kv => aggregate m kv.1 kv.2) map

/-- The function `Math.ceil`. -/
def mathCeil (x : ℚ) : ℚ := ((Int.ceil x : ℤ) : ℚ)

/-- The expression `x || d` on numbers. -/
def numOr (x d : ℚ) : ℚ := if x = 0 then d else x

/-- What one run of `bomForRecipe` owns and shares: its two fresh maps, and the `visited` set,
which is the caller's object and is updated in place. -/
structure BomState where
  items : QtyMap
  fluids : QtyMap
  visited : List Json
  deriving DecidableEq

/-- The inner function `reduceTagToBase(tag, qty)`: the new `items` map and the returned
flag. -/
def reduceTagToBase (items : QtyMap) (tag : Json) (qty : ℚ) : QtyMap × Bool :=
  if tag = Json.str "minecraft:planks" then
    (aggregate items "tag:minecraft:logs" (mathCeil (qty / 4)), true)
  else (items, false)

/-- The top-level function `reduceKnownItemToBase(id, qty)`.  It is declared outside
`bomForRecipe`, so the identifiers `items`, `fluids` and `reduceTagToBase` it uses are not in
its scope: in both branches the first statement, `aggregate(items, ...)`, evaluates the unbound
identifier `items` and throws a ReferenceError before anything else runs.  For every other id
it returns `false`. -/
def reduceKnownItemToBase (id : Json) (_qty : ℚ) : Except Err Bool :=
  if id = Json.str "create:cogwheel" then .error .referenceError
  else if id = Json.str "create:large_cogwheel" then .error .referenceError
  else .ok false

/-- One element of the label list `opts.map((o) => o.item || ('#' + o.tag))`, as `join`
prints it. -/
def optLabel : Opt → String
  | .item id => if id.truthy then id.toStr else "#undefined"
  | .tag t => "#" ++ t.toStr

/-- The key ``any:${opts.map(...).join('/')}``. -/
def anyKey (opts : List Opt) : String :=
  "any:" ++ "/".intercalate (opts.map optLabel)

/-- The tail of the single-item branch of `addOptionList`: the known-item reduction, else a
leaf requirement under `item:<id>`. -/
def addLeafItem (st : BomState) (id : Json) (qty : ℚ) : Except Err BomState := do
  let known ← reduceKnownItemToBase id qty
  if known then pure st
  else pure { st with items := aggregate st.items ("item:" ++ id.toStr) qty }

/-- The inner function `addOptionList(opts, qty)` acting on the maps and the visited set;
`recurse` is the recursive call `bomForRecipe(sub, crafts, visited)`. -/
def addOptionList (byOutput : ByOutput)
    (recurse : Recipe → ℚ → List Json → Except Err BomState)
    (st : BomState) (opts : List Opt) (qty : ℚ) : Except Err BomState :=
  match opts with
  | [] => pure st
  | o :: rest =>
    if rest.isEmpty && o.itemField.truthy then
      let id := o.itemField
      if id ∉ st.visited ∧ (byOutput.lookup id).isSome then do
        let st := { st with visited := st.visited ++ [id] }
        match ← chooseRecipeForBase byOutput id with
        | some sub =>
          let outCount ← (sub.out.count.orElse (Json.num 1)).toNumber
          let crafts := mathCeil (qty / outCount)
          let subBom ← recurse sub.recipe crafts st.visited
          pure { items := mergeInto st.items subBom.items,
                 fluids := mergeInto st.fluids subBom.fluids,
                 visited := subBom.visited }
        | none => addLeafItem st id qty
      else addLeafItem st id qty
    else if rest.isEmpty && o.tagField.truthy then
      let r := reduceTagToBase st.items o.tagField qty
      if r.2 then pure { st with items := r.1 }
      else pure { st with items := aggregate st.items ("tag:" ++ o.tagField.toStr) qty }
    else pure { st with items := aggregate st.items (anyKey (o :: rest)) qty }

/-- The fluids of one step: `st.extraFluids.forEach((f) => aggregate(fluids, ..., (f.amount
|| 0) * craftsNeeded))`. -/
def addStepFluids (craftsNeeded : ℚ) (st : BomState) (fs : List ExtraFluid) :
    Except Err BomState :=
  fs.foldlM (fun st f => do
    let amount ← (f.amount.orElse (Json.num 0)).toNumber
    pure { st with fluids := aggregate st.fluids ("fluid:" ++ f.id.toStr)
                     (amount * craftsNeeded) }) st

/-- The function `bomForRecipe(rec, craftsNeeded, visited)`.  The result carries the two maps
it returns and the final content of the shared `visited` set.  The first argument bounds the
depth of recursive calls. -/
def bomForRecipe (byOutput : ByOutput) :
    Nat → Recipe → ℚ → List Json → Except Err BomState
  | 0, _, _, _ => .error .outOfFuel
  | fuel + 1, rec, craftsNeeded, visited =>
    let add := addOptionList byOutput (bomForRecipe byOutput fuel)
    let st0 : BomState := { items := [], fluids := [], visited := visited }
    match rec.body with
    | .shaped grid _ => grid.foldlM (fun st opts => add st opts craftsNeeded) st0
    | .shapeless grid _ => grid.foldlM (fun st opts => add st opts craftsNeeded) st0
    | .process inputs addition => do
      let st ← add st0 inputs craftsNeeded
      add st addition craftsNeeded
    | .gunsmith materials =>
      materials.foldlM (fun st m => add st m.options (numOr m.count 1 * craftsNeeded)) st0
    | .sequenced baseInput _ loops steps _ => do
      let st ← add st0 baseInput craftsNeeded
      steps.foldlM (fun st step => do
        let st ← add st step.extra (craftsNeeded * numOr loops 1)
        addStepFluids craftsNeeded st step.extraFluids) st
    | .simple _ inputs _ => add st0 inputs craftsNeeded
    | .smithing baseIn tmpl addn => do
      let st ← add st0 tmpl craftsNeeded
      let st ← add st baseIn craftsNeeded
      add st addn craftsNeeded
    | .unknown => pure st0

/-- The number of keys of the Recipe Index that are not in `visited`. -/
def unvisitedKeys (byOutput : ByOutput) (visited : List Json) : Nat :=
  ((byOutput.map Prod.fst).filter (fun k => decide (k ∉ visited))).length

/-! ## A canonical Recipe as a JavaScript object

`normalizeRecipe` returns a plain object; to feed it back to `normalizeRecipe` the embedding
needs that object as a value.  The property lists follow the object literals of the source. -/

/-- The object `{item: id}` or `{tag: t}`. -/
def Opt.toJson : Opt → Json
  | .item id => Json.obj [("item", id)]
  | .tag t => Json.obj [("tag", t)]

/-- A slot, an array of Options. -/
def slotToJson (opts : List Opt) : Json := Json.arr (opts.map Opt.toJson)

/-- The object `{item, count, chance}`. -/
def Output.toJson (o : Output) : Json :=
  Json.obj [("item", o.item), ("count", o.count), ("chance", o.chance)]

/-- The object `{rows, cols}`. -/
def Dims.toJson (d : Dims) : Json :=
  Json.obj [("rows", Json.num d.rows), ("cols", Json.num d.cols)]

/-- The object `{options, count}`. -/
def Material.toJson (m : Material) : Json :=
  Json.obj [("options", slotToJson m.options), ("count", Json.num m.count)]

/-- The object `{id, amount}`. -/
def ExtraFluid.toJson (f : ExtraFluid) : Json :=
  Json.obj [("id", f.id), ("amount", f.amount)]

/-- The object `{action, extra, extraFluids}`. -/
def Step.toJson (s : Step) : Json :=
  Json.obj [("action", Json.str s.action), ("extra", slotToJson s.extra),
    ("extraFluids", Json.arr (s.extraFluids.map ExtraFluid.toJson))]

/-- The properties after `type` and `kind`. -/
def RecipeBody.fields : RecipeBody → List (String × Json)
  | .shaped grid dims =>
    [("kind", Json.str "shaped"), ("grid", Json.arr (grid.map slotToJson)), ("dims", dims.toJson)]
  | .shapeless grid (some dims) =>
    [("kind", Json.str "shapeless"), ("grid", Json.arr (grid.map slotToJson)),
      ("dims", dims.toJson)]
  | .shapeless grid none =>
    [("kind", Json.str "shapeless"), ("grid", Json.arr (grid.map slotToJson))]
  | .simple action inputs resultsList =>
    [("kind", Json.str "simple"), ("action", Json.str action), ("inputs", slotToJson inputs),
      ("resultsList", Json.arr (resultsList.map (fun o =>
        match o with
        | some o => o.toJson
        | none => Json.null)))]
  | .smithing baseIn tmpl add =>
    [("kind", Json.str "smithing"), ("baseIn", slotToJson baseIn), ("tmpl", slotToJson tmpl),
      ("add", slotToJson add)]
  | .gunsmith materials =>
    [("kind", Json.str "gunsmith"), ("materials", Json.arr (materials.map Material.toJson))]
  | .sequenced baseInput transitional loops steps resultsList =>
    [("kind", Json.str "sequenced"), ("baseInput", slotToJson baseInput),
      ("transitional", transitional), ("loops", Json.num loops),
      ("steps", Json.arr (steps.map Step.toJson)),
      ("resultsList", Json.arr (resultsList.map Output.toJson))]
  | .process inputs addition =>
    [("kind", Json.str "process"), ("inputs", slotToJson inputs),
      ("addition", slotToJson addition)]
  | .unknown => [("kind", Json.str "unknown")]

/-- The object `{type, kind, ...}` returned by `normalizeRecipe`. -/
def Recipe.toJson (r : Recipe) : Json :=
  Json.obj (("type", Json.str r.type) :: r.body.fields)

/-! ## Output lists and the recipe index (`normalizeOutputs`, `ingestRecipe`) -/

/-- The outputs pushed by `rec.results.forEach(...)`: for each entry `r` with
`o = normalizeOutput(r)` and `o && o.item`, the object `{ ...o, chance: r.chance }`. -/
def resultsOutputs (rs : List Json) : List Output :=
  rs.filterMap (fun r =>
    match normalizeOutput r with
    | some o => if o.item.truthy then some { o with chance := r.get "chance" } else none
    | none => none)

/-- The list pushed for `single = normalizeOutput(rec.result || rec.output)`. -/
def primaryOutput (rec : Json) : List Output :=
  match normalizeOutput ((rec.get "result").orElse (rec.get "output")) with
  | some single => if single.item.truthy then [single] else []
  | none => []

/-- The statement `if ((o.count == null) && typeof rec.count === 'number') o.count = rec.count`. -/
def backfillCount (rec : Json) (o : Output) : Output :=
  match o.count, rec.get "count" with
  | .null, .num n => { o with count := Json.num n }
  | _, _ => o

/-- The array `outs` of `normalizeOutputs` before the de-duplicating filter: the outputs of
the entries of `rec.results`, then the primary output, each after the count backfill. -/
def resolvedOutputs (rec : Json) : List Output :=
  ((match rec.get "results" with
    | .arr rs => resultsOutputs rs
    | _ => []) ++ primaryOutput rec).map (backfillCount rec)

/-- The key `${o.item}|${o.count}|${o.chance ?? ''}`. -/
def outputKey (o : Output) : String :=
  o.item.toStr ++ "|" ++ o.count.toStr ++ "|" ++
    (match o.chance with
      | .null => ""
      | c => c.toStr)

/-- The filter over `outs` with the set `seen` of keys met so far. -/
def dedupOutputs : List String → List Output → List Output
  | _, [] => []
  | seen, o :: rest =>
    if outputKey o ∈ seen then dedupOutputs seen rest
    else o :: dedupOutputs (outputKey o :: seen) rest

/-- The function `normalizeOutputs(rec)`: its first statement reads `rec.results`, which
throws when `rec` is `null`. -/
def normalizeOutputs (rec : Json) : Except Err (List Output) :=
  match rec with
  | .null => .error .typeError
  | rec => .ok (dedupOutputs [] (resolvedOutputs rec))

/-- The mutable part of `state` that ingestion writes: the map `byOutput`, the set
`allOutputs` (in insertion order) and the array `allRecipes`. -/
structure State where
  byOutput : ByOutput
  allOutputs : List Json
  allRecipes : List IndexedRecipe
  deriving DecidableEq

/-- The initial `state`. -/
def State.empty : State := { byOutput := [], allOutputs := [], allRecipes := [] }

/-- The function `addOutputOption(id)` on the set `state.allOutputs` (the `<option>` element
appended to the page is not part of the state). -/
def addOutputOption (allOutputs : List Json) (id : Json) : List Json :=
  if id ∈ allOutputs then allOutputs else allOutputs ++ [id]

/-- The statements `if (!state.byOutput.has(key)) state.byOutput.set(key, []);` and
`state.byOutput.get(key).push(norm)`. -/
def pushRecipe : ByOutput → Json → IndexedRecipe → ByOutput
  | [], key, norm => [(key, [norm])]
  | (k, rs) :: rest, key, norm =>
    if k = key then (k, rs ++ [norm]) :: rest else (k, rs) :: pushRecipe rest key norm

/-- The value of `norm.__allOuts`: set only when `rec.results` is an array. -/
def allOutsOf (rec : Json) : Except Err (Option (List Output)) :=
  match rec.get "results" with
  | .arr rs => do
    let l ← rs.mapM resultEntry
    pure (some l)
  | _ => pure none

/-- The key `out.item` of the map and of the set.  A `Map` and a `Set` compare primitive keys
by value, which is the comparison used here; arrays and objects are compared by reference, and
such keys are not computed. -/
def indexKey (out : Output) : Except Err Json :=
  match out.item with
  | .arr _ => .error .unsupported
  | .obj _ => .error .unsupported
  | key => .ok key

/-- The callback of `outs.forEach(...)` in `ingestRecipe`. -/
def ingestOutput (rec : Json) (sourcePath : String) (st : State) (out : Output) :
    Except Err State := do
  let norm ← normalizeRecipe rec
  let allOuts ← allOutsOf rec
  let key ← indexKey out
  let entry : IndexedRecipe := { recipe := norm, source := sourcePath, out := out, allOuts := allOuts }
  pure { byOutput := pushRecipe st.byOutput key entry, allOutputs := addOutputOption st.allOutputs key, allRecipes := st.allRecipes ++ [entry] }

/-- The function `ingestRecipe(rec, sourcePath)` as a state transformer.  Every statement
that can throw runs before the first write of a call to the callback, and runs again with the
same outcome in the later calls, so a call that throws has left the state as it was. -/
def ingestRecipe (st : State) (rec : Json) (sourcePath : String) : Except Err State :=
  if !rec.truthy then .ok st
  else do
    let outs ← normalizeOutputs rec
    if outs.isEmpty then .ok st else outs.foldlM (ingestOutput rec sourcePath) st

/-- A run of calls `ingestRecipe(rec, sourcePath)` that return, in order (the callers catch a
throwing call, which has not changed the state). -/
def ingestAll (st : State) (recs : List (Json × String)) : Except Err State :=
  recs.foldlM (fun st r => ingestRecipe st r.1 r.2) st

/-- The recipes of the ingestion log whose primary output `__out.item` is `k`, in order. -/
def recipesFor (k : Json) (allRecipes : List IndexedRecipe) : List IndexedRecipe :=
  allRecipes.filter (fun r => decide (r.out.item = k))

/-- The type tests of the branches of `normalizeRecipe`, joined: a `type` that one of the
branches recognises by itself. -/
def recognisedType (type : String) : Bool :=
  endsWith type "crafting_shaped" || endsWith type "crafting_shapeless" ||
    includes type "mechanical_crafting" || isCreateSimple type ||
    includes type "farmersdelight:cooking" || includes type "farmersdelight:cutting" ||
    endsWith type "smithing_transform" || endsWith type "smithing_trim" ||
    includes type "gun_smith_table_crafting" || includes type "sequenced_assembly" ||
    endsWith type "smelting" || endsWith type "blasting" || endsWith type "smoking" ||
    endsWith type "stonecutting" || endsWith type "smithing"

/-- First-occurrence de-duplication of a list, as the specification words it: an element is
kept unless an equal element comes earlier. -/
def firstOccurrences {α : Type} [DecidableEq α] : List α → List α
  | [] => []
  | x :: xs => x :: (firstOccurrences xs).filter (fun y => decide (y ≠ x))

/-- An output with a string item, a numeric count and a chance that is absent or numeric. -/
def plainOutput (o : Output) : Bool :=
  match o.item, o.count, o.chance with
  | .str _, .num _, .null => true
  | .str _, .num _, .num _ => true
  | _, _, _ => false

/-- The numbers among the counts and chances of a list of outputs. -/
def outputNumbers : List Output → List ℚ
  | [] => []
  | o :: rest =>
    (match o.count with
      | .num q => [q]
      | _ => []) ++
    (match o.chance with
      | .num q => [q]
      | _ => []) ++ outputNumbers rest

/-- The numbers `nums` print unambiguously: no printed form is empty or contains the
separator `|`, and two different numbers print differently. -/
def printsDistinctly (nums : List ℚ) : Bool :=
  nums.all (fun q => decide (numToString q ≠ "") && decide ('|' ∉ (numToString q).data) &&
    nums.all (fun q' => decide (numToString q = numToString q' → q = q')))

/-- The score of an indexed recipe for `itemId`, 0 when it is not computed. -/
def scoreOf (itemId : Json) (r : IndexedRecipe) : ℚ :=
  match recipeScoreForBase itemId r.recipe with
  | .ok q => q
  | .error _ => 0

/-- Exactly one of `item` / `tag` is set on the Option: one is truthy and the other is
`undefined`. -/
def Opt.exactlyOneSet (o : Opt) : Prop :=
  (o.itemField.truthy = true ∧ o.tagField = Json.null) ∨
    (o.itemField = Json.null ∧ o.tagField.truthy = true)

/-- The index agrees with the ingestion log: `byOutput(k)` is the list of the logged recipes
whose primary output is `k`, a key (and a member of `allOutputs`) exactly when that list is
not empty; no stored list is empty and no key occurs twice. -/
def IndexMatchesLog (st : State) : Prop :=
  (∀ k, st.byOutput.lookup k =
    if recipesFor k st.allRecipes = [] then none else some (recipesFor k st.allRecipes)) ∧
  (∀ k, k ∈ st.byOutput.map Prod.fst ↔ recipesFor k st.allRecipes ≠ []) ∧
  (∀ k, k ∈ st.allOutputs ↔ recipesFor k st.allRecipes ≠ []) ∧
  (∀ p ∈ st.byOutput, p.2 ≠ []) ∧
  (st.byOutput.map Prod.fst).Nodup

/-! ## Grid consumer (`renderGrid`) -/

/-- The value `dims?.cols || 3`. -/
def renderCols (dims : Option Dims) : Nat :=
  match dims with
  | some d => if d.cols = 0 then 3 else d.cols
  | none => 3

/-- The value `dims?.rows || 3`. -/
def renderRows (dims : Option Dims) : Nat :=
  match dims with
  | some d => if d.rows = 0 then 3 else d.rows
  | none => 3

/-- The slots that `renderGrid(grid, out, dims)` shows, in the order of its loop: cell `i`,
for `i < rows * cols`, shows `grid[i] || []`.  The cells are laid out in `cols` columns
(`gridTemplateColumns = repeat(cols, 64px)`, and 3 columns without `dims`), so cell `i` stands
at row `i / cols`, column `i % cols`. -/
def renderGrid (grid : List (List Opt)) (dims : Option Dims) : List (List Opt) :=
  (List.range (renderRows dims * renderCols dims)).map (fun i => grid.getD i [])

/-! ## Example data for the statements below -/

/-- A shapeless recipe, as `normalizeRecipe` builds it, whose only ingredient is the item
`id`. -/
def singleSlotRecipe (id : Json) : Recipe :=
  { type := "minecraft:crafting_shapeless",
    body := .shapeless [[Opt.item id], [], [], [], [], [], [], [], []]
      (some { rows := 3, cols := 3 }) }

/-- The entry `ingestRecipe` stores for recipe `r` under output `out` with yield `count`. -/
def indexedAs (out : Json) (count : ℚ) (r : Recipe) : IndexedRecipe :=
  { recipe := r, source := "", out := { item := out, count := Json.num count }, allOuts := none }

/-- The index `a <- [b], b <- [a]`, each recipe yielding 1. -/
def cycleIndex (a b : Json) : ByOutput :=
  [(a, [indexedAs a 1 (singleSlotRecipe b)]), (b, [indexedAs b 1 (singleSlotRecipe a)])]

/-- The index `x <- [l]` whose recipe yields `c` per craft. -/
def chainIndex (x l : Json) (c : ℚ) : ByOutput :=
  [(x, [indexedAs x c (singleSlotRecipe l)])]

/-- A gunsmith recipe with the given `(item, count)` materials. -/
def gunsmithRecipe (mats : List (Json × ℚ)) : Recipe :=
  { type := "tacz:gun_smith_table_crafting",
    body := .gunsmith (mats.map (fun m => { options := [Opt.item m.1], count := m.2 })) }

/-- The raw record of a shapeless recipe with ingredients `[a, a, b]` and result `4 x c`. -/
def shapelessRecord (ty a b c : String) : Json :=
  Json.obj [("type", Json.str ty),
    ("ingredients", Json.arr [Json.str a, Json.str a, Json.str b]),
    ("result", Json.obj [("item", Json.str c), ("count", Json.num 4)])]

/-- The raw record of a sequenced assembly with base input `b`, transitional item `t`, `loops`
loops, one step of type `sty` with ingredients `[t, d]`, and result `r`. -/
def sequencedRecord (b t d r sty : String) (loops : ℚ) : Json :=
  Json.obj [("type", Json.str "create:sequenced_assembly"),
    ("ingredient", Json.obj [("item", Json.str b)]),
    ("transitionalItem", Json.obj [("item", Json.str t)]),
    ("sequence", Json.arr [Json.obj [("type", Json.str sty),
      ("ingredients", Json.arr [Json.obj [("item", Json.str t)], Json.obj [("item", Json.str d)]])]]),
    ("results", Json.arr [Json.obj [("item", Json.str r)]]),
    ("loops", Json.num loops)]

/-- The raw record `{type: "minecraft:crafting_shapeless", ingredients: ["a"]}`. -/
def oneIngredientRecord : Json :=
  Json.obj [("type", Json.str "minecraft:crafting_shapeless"),
    ("ingredients", Json.arr [Json.str "a"])]

/-- A raw record of the given type whose list field `field` holds the single element `null`. -/
def nullElementRecord (type field : String) : Json :=
  Json.obj [("type", Json.str type), (field, Json.arr [Json.null])]

/-- The callback `recurse` only ever adds to the visited set. -/
def GrowsVisited (recurse : Recipe → ℚ → List Json → Except Err BomState) : Prop :=
  ∀ rec n v st, recurse rec n v = .ok st → v ⊆ st.visited

/-- The raw record `{type: "custom:x", ingredient: "a", results: [{item: "b"}]}`: a type that
no branch recognises, no `ingredients` field and no `result` field. -/
def resultsOnlyRecord : Json :=
  Json.obj [("type", Json.str "custom:x"), ("ingredient", Json.str "a"),
    ("results", Json.arr [Json.obj [("item", Json.str "b")]])]

/-- The entry `ingestRecipe` stores for `resultsOnlyRecord` read from `source`. -/
def resultsOnlyEntry (source : String) : IndexedRecipe :=
  { recipe := { type := "custom:x", body := .process [Opt.item (Json.str "a")] [] },
    source := source,
    out := { item := Json.str "b", count := Json.num 1 },
    allOuts := some [{ item := Json.str "b", count := Json.num 1 }] }

/-- A sequenced recipe whose `resultsList` is the single entry `{item: s, count, chance}`. -/
def sequencedWithChance (type : String) (baseInput : List Opt) (transitional : Json) (loops : ℚ)
    (steps : List Step) (s : String) (count chance : Json) : Recipe :=
  { type := type,
    body := .sequenced baseInput transitional loops steps
      [{ item := Json.str s, count := count, chance := chance }] }

/-- A smelting recipe, as `normalizeRecipe` builds it, whose single input Option is the tag
`t`. -/
def smeltingFromTag (t : Json) : Recipe :=
  { type := "minecraft:smelting", body := .process [Opt.tag t] [] }

/-- A shapeless recipe, as `normalizeRecipe` builds it, whose only ingredient is the tag
`t`. -/
def singleTagRecipe (t : Json) : Recipe :=
  { type := "minecraft:crafting_shapeless",
    body := .shapeless [[Opt.tag t], [], [], [], [], [], [], [], []]
      (some { rows := 3, cols := 3 }) }

/-- Three candidates for the item `x`: a smelting recipe from a dust tag, then two one-slot
shapeless recipes. -/
def threeCandidates (x : Json) : List IndexedRecipe :=
  [indexedAs x 1 (smeltingFromTag (Json.str "forge:dusts/iron")),
   indexedAs x 1 (singleSlotRecipe (Json.str "a")),
   indexedAs x 2 (singleSlotRecipe (Json.str "b"))]

/-- A `crafting_shapeless` record with ten ingredients, the second one a list of two
alternatives. -/
def tenIngredientRecord : Json :=
  Json.obj [("type", Json.str "minecraft:crafting_shapeless"),
    ("ingredients", Json.arr [Json.str "i0",
      Json.arr [Json.obj [("item", Json.str "i1")], Json.obj [("tag", Json.str "t2")]],
      Json.str "i3", Json.str "i4", Json.str "i5", Json.str "i6", Json.str "i7", Json.str "i8",
      Json.str "i9", Json.str "i10"])]

/-- Three files: a shapeless recipe for `c`, the record `resultsOnlyRecord` (output `b`), and
a second shapeless recipe for `c`. -/
def exampleRun : List (Json × String) :=
  [(shapelessRecord "minecraft:crafting_shapeless" "a" "b" "c", "one.json"),
   (resultsOnlyRecord, "two.json"),
   (shapelessRecord "minecraft:crafting_shapeless" "d" "e" "c", "three.json")]

/-- The state after `exampleRun`. -/
def exampleState : State :=
  match ingestAll State.empty exampleRun with
  | .ok st => st
  | .error _ => State.empty

/-- A record with four `results` entries (the second repeats the first, the third has no
chance, the fourth is another item) and a primary result that is a fifth, different output. -/
def repeatedOutputsRecord : Json :=
  Json.obj [("type", Json.str "create:crushing"),
    ("results", Json.arr [
      Json.obj [("item", Json.str "a"), ("count", Json.num 2), ("chance", Json.num (1 / 2))],
      Json.obj [("item", Json.str "a"), ("count", Json.num 2), ("chance", Json.num (1 / 2))],
      Json.obj [("item", Json.str "a"), ("count", Json.num 2)],
      Json.obj [("item", Json.str "b"), ("count", Json.num 2), ("chance", Json.num (1 / 2))]]),
    ("result", Json.obj [("item", Json.str "c"), ("count", Json.num 3)])]

/-- The raw record of a sequenced assembly with loops `loops` whose one step fills the
transitional item with `a` units of the fluid `minecraft:water`. -/
def fluidStepRecord (a loops : ℚ) : Json :=
  Json.obj [("type", Json.str "create:sequenced_assembly"),
    ("ingredient", Json.obj [("item", Json.str "a:base")]),
    ("transitionalItem", Json.obj [("item", Json.str "a:part")]),
    ("sequence", Json.arr [Json.obj [("type", Json.str "create:filling"),
      ("ingredients", Json.arr [Json.obj [("item", Json.str "a:part")],
        Json.obj [("fluid", Json.str "minecraft:water"), ("amount", Json.num a)]])]]),
    ("results", Json.arr [Json.obj [("item", Json.str "a:out")]]),
    ("loops", Json.num loops)]

/-- The Recipe that `normalizeRecipe` builds from `fluidStepRecord a loops`. -/
def fluidStepRecipe (a loops : ℚ) : Recipe :=
  { type := "create:sequenced_assembly",
    body := .sequenced [Opt.item (Json.str "a:base")] (Json.str "a:part") loops
      [{ action := "filling", extra := [Opt.item (Json.str "fluid:minecraft:water")],
         extraFluids := [{ id := Json.str "minecraft:water", amount := Json.num a }] }]
      [{ item := Json.str "a:out", count := Json.num 1 }] }

/-- The raw record of a 2 x 2 pattern `["AB", "CD"]` of the given recipe type, each symbol
keyed to the item of the same lower-case letter. -/
def twoByTwoRecord (type : String) : Json :=
  Json.obj [("type", Json.str type),
    ("pattern", Json.arr [Json.str "AB", Json.str "CD"]),
    ("key", Json.obj [("A", Json.obj [("item", Json.str "a")]),
      ("B", Json.obj [("item", Json.str "b")]),
      ("C", Json.obj [("item", Json.str "c")]),
      ("D", Json.obj [("item", Json.str "d")])]),
    ("result", Json.obj [("item", Json.str "x")])]

/-! ## Theorems -/

/-! ## Helper lemmas: outcomes, folds, the visited measure -/

theorem bind_ne_outOfFuel {α β : Type} (x : Except Err α) (f : α → Except Err β)
    (hx : x ≠ .error .outOfFuel) (hf : ∀ a, x = .ok a → f a ≠ .error .outOfFuel) :
    (x >>= f) ≠ .error .outOfFuel := by
  cases x with
  | error e => simpa [bind, Except.bind] using hx
  | ok a => simpa [bind, Except.bind] using hf a rfl

theorem bind_eq_ok {α β : Type} {x : Except Err α} {f : α → Except Err β} {b : β}
    (h : (x >>= f) = .ok b) : ∃ a, x = .ok a ∧ f a = .ok b := by
  cases x with
  | error e => simp [bind, Except.bind] at h
  | ok a => exact ⟨a, rfl, by simpa [bind, Except.bind] using h⟩

theorem foldlM_preserves {σ α : Type} (P : σ → Prop) (f : σ → α → Except Err σ)
    (step : ∀ s x s', P s → f s x = .ok s' → P s') :
    ∀ (l : List α) (s s' : σ), P s → l.foldlM f s = .ok s' → P s' := by
  intro l
  induction l with
  | nil =>
    intro s s' hs h
    simp [pure, Except.pure] at h
    exact h ▸ hs
  | cons x xs ih =>
    intro s s' hs h
    rw [List.foldlM_cons] at h
    obtain ⟨s₁, h₁, h₂⟩ := bind_eq_ok h
    exact ih s₁ s' (step s x s₁ hs h₁) h₂

theorem foldlM_ne_outOfFuel {σ α : Type} (P : σ → Prop) (f : σ → α → Except Err σ)
    (step : ∀ s x s', P s → f s x = .ok s' → P s')
    (safe : ∀ s x, P s → f s x ≠ .error .outOfFuel) :
    ∀ (l : List α) (s : σ), P s → l.foldlM f s ≠ .error .outOfFuel := by
  intro l
  induction l with
  | nil => intro s _; simp [pure, Except.pure]
  | cons x xs ih =>
    intro s hs
    rw [List.foldlM_cons]
    exact bind_ne_outOfFuel _ _ (safe s x hs) (fun s₁ h₁ => ih s₁ (step s x s₁ hs h₁))

theorem unvisitedKeys_mono (byOutput : ByOutput) {v w : List Json} (h : v ⊆ w) :
    unvisitedKeys byOutput w ≤ unvisitedKeys byOutput v := by
  unfold unvisitedKeys
  rw [← List.countP_eq_length_filter, ← List.countP_eq_length_filter]
  apply List.countP_mono_left
  intro k _ hk
  simp only [decide_eq_true_eq] at hk ⊢
  exact fun hv => hk (h hv)

theorem mem_keys_of_lookup_isSome (byOutput : ByOutput) (id : Json)
    (h : (byOutput.lookup id).isSome) : id ∈ byOutput.map Prod.fst := by
  induction byOutput with
  | nil => simp at h
  | cons kv rest ih =>
    obtain ⟨k, rs⟩ := kv
    by_cases hk : id = k
    · simp [hk]
    · have : (id == k) = false := by simpa using hk
      rw [List.lookup_cons, this] at h
      simp only [List.map_cons, List.mem_cons]
      exact Or.inr (ih h)

theorem countP_lt_of_mem {α : Type} (p q : α → Bool) (l : List α) (a : α) (ha : a ∈ l)
    (hpq : ∀ x, p x = true → q x = true) (hq : q a = true) (hp : p a = false) :
    l.countP p < l.countP q := by
  induction l with
  | nil => simp at ha
  | cons x xs ih =>
    rcases List.mem_cons.mp ha with rfl | hmem
    · have hle : xs.countP p ≤ xs.countP q := List.countP_mono_left (fun y _ hy => hpq y hy)
      simp [List.countP_cons, hq, hp]
      omega
    · have := ih hmem
      by_cases hx : p x = true
      · simp [List.countP_cons, hx, hpq x hx]
        omega
      · simp only [Bool.not_eq_true] at hx
        simp [List.countP_cons, hx]
        omega

theorem unvisitedKeys_add_lt (byOutput : ByOutput) (v : List Json) (id : Json)
    (hv : id ∉ v) (hk : (byOutput.lookup id).isSome) :
    unvisitedKeys byOutput (v ++ [id]) < unvisitedKeys byOutput v := by
  unfold unvisitedKeys
  rw [← List.countP_eq_length_filter, ← List.countP_eq_length_filter]
  apply countP_lt_of_mem _ _ _ id (mem_keys_of_lookup_isSome byOutput id hk)
  · intro x hx
    simp only [decide_eq_true_eq, List.mem_append, List.mem_singleton, not_or] at hx ⊢
    exact hx.1
  · simpa using hv
  · simp

/-! ## Termination of `bomForRecipe` -/

theorem chanceBelow100_ne_outOfFuel (c : Json) : chanceBelow100 c ≠ .error .outOfFuel := by
  cases c <;> simp [chanceBelow100]

theorem recipeScoreForBase_ne_outOfFuel (itemId : Json) (rec : Recipe) :
    recipeScoreForBase itemId rec ≠ .error .outOfFuel := by
  unfold recipeScoreForBase
  apply bind_ne_outOfFuel
  · unfold chancePenalty
    split
    · split
      · simp
      · apply bind_ne_outOfFuel
        · exact chanceBelow100_ne_outOfFuel _
        · intro a _; simp [pure, Except.pure]
    · simp
  · intro a _; simp [pure, Except.pure]

theorem mapM_ne_outOfFuel {α β : Type} (f : α → Except Err β)
    (hf : ∀ a, f a ≠ .error .outOfFuel) :
    ∀ l : List α, l.mapM f ≠ .error .outOfFuel := by
  intro l
  induction l with
  | nil => rw [List.mapM_nil]; simp [pure, Except.pure]
  | cons x xs ih =>
    rw [List.mapM_cons]
    apply bind_ne_outOfFuel _ _ (hf x)
    intro b _
    apply bind_ne_outOfFuel _ _ ih
    intro bs _; simp [pure, Except.pure]

theorem chooseRecipeForBase_ne_outOfFuel (byOutput : ByOutput) (itemId : Json) :
    chooseRecipeForBase byOutput itemId ≠ .error .outOfFuel := by
  unfold chooseRecipeForBase
  split
  · simp
  · simp
  · apply bind_ne_outOfFuel
    · apply mapM_ne_outOfFuel
      intro r
      apply bind_ne_outOfFuel _ _ (recipeScoreForBase_ne_outOfFuel _ _)
      intro s _; simp [pure, Except.pure]
    · intro a _; simp [pure, Except.pure]

theorem toNumber_ne_outOfFuel (v : Json) : v.toNumber ≠ .error .outOfFuel := by
  cases v <;> simp [Json.toNumber]

theorem addLeafItem_ne_outOfFuel (st : BomState) (id : Json) (qty : ℚ) :
    addLeafItem st id qty ≠ .error .outOfFuel := by
  unfold addLeafItem reduceKnownItemToBase
  split_ifs <;> simp [bind, Except.bind, pure, Except.pure]

theorem addLeafItem_visited {st st' : BomState} {id : Json} {qty : ℚ}
    (h : addLeafItem st id qty = .ok st') : st'.visited = st.visited := by
  unfold addLeafItem reduceKnownItemToBase at h
  split_ifs at h <;> simp [bind, Except.bind, pure, Except.pure] at h
  rw [← h]

theorem addOptionList_visited (byOutput : ByOutput)
    (recurse : Recipe → ℚ → List Json → Except Err BomState) (hr : GrowsVisited recurse)
    (st st' : BomState) (opts : List Opt) (qty : ℚ)
    (h : addOptionList byOutput recurse st opts qty = .ok st') :
    st.visited ⊆ st'.visited := by
  unfold addOptionList at h
  dsimp only at h
  split at h
  · simp [pure, Except.pure] at h
    rw [h]; exact fun _ hx => hx
  · split_ifs at h with h1 h2 h3 h4
    · obtain ⟨sub, hsub, h⟩ := bind_eq_ok h
      cases sub with
      | none =>
        simp only at h
        rw [addLeafItem_visited h]
        exact List.subset_append_left _ _
      | some sub =>
        simp only at h
        obtain ⟨c, _, h⟩ := bind_eq_ok h
        obtain ⟨subBom, hb, h⟩ := bind_eq_ok h
        simp [pure, Except.pure] at h
        rw [← h]
        exact fun x hx => hr _ _ _ _ hb (List.mem_append_left _ hx)
    · rw [addLeafItem_visited h]; exact fun _ hx => hx
    · simp [pure, Except.pure] at h
      rw [← h]; exact fun _ hx => hx
    · simp [pure, Except.pure] at h
      rw [← h]; exact fun _ hx => hx
    · simp [pure, Except.pure] at h
      rw [← h]; exact fun _ hx => hx

theorem addOptionList_ne_outOfFuel (byOutput : ByOutput)
    (recurse : Recipe → ℚ → List Json → Except Err BomState) (k : Nat)
    (hr : ∀ rec n v, unvisitedKeys byOutput v < k → recurse rec n v ≠ .error .outOfFuel)
    (st : BomState) (opts : List Opt) (qty : ℚ) (hst : unvisitedKeys byOutput st.visited ≤ k) :
    addOptionList byOutput recurse st opts qty ≠ .error .outOfFuel := by
  unfold addOptionList
  dsimp only
  split
  · simp [pure, Except.pure]
  · split_ifs with h1 h2 h3 h4
    · apply bind_ne_outOfFuel _ _ (chooseRecipeForBase_ne_outOfFuel _ _)
      intro sub _
      cases sub with
      | none => exact addLeafItem_ne_outOfFuel _ _ _
      | some sub =>
        simp only
        apply bind_ne_outOfFuel _ _ (toNumber_ne_outOfFuel _)
        intro c _
        apply bind_ne_outOfFuel
        · apply hr
          exact lt_of_lt_of_le (unvisitedKeys_add_lt byOutput _ _ h2.1 h2.2) hst
        · intro a _; simp [pure, Except.pure]
    · exact addLeafItem_ne_outOfFuel _ _ _
    · simp [pure, Except.pure]
    · simp [pure, Except.pure]
    · simp [pure, Except.pure]

theorem addStepFluids_visited (craftsNeeded : ℚ) (st st' : BomState) (fs : List ExtraFluid)
    (h : addStepFluids craftsNeeded st fs = .ok st') : st'.visited = st.visited := by
  unfold addStepFluids at h
  refine foldlM_preserves (fun s => s.visited = st.visited) _ ?_ fs st st' rfl h
  intro s f s' hs hf
  obtain ⟨a, _, hf⟩ := bind_eq_ok hf
  simp [pure, Except.pure] at hf
  rw [← hf]; exact hs

theorem addStepFluids_ne_outOfFuel (craftsNeeded : ℚ) (st : BomState) (fs : List ExtraFluid) :
    addStepFluids craftsNeeded st fs ≠ .error .outOfFuel := by
  unfold addStepFluids
  refine foldlM_ne_outOfFuel (fun _ => True) _ (fun _ _ _ _ _ => trivial) ?_ fs st trivial
  intro s f _
  apply bind_ne_outOfFuel _ _ (toNumber_ne_outOfFuel _)
  intro a _; simp [pure, Except.pure]

theorem bomForRecipe_visited (byOutput : ByOutput) :
    ∀ fuel, GrowsVisited (bomForRecipe byOutput fuel) := by
  intro fuel
  induction fuel with
  | zero => intro rec n v st h; simp [bomForRecipe] at h
  | succ fuel ih =>
    intro rec n v st h
    have step : ∀ (q : ℚ) (s : BomState) (opts : List Opt) (s' : BomState), v ⊆ s.visited →
        addOptionList byOutput (bomForRecipe byOutput fuel) s opts q = .ok s' →
        v ⊆ s'.visited := fun q s opts s' hs hadd =>
      fun x hx => addOptionList_visited byOutput _ ih s s' opts q hadd (hs hx)
    have h0 : v ⊆ ({ items := [], fluids := [], visited := v } : BomState).visited :=
      fun _ hx => hx
    unfold bomForRecipe at h
    dsimp only at h
    split at h
    · exact foldlM_preserves (fun s => v ⊆ s.visited) _
        (fun s opts s' hs hadd => step _ s opts s' hs hadd) _ _ _ h0 h
    · exact foldlM_preserves (fun s => v ⊆ s.visited) _
        (fun s opts s' hs hadd => step _ s opts s' hs hadd) _ _ _ h0 h
    · obtain ⟨s₁, h₁, h₂⟩ := bind_eq_ok h
      exact step _ _ _ _ (step _ _ _ _ h0 h₁) h₂
    · exact foldlM_preserves (fun s => v ⊆ s.visited) _
        (fun s m s' hs hadd => step _ s m.options s' hs hadd) _ _ _ h0 h
    · obtain ⟨s₁, h₁, h₂⟩ := bind_eq_ok h
      refine foldlM_preserves (fun s => v ⊆ s.visited) _ ?_ _ _ _ (step _ _ _ _ h0 h₁) h₂
      intro s stp s' hs hstep
      obtain ⟨s₂, h₃, h₄⟩ := bind_eq_ok hstep
      rw [addStepFluids_visited _ _ _ _ h₄]
      exact step _ _ _ _ hs h₃
    · exact step _ _ _ _ h0 h
    · obtain ⟨s₁, h₁, h⟩ := bind_eq_ok h
      obtain ⟨s₂, h₂, h₃⟩ := bind_eq_ok h
      exact step _ _ _ _ (step _ _ _ _ (step _ _ _ _ h0 h₁) h₂) h₃
    · simp [pure, Except.pure] at h
      rw [← h]
      exact h0

theorem bomForRecipe_ne_outOfFuel (byOutput : ByOutput) :
    ∀ (fuel : Nat) (rec : Recipe) (n : ℚ) (v : List Json),
      unvisitedKeys byOutput v < fuel →
      bomForRecipe byOutput fuel rec n v ≠ .error .outOfFuel := by
  intro fuel
  induction fuel with
  | zero => intro rec n v h; omega
  | succ fuel ih =>
    intro rec n v hv
    have hle : unvisitedKeys byOutput v ≤ fuel := by omega
    have keep : ∀ (q : ℚ) (s : BomState) (opts : List Opt) (s' : BomState),
        unvisitedKeys byOutput s.visited ≤ fuel →
        addOptionList byOutput (bomForRecipe byOutput fuel) s opts q = .ok s' →
        unvisitedKeys byOutput s'.visited ≤ fuel := fun q s opts s' hs hadd =>
      le_trans (unvisitedKeys_mono byOutput
        (addOptionList_visited byOutput _ (bomForRecipe_visited byOutput fuel) s s' opts q hadd)) hs
    have safe : ∀ (q : ℚ) (s : BomState) (opts : List Opt),
        unvisitedKeys byOutput s.visited ≤ fuel →
        addOptionList byOutput (bomForRecipe byOutput fuel) s opts q ≠ .error .outOfFuel :=
      fun q s opts hs => addOptionList_ne_outOfFuel byOutput _ fuel ih s opts q hs
    unfold bomForRecipe
    dsimp only
    split
    · exact foldlM_ne_outOfFuel (fun s => unvisitedKeys byOutput s.visited ≤ fuel) _
        (fun s opts s' hs hadd => keep _ s opts s' hs hadd) (fun s opts hs => safe _ s opts hs)
        _ _ hle
    · exact foldlM_ne_outOfFuel (fun s => unvisitedKeys byOutput s.visited ≤ fuel) _
        (fun s opts s' hs hadd => keep _ s opts s' hs hadd) (fun s opts hs => safe _ s opts hs)
        _ _ hle
    · exact bind_ne_outOfFuel _ _ (safe _ _ _ hle) (fun s₁ h₁ => safe _ _ _ (keep _ _ _ _ hle h₁))
    · exact foldlM_ne_outOfFuel (fun s => unvisitedKeys byOutput s.visited ≤ fuel) _
        (fun s m s' hs hadd => keep _ s m.options s' hs hadd)
        (fun s m hs => safe _ s m.options hs) _ _ hle
    · refine bind_ne_outOfFuel _ _ (safe _ _ _ hle) (fun s₁ h₁ => ?_)
      refine foldlM_ne_outOfFuel (fun s => unvisitedKeys byOutput s.visited ≤ fuel) _ ?_ ?_
        _ _ (keep _ _ _ _ hle h₁)
      · intro s stp s' hs hstep
        obtain ⟨s₂, h₃, h₄⟩ := bind_eq_ok hstep
        show unvisitedKeys byOutput s'.visited ≤ fuel
        rw [addStepFluids_visited _ _ _ _ h₄]
        exact keep _ _ _ _ hs h₃
      · intro s stp hs
        exact bind_ne_outOfFuel _ _ (safe _ _ _ hs)
          (fun s₂ _ => addStepFluids_ne_outOfFuel _ _ _)
    · exact safe _ _ _ hle
    · refine bind_ne_outOfFuel _ _ (safe _ _ _ hle) (fun s₁ h₁ => ?_)
      refine bind_ne_outOfFuel _ _ (safe _ _ _ (keep _ _ _ _ hle h₁)) (fun s₂ h₂ => ?_)
      exact safe _ _ _ (keep _ _ _ _ (keep _ _ _ _ hle h₁) h₂)
    · simp [pure, Except.pure]

/-! ## Fuel independence of `bomForRecipe` -/

theorem bind_congr_ne_outOfFuel {α β : Type} (x : Except Err α) (f g : α → Except Err β)
    (h : (x >>= f) ≠ .error .outOfFuel)
    (hfg : ∀ a, x = .ok a → f a ≠ .error .outOfFuel → g a = f a) :
    (x >>= g) = (x >>= f) := by
  cases x with
  | error e => rfl
  | ok a =>
    simp only [bind, Except.bind] at h ⊢
    exact hfg a rfl h

theorem foldlM_congr_ne_outOfFuel {σ α : Type} (f g : σ → α → Except Err σ)
    (hfg : ∀ s x, f s x ≠ .error .outOfFuel → g s x = f s x) :
    ∀ (l : List α) (s : σ), l.foldlM f s ≠ .error .outOfFuel → l.foldlM g s = l.foldlM f s := by
  intro l
  induction l with
  | nil => intro s _; rfl
  | cons x xs ih =>
    intro s h
    rw [List.foldlM_cons] at h ⊢
    rw [List.foldlM_cons]
    have hx : f s x ≠ .error .outOfFuel := by
      intro hx
      rw [hx] at h
      exact h rfl
    rw [hfg s x hx]
    exact bind_congr_ne_outOfFuel _ _ _ h (fun s₁ _ h₁ => ih s₁ h₁)

theorem bind_left_ne_outOfFuel {α β : Type} {x : Except Err α} {f : α → Except Err β}
    (h : (x >>= f) ≠ .error .outOfFuel) : x ≠ .error .outOfFuel := by
  intro hx
  rw [hx] at h
  exact h rfl

theorem addOptionList_congr (byOutput : ByOutput)
    (r₁ r₂ : Recipe → ℚ → List Json → Except Err BomState)
    (hr : ∀ rec n v, r₁ rec n v ≠ .error .outOfFuel → r₂ rec n v = r₁ rec n v)
    (st : BomState) (opts : List Opt) (qty : ℚ)
    (h : addOptionList byOutput r₁ st opts qty ≠ .error .outOfFuel) :
    addOptionList byOutput r₂ st opts qty = addOptionList byOutput r₁ st opts qty := by
  cases opts with
  | nil => rfl
  | cons o rest =>
    unfold addOptionList at h ⊢
    dsimp only at h ⊢
    split_ifs at h ⊢ with h1 h2
    · refine bind_congr_ne_outOfFuel _ _ _ h (fun sub _ hsub => ?_)
      cases sub with
      | none => rfl
      | some sub =>
        simp only at hsub ⊢
        refine bind_congr_ne_outOfFuel _ _ _ hsub (fun c _ hc => ?_)
        rw [hr _ _ _ (bind_left_ne_outOfFuel hc)]
    · rfl
    · rfl
    · rfl
    · rfl

theorem bomForRecipe_succ (byOutput : ByOutput) :
    ∀ (fuel : Nat) (rec : Recipe) (n : ℚ) (v : List Json),
      bomForRecipe byOutput fuel rec n v ≠ .error .outOfFuel →
      bomForRecipe byOutput (fuel + 1) rec n v = bomForRecipe byOutput fuel rec n v := by
  intro fuel
  induction fuel with
  | zero => intro rec n v h; simp [bomForRecipe] at h
  | succ fuel ih =>
    intro rec n v h
    have agree : ∀ (q : ℚ) (s : BomState) (opts : List Opt),
        addOptionList byOutput (bomForRecipe byOutput fuel) s opts q ≠ .error .outOfFuel →
        addOptionList byOutput (bomForRecipe byOutput (fuel + 1)) s opts q =
          addOptionList byOutput (bomForRecipe byOutput fuel) s opts q :=
      fun q s opts hq => addOptionList_congr byOutput _ _ ih s opts q hq
    obtain ⟨ty, body⟩ := rec
    rw [bomForRecipe.eq_def byOutput (fuel + 1 + 1), bomForRecipe.eq_def byOutput (fuel + 1)]
    rw [bomForRecipe.eq_def byOutput (fuel + 1)] at h
    cases body <;> dsimp only at h ⊢
    · exact foldlM_congr_ne_outOfFuel _ _ (fun s opts hs => agree _ s opts hs) _ _ h
    · exact foldlM_congr_ne_outOfFuel _ _ (fun s opts hs => agree _ s opts hs) _ _ h
    · exact agree _ _ _ h
    · rw [agree _ _ _ (bind_left_ne_outOfFuel h)]
      refine bind_congr_ne_outOfFuel _ _ _ h (fun s₁ _ h₁ => ?_)
      rw [agree _ _ _ (bind_left_ne_outOfFuel h₁)]
      exact bind_congr_ne_outOfFuel _ _ _ h₁ (fun s₂ _ h₂ => agree _ _ _ h₂)
    · exact foldlM_congr_ne_outOfFuel _ _ (fun s m hs => agree _ s m.options hs) _ _ h
    · rw [agree _ _ _ (bind_left_ne_outOfFuel h)]
      refine bind_congr_ne_outOfFuel _ _ _ h (fun s₁ _ h₁ => ?_)
      refine foldlM_congr_ne_outOfFuel _ _ (fun s stp hs => ?_) _ _ h₁
      rw [agree _ _ _ (bind_left_ne_outOfFuel hs)]
    · rw [agree _ _ _ (bind_left_ne_outOfFuel h)]
      exact bind_congr_ne_outOfFuel _ _ _ h (fun s₁ _ h₁ => agree _ _ _ h₁)

theorem bomForRecipe_fuel_irrelevant (byOutput : ByOutput) (rec : Recipe) (n : ℚ)
    (v : List Json) (fuel : Nat) (h : bomForRecipe byOutput fuel rec n v ≠ .error .outOfFuel) :
    ∀ extra : Nat, bomForRecipe byOutput (fuel + extra) rec n v =
      bomForRecipe byOutput fuel rec n v := by
  intro extra
  induction extra with
  | zero => rfl
  | succ k ih =>
    rw [← Nat.add_assoc, bomForRecipe_succ byOutput (fuel + k) rec n v (by rw [ih]; exact h), ih]

/-! ## Maps and keys -/

theorem mapGet_mapSet_self (m : QtyMap) (k : String) (v : ℚ) :
    mapGet (mapSet m k v) k = some v := by
  induction m with
  | nil => simp [mapSet, mapGet]
  | cons kv rest ih =>
    obtain ⟨k', w⟩ := kv
    by_cases h : k' = k
    · simp [mapSet, mapGet, h]
    · simp [mapSet, mapGet, h, ih]

theorem mapGet_mapSet_ne (m : QtyMap) (k k' : String) (v : ℚ) (h : k' ≠ k) :
    mapGet (mapSet m k v) k' = mapGet m k' := by
  induction m with
  | nil => simp [mapSet, mapGet, Ne.symm h]
  | cons kv rest ih =>
    obtain ⟨k₀, w⟩ := kv
    by_cases h₀ : k₀ = k
    · subst h₀
      simp [mapSet, mapGet, Ne.symm h]
    · simp only [mapSet, h₀, if_false, mapGet]
      rw [ih]

theorem aggregate_get_self (m : QtyMap) (k : String) (n : ℚ) (hk : k ≠ "") :
    (mapGet (aggregate m k n) k).getD 0 = (mapGet m k).getD 0 + n := by
  unfold aggregate
  by_cases hn : n = 0
  · simp [hn]
  · simp [hk, hn, mapGet_mapSet_self]

theorem aggregate_get_ne (m : QtyMap) (k k' : String) (n : ℚ) (h : k' ≠ k) :
    mapGet (aggregate m k n) k' = mapGet m k' := by
  unfold aggregate
  split_ifs
  · rfl
  · exact mapGet_mapSet_ne m k k' _ h

theorem append_ne_empty (p s : String) (hp : p ≠ "") : p ++ s ≠ "" := by
  intro h
  apply hp
  have := congrArg String.data h
  simp only [String.data_append] at this
  have h2 : p.data = [] := (List.append_eq_nil.mp this).1
  exact String.ext h2

theorem append_left_cancel (p a b : String) : p ++ a = p ++ b ↔ a = b := by
  constructor
  · intro h
    have := congrArg String.data h
    simp only [String.data_append] at this
    exact String.ext (List.append_cancel_left this)
  · intro h; rw [h]

theorem truthy_str (s : String) : (Json.str s).truthy = true ↔ s ≠ "" := by
  simp [Json.truthy]

/-! ## Single-item slots -/

theorem addOptionList_leaf (byOutput : ByOutput)
    (recurse : Recipe → ℚ → List Json → Except Err BomState) (st : BomState) (id : Json)
    (qty : ℚ) (hid : id.truthy = true)
    (hskip : id ∈ st.visited ∨ (byOutput.lookup id).isSome = false)
    (h1 : id ≠ Json.str "create:cogwheel") (h2 : id ≠ Json.str "create:large_cogwheel") :
    addOptionList byOutput recurse st [Opt.item id] qty =
      .ok { st with items := aggregate st.items ("item:" ++ id.toStr) qty } := by
  have hcond : ¬ (id ∉ st.visited ∧ (byOutput.lookup id).isSome = true) := by
    rintro ⟨hv, hk⟩
    rcases hskip with h | h
    · exact hv h
    · rw [h] at hk; exact Bool.false_ne_true hk
  unfold addOptionList
  simp only [List.isEmpty, Opt.itemField, hid, Bool.and_self, if_true, if_neg hcond]
  unfold addLeafItem reduceKnownItemToBase
  simp only [h1, h2, if_false]
  rfl

theorem recipeScoreForBase_shapeless (itemId : Json) (ty : String) (grid : List (List Opt))
    (dims : Option Dims) :
    ∃ s, recipeScoreForBase itemId { type := ty, body := .shapeless grid dims } = .ok s := by
  unfold recipeScoreForBase chancePenalty
  exact ⟨_, rfl⟩

theorem chooseRecipeForBase_single (byOutput : ByOutput) (id : Json) (r : IndexedRecipe)
    (hl : byOutput.lookup id = some [r])
    (hs : ∃ s, recipeScoreForBase id r.recipe = .ok s) :
    chooseRecipeForBase byOutput id = .ok (some r) := by
  obtain ⟨s, hs⟩ := hs
  unfold chooseRecipeForBase
  rw [hl]
  simp only [List.mapM_cons, List.mapM_nil, hs]
  rfl

theorem addOptionList_expand (byOutput : ByOutput)
    (recurse : Recipe → ℚ → List Json → Except Err BomState) (st : BomState) (id : Json)
    (qty c : ℚ) (sub : IndexedRecipe) (hid : id.truthy = true) (hvis : id ∉ st.visited)
    (hidx : (byOutput.lookup id).isSome = true)
    (hsub : chooseRecipeForBase byOutput id = .ok (some sub))
    (hc : sub.out.count = Json.num c) (hc0 : c ≠ 0) :
    addOptionList byOutput recurse st [Opt.item id] qty =
      (do
        let subBom ← recurse sub.recipe (mathCeil (qty / c)) (st.visited ++ [id])
        pure { items := mergeInto st.items subBom.items,
               fluids := mergeInto st.fluids subBom.fluids,
               visited := subBom.visited }) := by
  have hcond : id ∉ st.visited ∧ (byOutput.lookup id).isSome = true := ⟨hvis, hidx⟩
  have hnum : ((Json.num c).orElse (Json.num 1)).toNumber = .ok c := by
    simp [Json.orElse, Json.truthy, hc0, Json.toNumber]
  unfold addOptionList
  simp only [List.isEmpty, Opt.itemField, hid, Bool.and_self, if_true, if_pos hcond, hsub, hc]
  simp only [bind, Except.bind]
  rw [hc, hnum]

theorem addOptionList_nil (byOutput : ByOutput)
    (recurse : Recipe → ℚ → List Json → Except Err BomState) (st : BomState) (qty : ℚ) :
    addOptionList byOutput recurse st [] qty = .ok st := rfl

theorem bomForRecipe_shapeless (byOutput : ByOutput) (fuel : Nat) (ty : String)
    (grid : List (List Opt)) (dims : Option Dims) (n : ℚ) (v : List Json) :
    bomForRecipe byOutput (fuel + 1) { type := ty, body := .shapeless grid dims } n v =
      grid.foldlM (fun st opts => addOptionList byOutput (bomForRecipe byOutput fuel) st opts n)
        { items := [], fluids := [], visited := v } := rfl

theorem str_beq_false {a b : String} (h : a ≠ b) : (Json.str a == Json.str b) = false := by
  simpa using h

theorem bom_cycle (a b : String) (n : ℕ) (fuel : ℕ) (ha : a ≠ "") (hb : b ≠ "") (hab : a ≠ b)
    (h1 : a ≠ "create:cogwheel") (h2 : a ≠ "create:large_cogwheel") (hn : 0 < n) :
    bomForRecipe (cycleIndex (Json.str a) (Json.str b)) (fuel + 2)
        (singleSlotRecipe (Json.str b)) n [Json.str a] =
      .ok { items := [("item:" ++ a, (n : ℚ))], fluids := [],
            visited := [Json.str a, Json.str b] } := by
  have hlook : (cycleIndex (Json.str a) (Json.str b)).lookup (Json.str b) =
      some [indexedAs (Json.str b) 1 (singleSlotRecipe (Json.str a))] := by
    simp [cycleIndex, List.lookup, str_beq_false (Ne.symm hab)]
  have hsub : chooseRecipeForBase (cycleIndex (Json.str a) (Json.str b)) (Json.str b) =
      .ok (some (indexedAs (Json.str b) 1 (singleSlotRecipe (Json.str a)))) :=
    chooseRecipeForBase_single _ _ _ hlook (recipeScoreForBase_shapeless _ _ _ _)
  have hn0 : (n : ℚ) ≠ 0 := by exact_mod_cast (Nat.pos_iff_ne_zero.mp hn)
  have hkey : "item:" ++ a ≠ "" := append_ne_empty _ _ (by decide)
  have hceil : mathCeil ((n : ℚ) / 1) = n := by simp [mathCeil]
  have hleaf := addOptionList_leaf (cycleIndex (Json.str a) (Json.str b))
    (bomForRecipe (cycleIndex (Json.str a) (Json.str b)) fuel)
    { items := [], fluids := [], visited := [Json.str a, Json.str b] } (Json.str a) n
    (by simpa [Json.truthy] using ha) (Or.inl (by simp)) (by simpa using h1) (by simpa using h2)
  have hinner : bomForRecipe (cycleIndex (Json.str a) (Json.str b)) (fuel + 1)
      (singleSlotRecipe (Json.str a)) n [Json.str a, Json.str b] =
      .ok { items := [("item:" ++ a, (n : ℚ))], fluids := [],
            visited := [Json.str a, Json.str b] } := by
    unfold singleSlotRecipe
    rw [bomForRecipe_shapeless]
    simp only [List.foldlM_cons, List.foldlM_nil, hleaf, addOptionList_nil, bind, Except.bind,
      pure, Except.pure]
    simp [aggregate, mapGet, mapSet, Json.toStr, hn0, hkey]
  have hexp := addOptionList_expand (cycleIndex (Json.str a) (Json.str b))
    (bomForRecipe (cycleIndex (Json.str a) (Json.str b)) (fuel + 1))
    { items := [], fluids := [], visited := [Json.str a] } (Json.str b) n 1
    (indexedAs (Json.str b) 1 (singleSlotRecipe (Json.str a)))
    (by simpa [Json.truthy] using hb) (by simpa using Ne.symm hab)
    (by rw [hlook]; rfl) hsub rfl one_ne_zero
  rw [hceil] at hexp
  simp only [indexedAs, List.singleton_append, List.cons_append, List.nil_append] at hexp
  rw [hinner] at hexp
  show bomForRecipe _ (fuel + 1 + 1) (singleSlotRecipe (Json.str b)) _ _ = _
  unfold singleSlotRecipe
  rw [bomForRecipe_shapeless]
  simp only [List.foldlM_cons, List.foldlM_nil, hexp, addOptionList_nil, bind, Except.bind,
    pure, Except.pure]
  simp [mergeInto, aggregate, mapGet, mapSet, hn0, hkey]

/-! ## Tag slots, shapeless and sequenced records -/

theorem addOptionList_tag (byOutput : ByOutput)
    (recurse : Recipe → ℚ → List Json → Except Err BomState) (st : BomState) (t : String)
    (qty : ℚ) (ht : t ≠ "") :
    addOptionList byOutput recurse st [Opt.tag (Json.str t)] qty =
      .ok { st with items :=
        if t = "minecraft:planks" then aggregate st.items "tag:minecraft:logs" (mathCeil (qty / 4))
        else aggregate st.items ("tag:" ++ t) qty } := by
  have htr : (Json.str t).truthy = true := by simpa [Json.truthy] using ht
  unfold addOptionList
  simp only [List.isEmpty, Opt.itemField, Opt.tagField, Json.truthy, htr, Bool.and_false,
    Bool.and_true, Bool.false_eq_true, if_false, if_true, reduceTagToBase, Json.str.injEq]
  by_cases hp : t = "minecraft:planks"
  · simp only [hp, if_true]; rfl
  · simp [hp, ht, Json.toStr, pure, Except.pure]

theorem endsWith_shaped_of_shapeless (s : String)
    (h : endsWith s "crafting_shapeless" = true) : endsWith s "crafting_shaped" = false := by
  unfold endsWith List.isSuffixOf at *
  rcases hr : s.data.reverse with _ | ⟨c, cs⟩
  · rw [hr] at h; simp [List.isPrefixOf] at h
  · rw [hr] at h
    have hc : c = 's' := by
      simp [List.isPrefixOf] at h
      exact h.1.symm
    subst hc
    simp [List.isPrefixOf]

theorem normalizeRecipe_shapelessRecord (ty a b c : String)
    (hty : endsWith (toLowerCase ty) "crafting_shapeless" = true) (ha : a ≠ "") (hb : b ≠ "") :
    normalizeRecipe (shapelessRecord ty a b c) =
      .ok { type := toLowerCase ty,
            body := .shapeless [[Opt.item (Json.str a)], [Opt.item (Json.str a)],
              [Opt.item (Json.str b)], [], [], [], [], [], []] (some { rows := 3, cols := 3 }) } := by
  have hlow : toLowerCase (((shapelessRecord ty a b c).get "type").orElse (Json.str "")).toStr =
      toLowerCase ty := by
    by_cases h : ty = ""
    · simp [shapelessRecord, Json.get, lookupField, Json.orElse, Json.truthy, Json.toStr, h]
    · simp [shapelessRecord, Json.get, lookupField, Json.orElse, Json.truthy, Json.toStr, h]
  have hgrid : shapelessGrid [Json.str a, Json.str a, Json.str b] =
      [[Opt.item (Json.str a)], [Opt.item (Json.str a)], [Opt.item (Json.str b)],
        [], [], [], [], [], []] := by
    simp [shapelessGrid, normalizeIngredient, ha, hb, placeOpts, List.replicate]
  have hing : ((shapelessRecord ty a b c).get "ingredients").arrayOrEmpty =
      [Json.str a, Json.str a, Json.str b] := by
    simp [shapelessRecord, Json.get, lookupField, Json.arrayOrEmpty]
  have hrec : normalizeRecipe (shapelessRecord ty a b c) =
      normalizeRecord (shapelessRecord ty a b c) := rfl
  rw [hrec]
  unfold normalizeRecord normalizeBody
  simp only [hlow, endsWith_shaped_of_shapeless _ hty, hty, Bool.false_eq_true, if_false, if_true,
    hing, hgrid]
  rfl

theorem bom_shapelessRecord_grid (byOutput : ByOutput) (ty a b : String) (dims : Option Dims)
    (n : ℚ) (visited : List Json) (fuel : Nat) (ha : a ≠ "") (hb : b ≠ "") (hab : a ≠ b)
    (hia : (byOutput.lookup (Json.str a)).isSome = false)
    (hib : (byOutput.lookup (Json.str b)).isSome = false)
    (ha1 : a ≠ "create:cogwheel") (ha2 : a ≠ "create:large_cogwheel")
    (hb1 : b ≠ "create:cogwheel") (hb2 : b ≠ "create:large_cogwheel") (hn : n ≠ 0) :
    bomForRecipe byOutput (fuel + 1)
        { type := ty,
          body := .shapeless [[Opt.item (Json.str a)], [Opt.item (Json.str a)],
            [Opt.item (Json.str b)], [], [], [], [], [], []] dims } n visited =
      .ok { items := [("item:" ++ a, 2 * n), ("item:" ++ b, n)], fluids := [],
            visited := visited } := by
  have hA : ∀ st, addOptionList byOutput (bomForRecipe byOutput fuel) st
      [Opt.item (Json.str a)] n =
      .ok { st with items := aggregate st.items ("item:" ++ a) n } := fun st =>
    addOptionList_leaf byOutput _ st (Json.str a) n (by simpa [Json.truthy] using ha)
      (Or.inr hia) (by simpa using ha1) (by simpa using ha2)
  have hB : ∀ st, addOptionList byOutput (bomForRecipe byOutput fuel) st
      [Opt.item (Json.str b)] n =
      .ok { st with items := aggregate st.items ("item:" ++ b) n } := fun st =>
    addOptionList_leaf byOutput _ st (Json.str b) n (by simpa [Json.truthy] using hb)
      (Or.inr hib) (by simpa using hb1) (by simpa using hb2)
  have hka : "item:" ++ a ≠ "" := append_ne_empty _ _ (by decide)
  have hkb : "item:" ++ b ≠ "" := append_ne_empty _ _ (by decide)
  have hkab : "item:" ++ a ≠ "item:" ++ b := fun h => hab ((append_left_cancel _ _ _).mp h)
  rw [bomForRecipe_shapeless]
  simp only [List.foldlM_cons, List.foldlM_nil, hA, hB, addOptionList_nil, bind, Except.bind,
    pure, Except.pure]
  simp [aggregate, mapGet, mapSet, hka, hkb, hkab, hn, two_mul]

theorem seqType_lower : toLowerCase "create:sequenced_assembly" = "create:sequenced_assembly" := by
  decide

theorem seqType_dispatch :
    endsWith "create:sequenced_assembly" "crafting_shaped" = false ∧
    endsWith "create:sequenced_assembly" "crafting_shapeless" = false ∧
    includes "create:sequenced_assembly" "mechanical_crafting" = false ∧
    isCreateSimple "create:sequenced_assembly" = false ∧
    includes "create:sequenced_assembly" "farmersdelight:cooking" = false ∧
    includes "create:sequenced_assembly" "farmersdelight:cutting" = false ∧
    endsWith "create:sequenced_assembly" "smithing_transform" = false ∧
    endsWith "create:sequenced_assembly" "smithing_trim" = false ∧
    includes "create:sequenced_assembly" "gun_smith_table_crafting" = false ∧
    includes "create:sequenced_assembly" "sequenced_assembly" = true := by
  decide

theorem mapM_singleton {α β : Type} (f : α → Except Err β) (x : α) :
    [x].mapM f = (match f x with
      | .ok y => .ok [y]
      | .error e => .error e) := by
  rw [List.mapM_cons, List.mapM_nil]
  cases f x <;> rfl

theorem normalizeRecipe_sequencedRecord (b t d r sty : String) (loops : ℚ) (hb : b ≠ "")
    (hd : d ≠ "") :
    ∃ tr act res, normalizeRecipe (sequencedRecord b t d r sty loops) =
      .ok { type := "create:sequenced_assembly",
            body := .sequenced [Opt.item (Json.str b)] tr loops
              [{ action := act, extra := [Opt.item (Json.str d)], extraFluids := [] }] res } := by
  obtain ⟨c1, c2, c3, c4, c5, c6, c7, c8, c9, c10⟩ := seqType_dispatch
  have hty : toLowerCase (((sequencedRecord b t d r sty loops).get "type").orElse
      (Json.str "")).toStr = "create:sequenced_assembly" := by
    simp only [sequencedRecord, Json.get, lookupField, if_true, Json.orElse]
    exact seqType_lower
  have hseq : ((sequencedRecord b t d r sty loops).get "sequence").arrayOrEmpty =
      [Json.obj [("type", Json.str sty), ("ingredients",
        Json.arr [Json.obj [("item", Json.str t)], Json.obj [("item", Json.str d)]])]] := by
    simp [sequencedRecord, Json.get, lookupField, Json.arrayOrEmpty]
  have hres : (sequencedRecord b t d r sty loops).get "results" =
      Json.arr [Json.obj [("item", Json.str r)]] := by
    simp [sequencedRecord, Json.get, lookupField]
  have hloops : (sequencedRecord b t d r sty loops).get "loops" = Json.num loops := by
    simp [sequencedRecord, Json.get, lookupField]
  have hing : (sequencedRecord b t d r sty loops).get "ingredient" =
      Json.obj [("item", Json.str b)] := by
    simp [sequencedRecord, Json.get, lookupField]
  have hbase : normalizeIngredient (((sequencedRecord b t d r sty loops).get "ingredient").orElse
      ((sequencedRecord b t d r sty loops).get "input")) = [Opt.item (Json.str b)] := by
    rw [hing]
    simp [Json.orElse, Json.truthy, normalizeIngredient, lookupField, hb]
  have hstep : ∃ act, normalizeStep (Json.obj [("type", Json.str sty), ("ingredients",
        Json.arr [Json.obj [("item", Json.str t)], Json.obj [("item", Json.str d)]])]) =
      .ok { action := act, extra := [Opt.item (Json.str d)], extraFluids := [] } := by
    refine ⟨String.mk ((splitOnChar ':' (((Json.obj [("type", Json.str sty), ("ingredients",
        Json.arr [Json.obj [("item", Json.str t)], Json.obj [("item", Json.str d)]])]).get
        "type").orElse (Json.str "")).toStr.data).getLast?.getD []), ?_⟩
    simp [normalizeStep, Json.get, lookupField, Json.orElse, Json.truthy, normalizeIngredient,
      fluidOf, hd]
  obtain ⟨act, hstep⟩ := hstep
  have hentry : ∃ e, resultEntry (Json.obj [("item", Json.str r)]) = .ok e := ⟨_, rfl⟩
  obtain ⟨e, hentry⟩ := hentry
  have hrec : normalizeRecipe (sequencedRecord b t d r sty loops) =
      normalizeRecord (sequencedRecord b t d r sty loops) := rfl
  refine ⟨transitionalOf (sequencedRecord b t d r sty loops) [Opt.item (Json.str b)], act, [e],
    ?_⟩
  rw [hrec]
  unfold normalizeRecord normalizeBody
  simp only [hty, c1, c2, c3, c4, c5, c6, c7, c8, c9, c10, Bool.false_eq_true, if_false, if_true,
    Bool.or_self, hseq, resultsListOf, hres, hloops, hbase, mapM_singleton, hstep, hentry, bind,
    Except.bind, pure, Except.pure]

theorem bomForRecipe_sequenced (byOutput : ByOutput) (fuel : Nat) (ty : String)
    (baseInput : List Opt) (tr : Json) (loops : ℚ) (steps : List Step) (res : List Output)
    (n : ℚ) (v : List Json) :
    bomForRecipe byOutput (fuel + 1)
        { type := ty, body := .sequenced baseInput tr loops steps res } n v =
      (do
        let st ← addOptionList byOutput (bomForRecipe byOutput fuel)
          { items := [], fluids := [], visited := v } baseInput n
        steps.foldlM (fun st step => do
          let st ← addOptionList byOutput (bomForRecipe byOutput fuel) st step.extra
            (n * numOr loops 1)
          addStepFluids n st step.extraFluids) st) := rfl

theorem bom_sequenced_leaves (byOutput : ByOutput) (ty b d act : String) (tr : Json)
    (res : List Output) (loops n : ℚ) (visited : List Json) (fuel : Nat)
    (hb : b ≠ "") (hd : d ≠ "") (hbd : b ≠ d)
    (hib : (byOutput.lookup (Json.str b)).isSome = false)
    (hid : (byOutput.lookup (Json.str d)).isSome = false)
    (hb1 : b ≠ "create:cogwheel") (hb2 : b ≠ "create:large_cogwheel")
    (hd1 : d ≠ "create:cogwheel") (hd2 : d ≠ "create:large_cogwheel")
    (hl : loops ≠ 0) (hn : n ≠ 0) :
    bomForRecipe byOutput (fuel + 1)
        { type := ty,
          body := .sequenced [Opt.item (Json.str b)] tr loops
            [{ action := act, extra := [Opt.item (Json.str d)], extraFluids := [] }] res }
        n visited =
      .ok { items := [("item:" ++ b, n), ("item:" ++ d, n * loops)], fluids := [],
            visited := visited } := by
  have hB : ∀ st q, addOptionList byOutput (bomForRecipe byOutput fuel) st
      [Opt.item (Json.str b)] q =
      .ok { st with items := aggregate st.items ("item:" ++ b) q } := fun st q =>
    addOptionList_leaf byOutput _ st (Json.str b) q (by simpa [Json.truthy] using hb)
      (Or.inr hib) (by simpa using hb1) (by simpa using hb2)
  have hD : ∀ st q, addOptionList byOutput (bomForRecipe byOutput fuel) st
      [Opt.item (Json.str d)] q =
      .ok { st with items := aggregate st.items ("item:" ++ d) q } := fun st q =>
    addOptionList_leaf byOutput _ st (Json.str d) q (by simpa [Json.truthy] using hd)
      (Or.inr hid) (by simpa using hd1) (by simpa using hd2)
  have hkb : "item:" ++ b ≠ "" := append_ne_empty _ _ (by decide)
  have hkd : "item:" ++ d ≠ "" := append_ne_empty _ _ (by decide)
  have hkbd : "item:" ++ b ≠ "item:" ++ d := fun h => hbd ((append_left_cancel _ _ _).mp h)
  rw [bomForRecipe_sequenced]
  simp only [List.foldlM_cons, List.foldlM_nil, hB, hD, addStepFluids, bind, Except.bind,
    pure, Except.pure]
  simp [aggregate, mapGet, mapSet, numOr, hkb, hkd, hkbd, hn, hl]

theorem bom_chain (x l : String) (q c : ℚ) (fuel : Nat) (hx : x ≠ "") (hl : l ≠ "")
    (hxl : x ≠ l) (hl1 : l ≠ "create:cogwheel") (hl2 : l ≠ "create:large_cogwheel")
    (hc : c ≠ 0) (hk : mathCeil (q / c) ≠ 0) :
    bomForRecipe (chainIndex (Json.str x) (Json.str l) c) (fuel + 2)
        (singleSlotRecipe (Json.str x)) q [] =
      .ok { items := [("item:" ++ l, mathCeil (q / c))], fluids := [],
            visited := [Json.str x] } := by
  have hlook : (chainIndex (Json.str x) (Json.str l) c).lookup (Json.str x) =
      some [indexedAs (Json.str x) c (singleSlotRecipe (Json.str l))] := by
    simp [chainIndex, List.lookup]
  have hlookl : ((chainIndex (Json.str x) (Json.str l) c).lookup (Json.str l)).isSome = false := by
    simp [chainIndex, List.lookup, str_beq_false (Ne.symm hxl)]
  have hsub : chooseRecipeForBase (chainIndex (Json.str x) (Json.str l) c) (Json.str x) =
      .ok (some (indexedAs (Json.str x) c (singleSlotRecipe (Json.str l)))) :=
    chooseRecipeForBase_single _ _ _ hlook (recipeScoreForBase_shapeless _ _ _ _)
  have hkey : "item:" ++ l ≠ "" := append_ne_empty _ _ (by decide)
  have hleaf : ∀ st qty, addOptionList (chainIndex (Json.str x) (Json.str l) c)
      (bomForRecipe (chainIndex (Json.str x) (Json.str l) c) fuel) st
      [Opt.item (Json.str l)] qty =
      .ok { st with items := aggregate st.items ("item:" ++ l) qty } := fun st qty =>
    addOptionList_leaf _ _ st (Json.str l) qty (by simpa [Json.truthy] using hl)
      (Or.inr hlookl) (by simpa using hl1) (by simpa using hl2)
  have hinner : bomForRecipe (chainIndex (Json.str x) (Json.str l) c) (fuel + 1)
      (singleSlotRecipe (Json.str l)) (mathCeil (q / c)) [Json.str x] =
      .ok { items := [("item:" ++ l, mathCeil (q / c))], fluids := [],
            visited := [Json.str x] } := by
    unfold singleSlotRecipe
    rw [bomForRecipe_shapeless]
    simp only [List.foldlM_cons, List.foldlM_nil, hleaf, addOptionList_nil, bind, Except.bind,
      pure, Except.pure]
    simp [aggregate, mapGet, mapSet, hk, hkey]
  have hexp := addOptionList_expand (chainIndex (Json.str x) (Json.str l) c)
    (bomForRecipe (chainIndex (Json.str x) (Json.str l) c) (fuel + 1))
    { items := [], fluids := [], visited := [] } (Json.str x) q c
    (indexedAs (Json.str x) c (singleSlotRecipe (Json.str l)))
    (by simpa [Json.truthy] using hx) (by simp)
    (by rw [hlook]; rfl) hsub rfl hc
  simp only [indexedAs, List.nil_append] at hexp
  rw [hinner] at hexp
  show bomForRecipe _ (fuel + 1 + 1) (singleSlotRecipe (Json.str x)) _ _ = _
  unfold singleSlotRecipe
  rw [bomForRecipe_shapeless]
  simp only [List.foldlM_cons, List.foldlM_nil, hexp, addOptionList_nil, bind, Except.bind,
    pure, Except.pure]
  simp [mergeInto, aggregate, mapGet, mapSet, hk, hkey]

theorem ceil_least (q c : ℚ) (hc : 0 < c) :
    q ≤ (Int.ceil (q / c) : ℚ) * c ∧ ∀ k : ℤ, q ≤ (k : ℚ) * c → Int.ceil (q / c) ≤ k := by
  constructor
  · have := Int.le_ceil (q / c)
    exact (div_le_iff₀ hc).mp this
  · intro k hk
    exact Int.ceil_le.mpr ((div_le_iff₀ hc).mpr hk)

theorem ceil_pos_of_ge_one (q c : ℚ) (hq : 1 ≤ q) (hc : 1 ≤ c) : 1 ≤ Int.ceil (q / c) := by
  have : 0 < q / c := div_pos (by linarith) (by linarith)
  exact Int.one_le_ceil_iff.mpr this

/-! ## Normalising a canonical Recipe again -/

theorem toLower_idem (c : Char) : c.toLower.toLower = c.toLower := by
  unfold Char.toLower
  simp only
  by_cases h : c.toNat ≥ 65 ∧ c.toNat ≤ 90
  · rw [if_pos h]
    have hv : (Char.ofNat (c.toNat + 32)).toNat = c.toNat + 32 := by
      have : (c.toNat + 32).isValidChar := by
        left
        omega
      unfold Char.ofNat
      rw [dif_pos this]
      rfl
    rw [hv, if_neg (by omega)]
  · rw [if_neg h, if_neg h]

theorem toLowerCase_idem (s : String) : toLowerCase (toLowerCase s) = toLowerCase s := by
  unfold toLowerCase
  simp only [List.map_map]
  congr 1
  apply List.map_congr_left
  intro c _
  exact toLower_idem c

theorem normalizeRecipe_ok {rec : Json} {R : Recipe} (h : normalizeRecipe rec = .ok R) :
    R.type = toLowerCase ((rec.get "type").orElse (Json.str "")).toStr ∧
      normalizeBody R.type rec = .ok R.body := by
  have hr : normalizeRecord rec = .ok R := by
    cases rec
    case null => simp [normalizeRecipe] at h
    all_goals exact h
  unfold normalizeRecord at hr
  obtain ⟨body, hb, hr⟩ := bind_eq_ok hr
  simp only [pure, Except.pure, Except.ok.injEq] at hr
  subst hr
  exact ⟨rfl, hb⟩

theorem toJson_get_absent (R : Recipe) (k : String)
    (hk : k ∈ ["pattern", "key", "ingredients", "ingredient", "input", "results", "result",
      "base", "template", "transitionalItem", "sequence"]) :
    R.toJson.get k = Json.null := by
  obtain ⟨ty, body⟩ := R
  simp only [List.mem_cons, List.mem_singleton, List.not_mem_nil, or_false] at hk
  rcases hk with rfl | rfl | rfl | rfl | rfl | rfl | rfl | rfl | rfl | rfl | rfl <;>
    cases body <;>
    first
      | rfl
      | (rename_i g d; cases d <;> rfl)

theorem toJson_type (R : Recipe) :
    toLowerCase ((R.toJson.get "type").orElse (Json.str "")).toStr = toLowerCase R.type := by
  have : R.toJson.get "type" = Json.str R.type := rfl
  rw [this]
  by_cases h : R.type = ""
  · simp [Json.orElse, Json.truthy, Json.toStr, h]
  · simp [Json.orElse, Json.truthy, Json.toStr, h]

theorem mapM_ok_of_forall {α β : Type} (f : α → Except Err β) :
    ∀ l : List α, (∀ x ∈ l, ∃ y, f x = .ok y) → ∃ ys, l.mapM f = .ok ys := by
  intro l
  induction l with
  | nil => intro _; exact ⟨[], rfl⟩
  | cons x xs ih =>
    intro h
    obtain ⟨y, hy⟩ := h x (List.mem_cons_self _ _)
    obtain ⟨ys, hys⟩ := ih (fun z hz => h z (List.mem_cons_of_mem _ hz))
    refine ⟨y :: ys, ?_⟩
    rw [List.mapM_cons, hy, hys]
    rfl

theorem toJson_materials (R : Recipe) :
    ∃ ms : List Material, (R.toJson.get "materials").arrayOrEmpty = ms.map Material.toJson := by
  obtain ⟨ty, body⟩ := R
  cases body
  case gunsmith ms => exact ⟨ms, rfl⟩
  case shapeless g d => cases d <;> exact ⟨[], rfl⟩
  all_goals exact ⟨[], rfl⟩

theorem normalizeMaterial_toJson (m : Material) : ∃ y, normalizeMaterial m.toJson = .ok y :=
  ⟨_, rfl⟩

theorem hasKey_obj (kvs : List (String × Json)) (k : String) :
    hasKey (Json.obj kvs) k = .ok (kvs.any (fun kv => kv.1 == k)) := rfl

theorem bind_isOk {α β : Type} {x : Except Err α} {f : α → Except Err β}
    (hx : ∃ a, x = .ok a) (hf : ∀ a, ∃ b, f a = .ok b) : ∃ b, (x >>= f) = .ok b := by
  obtain ⟨a, rfl⟩ := hx
  exact hf a

theorem isProcessRecord_obj (ty : String) (kvs : List (String × Json)) :
    ∃ b, isProcessRecord ty (Json.obj kvs) = .ok b := by
  unfold isProcessRecord
  split_ifs
  · exact ⟨_, rfl⟩
  · refine bind_isOk (bind_isOk ⟨_, hasKey_obj kvs _⟩ (fun a => ?_)) (fun a => ?_)
    · split_ifs
      · exact ⟨_, rfl⟩
      · exact ⟨_, hasKey_obj kvs _⟩
    · split_ifs
      · refine bind_isOk ⟨_, hasKey_obj kvs _⟩ (fun b => ?_)
        split_ifs
        · exact ⟨_, rfl⟩
        · exact ⟨_, hasKey_obj kvs _⟩
      · exact ⟨_, rfl⟩

theorem normalizeBody_toJson_ok (ty : String) (R : Recipe) :
    ∃ body, normalizeBody ty R.toJson = .ok body := by
  have hpattern := toJson_get_absent R "pattern" (by simp)
  have hkey := toJson_get_absent R "key" (by simp)
  have hresults := toJson_get_absent R "results" (by simp)
  have hresult := toJson_get_absent R "result" (by simp)
  have hseq := toJson_get_absent R "sequence" (by simp)
  have hings := toJson_get_absent R "ingredients" (by simp)
  obtain ⟨ms, hms⟩ := toJson_materials R
  obtain ⟨mats, hmats⟩ := mapM_ok_of_forall normalizeMaterial (ms.map Material.toJson)
    (fun x hx => by
      obtain ⟨m, _, rfl⟩ := List.mem_map.mp hx
      exact normalizeMaterial_toJson m)
  obtain ⟨b, hb⟩ := isProcessRecord_obj ty (("type", Json.str R.type) :: R.body.fields)
  have hb' : isProcessRecord ty R.toJson = .ok b := hb
  unfold normalizeBody
  simp only [hpattern, hkey, resultsListOf, hresults, hresult, hseq, hms, hmats, hb', hings,
    singleResult]
  by_cases c0 : endsWith ty "crafting_shaped" = true
  · rw [if_pos c0]
    exact ⟨_, rfl⟩
  rw [if_neg c0]
  by_cases c1 : endsWith ty "crafting_shapeless" = true
  · rw [if_pos c1]
    exact ⟨_, rfl⟩
  rw [if_neg c1]
  by_cases c2 : includes ty "mechanical_crafting" = true
  · rw [if_pos c2]
    exact ⟨_, rfl⟩
  rw [if_neg c2]
  by_cases c3 : isCreateSimple ty = true
  · rw [if_pos c3]
    exact ⟨_, rfl⟩
  rw [if_neg c3]
  by_cases c4 : includes ty "farmersdelight:cooking" = true
  · rw [if_pos c4]
    exact ⟨_, rfl⟩
  rw [if_neg c4]
  by_cases c5 : includes ty "farmersdelight:cutting" = true
  · rw [if_pos c5]
    exact ⟨_, rfl⟩
  rw [if_neg c5]
  by_cases c6 : (endsWith ty "smithing_transform" || endsWith ty "smithing_trim") = true
  · rw [if_pos c6]
    exact ⟨_, rfl⟩
  rw [if_neg c6]
  by_cases c7 : includes ty "gun_smith_table_crafting" = true
  · rw [if_pos c7]
    exact ⟨_, rfl⟩
  rw [if_neg c7]
  by_cases c8 : includes ty "sequenced_assembly" = true
  · rw [if_pos c8]
    exact ⟨_, rfl⟩
  rw [if_neg c8]
  cases b
  · exact ⟨_, rfl⟩
  · exact ⟨_, rfl⟩

theorem normalizeBody_unknown_stable (ty : String) (rec : Json)
    (h : normalizeBody ty rec = .ok .unknown) :
    normalizeBody ty (Recipe.toJson { type := ty, body := .unknown }) = .ok .unknown := by
  unfold normalizeBody at h
  by_cases c0 : endsWith ty "crafting_shaped" = true
  · rw [if_pos c0] at h
    obtain ⟨_, _, h⟩ := bind_eq_ok h
    obtain ⟨_, _, h⟩ := bind_eq_ok h
    simp [pure, Except.pure] at h
  rw [if_neg c0] at h
  by_cases c1 : endsWith ty "crafting_shapeless" = true
  · rw [if_pos c1] at h
    simp [pure, Except.pure] at h
  rw [if_neg c1] at h
  by_cases c2 : includes ty "mechanical_crafting" = true
  · rw [if_pos c2] at h
    obtain ⟨_, _, h⟩ := bind_eq_ok h
    obtain ⟨_, _, h⟩ := bind_eq_ok h
    simp [pure, Except.pure] at h
  rw [if_neg c2] at h
  by_cases c3 : isCreateSimple ty = true
  · rw [if_pos c3] at h
    obtain ⟨_, _, h⟩ := bind_eq_ok h
    simp [pure, Except.pure] at h
  rw [if_neg c3] at h
  by_cases c4 : includes ty "farmersdelight:cooking" = true
  · rw [if_pos c4] at h
    simp [pure, Except.pure] at h
  rw [if_neg c4] at h
  by_cases c5 : includes ty "farmersdelight:cutting" = true
  · rw [if_pos c5] at h
    simp [pure, Except.pure] at h
  rw [if_neg c5] at h
  by_cases c6 : (endsWith ty "smithing_transform" || endsWith ty "smithing_trim") = true
  · rw [if_pos c6] at h
    simp [pure, Except.pure] at h
  rw [if_neg c6] at h
  by_cases c7 : includes ty "gun_smith_table_crafting" = true
  · rw [if_pos c7] at h
    obtain ⟨_, _, h⟩ := bind_eq_ok h
    simp [pure, Except.pure] at h
  rw [if_neg c7] at h
  by_cases c8 : includes ty "sequenced_assembly" = true
  · rw [if_pos c8] at h
    obtain ⟨_, _, h⟩ := bind_eq_ok h
    obtain ⟨_, _, h⟩ := bind_eq_ok h
    simp [pure, Except.pure] at h
  rw [if_neg c8] at h
  obtain ⟨b, hb, h⟩ := bind_eq_ok h
  rcases b with _ | _
  swap
  · simp [pure, Except.pure] at h
  have he : ¬ ((endsWith ty "smelting" || endsWith ty "blasting" || endsWith ty "smoking" ||
      endsWith ty "stonecutting" || endsWith ty "smithing") = true) := by
    intro he
    unfold isProcessRecord at hb
    rw [if_pos he] at hb
    simp at hb
  have hproc : isProcessRecord ty (Recipe.toJson { type := ty, body := .unknown }) =
      .ok false := by
    unfold isProcessRecord
    rw [if_neg he]
    rfl
  unfold normalizeBody
  rw [if_neg c0, if_neg c1, if_neg c2, if_neg c3, if_neg c4, if_neg c5, if_neg c6, if_neg c7,
    if_neg c8, hproc]
  rfl

/-! ## Output lists, the recipe index and the selector -/

theorem lookupField_absent (k : String) :
    ∀ kvs : List (String × Json), kvs.any (fun kv => kv.1 == k) = false →
      lookupField k kvs = Json.null := by
  intro kvs
  induction kvs with
  | nil => intro _; rfl
  | cons kv rest ih =>
    obtain ⟨k', v⟩ := kv
    intro h
    simp only [List.any_cons, Bool.or_eq_false_iff, beq_eq_false_iff_ne, ne_eq] at h
    unfold lookupField
    rw [if_neg h.1]
    exact ih h.2

theorem normalizeBody_unknown_of_absent (ty : String) (kvs : List (String × Json))
    (hty : recognisedType ty = false)
    (hing : kvs.any (fun kv => kv.1 == "ingredients") = false)
    (hres : kvs.any (fun kv => kv.1 == "result") = false)
    (hress : kvs.any (fun kv => kv.1 == "results") = false) :
    normalizeBody ty (Json.obj kvs) = .ok .unknown := by
  unfold recognisedType at hty
  simp only [Bool.or_eq_false_iff] at hty
  obtain ⟨⟨⟨⟨⟨⟨⟨⟨⟨⟨⟨⟨⟨⟨t0, t1⟩, t2⟩, t3⟩, t4⟩, t5⟩, t6⟩, t7⟩, t8⟩, t9⟩, t10⟩, t11⟩, t12⟩, t13⟩, t14⟩ :=
    hty
  unfold normalizeBody
  rw [if_neg (by rw [t0]; decide), if_neg (by rw [t1]; decide), if_neg (by rw [t2]; decide),
    if_neg (by rw [t3]; decide), if_neg (by rw [t4]; decide), if_neg (by rw [t5]; decide),
    if_neg (by rw [t6, t7]; decide), if_neg (by rw [t8]; decide), if_neg (by rw [t9]; decide)]
  have hproc : isProcessRecord ty (Json.obj kvs) = .ok false := by
    unfold isProcessRecord
    rw [if_neg (by rw [t10, t11, t12, t13, t14]; decide)]
    cases hi : kvs.any (fun kv => kv.1 == "ingredient") <;>
      simp [hasKey_obj, hi, hing, hres, hress, bind, Except.bind, pure, Except.pure]
  rw [hproc]
  simp only [bind, Except.bind, Json.get, lookupField_absent _ _ hing]
  rfl

theorem mapM_eq_map {α β : Type} (f : α → Except Err β) (g : α → β) :
    ∀ l : List α, (∀ x ∈ l, f x = .ok (g x)) → l.mapM f = .ok (l.map g) := by
  intro l
  induction l with
  | nil => intro _; rfl
  | cons x xs ih =>
    intro h
    rw [List.mapM_cons, h x (List.mem_cons_self _ _),
      ih (fun z hz => h z (List.mem_cons_of_mem _ hz))]
    rfl

theorem head_insertionSort_scored {α : Type} (sc : α → ℚ) :
    ∀ rs : List α, rs ≠ [] →
      ∃ pre r post, rs = pre ++ r :: post ∧
        ((rs.map (fun r => (sc r, r))).insertionSort (fun a b => b.1 ≤ a.1)).head? =
          some (sc r, r) ∧
        (∀ x ∈ pre, sc x < sc r) ∧ (∀ x ∈ post, sc x ≤ sc r) := by
  intro rs
  induction rs with
  | nil => intro h; exact absurd rfl h
  | cons a l ih =>
    intro _
    rcases l with _ | ⟨b, l'⟩
    · exact ⟨[], a, [], rfl, rfl, by simp, by simp⟩
    · obtain ⟨pre, r, post, hl, hhead, hpre, hpost⟩ := ih (List.cons_ne_nil _ _)
      rcases hS : ((b :: l').map (fun r => (sc r, r))).insertionSort (fun a b => b.1 ≤ a.1)
        with _ | ⟨top, S⟩
      · rw [hS] at hhead; simp at hhead
      rw [hS] at hhead
      have htop : top = (sc r, r) := by simpa using hhead
      subst htop
      have hstep : ((a :: b :: l').map (fun r => (sc r, r))).insertionSort
          (fun a b => b.1 ≤ a.1) =
          List.orderedInsert (fun a b => b.1 ≤ a.1) (sc a, a) ((sc r, r) :: S) := by
        rw [List.map_cons, List.insertionSort, hS]
      rw [hstep, List.orderedInsert]
      by_cases hle : sc r ≤ sc a
      · refine ⟨[], a, b :: l', rfl, ?_, by simp, ?_⟩
        · rw [if_pos hle]; rfl
        · intro x hx
          rw [hl, List.mem_append, List.mem_cons] at hx
          rcases hx with hx | rfl | hx
          · exact le_trans (le_of_lt (hpre x hx)) hle
          · exact hle
          · exact le_trans (hpost x hx) hle
      · refine ⟨a :: pre, r, post, by rw [hl]; rfl, ?_, ?_, hpost⟩
        · rw [if_neg hle]; rfl
        · intro x hx
          rcases List.mem_cons.mp hx with rfl | hx
          · exact lt_of_not_le hle
          · exact hpre x hx

theorem chooseRecipeForBase_first_max (byOutput : ByOutput) (itemId : Json)
    (rs : List IndexedRecipe) (sc : IndexedRecipe → ℚ)
    (hlook : byOutput.lookup itemId = some rs) (hne : rs ≠ [])
    (hsc : ∀ r ∈ rs, recipeScoreForBase itemId r.recipe = .ok (sc r)) :
    ∃ pre r post, rs = pre ++ r :: post ∧
      chooseRecipeForBase byOutput itemId = .ok (some r) ∧
      (∀ x ∈ pre, sc x < sc r) ∧ (∀ x ∈ post, sc x ≤ sc r) := by
  obtain ⟨pre, r, post, hrs, hhead, hpre, hpost⟩ := head_insertionSort_scored sc rs hne
  refine ⟨pre, r, post, hrs, ?_, hpre, hpost⟩
  have hmap : rs.mapM (fun r => do
      let s ← recipeScoreForBase itemId r.recipe
      pure (s, r)) = .ok (rs.map (fun r => (sc r, r))) := by
    apply mapM_eq_map
    intro x hx
    rw [hsc x hx]
    rfl
  unfold chooseRecipeForBase
  rw [hlook]
  rcases rs with _ | ⟨a, l⟩
  · exact absurd rfl hne
  · simp only [hmap]
    simp only [bind, Except.bind, pure, Except.pure, hhead, Option.map]

theorem smeltingFromTag_score (itemId t : Json) (ht : t.truthy = true)
    (hnn : isNuggetTag t.toStr = false ∨ isOreTag t.toStr = true) :
    ∃ a : ℚ, recipeScoreForBase itemId (smeltingFromTag t) = .ok a ∧ 2 ≤ a := by
  have hty : toLowerCase "minecraft:smelting" = "minecraft:smelting" := by decide
  have hf : isFurnaceType "minecraft:smelting" = true := by decide
  have hc : includes "minecraft:smelting" "cutting" = false := by decide
  refine ⟨2 + (if (isOreTag t.toStr || isRawTag t.toStr) = true then 6 else 0)
    + (if includes itemId.toStr "ingot" = true then 2 else 0)
    - (if isNuggetTag t.toStr = true then 2 else 0) - 0 - ((0 + 1 + 0 - 2 : Nat) : ℚ) * (1 / 2)
    + 0, ?eq, ?le⟩
  case eq =>
    unfold recipeScoreForBase smeltingFromTag
    simp only [hty, hf, hc, chancePenalty, bind, Except.bind, pure, Except.pure, kindScore,
      inputTags, tagsOf, inputCount, RecipeBody.isProcess, List.map, Opt.tagField,
      List.filter, ht, List.any, Bool.or_false, Bool.true_and, Bool.and_true,
      Bool.and_false, Bool.and_self, if_true, Bool.false_eq_true, if_false, List.length]
  case le =>
    rcases hnn with h | h
    · rw [h]
      norm_num
      split_ifs <;> norm_num
    · rw [h]
      norm_num
      split_ifs <;> norm_num

theorem crafting_score_le (itemId : Json) (rec : Recipe)
    (hid : itemId.toStr ≠ "create:shaft")
    (hkind : (∃ g d, rec.body = .shaped g d) ∨ (∃ g d, rec.body = .shapeless g d))
    (hnug : ((inputTags rec.body).map Json.toStr).any isNuggetTag = true)
    (hnoore : ((inputTags rec.body).map Json.toStr).any isOreTag = false)
    (hnoraw : ((inputTags rec.body).map Json.toStr).any isRawTag = false) :
    ∃ b : ℚ, recipeScoreForBase itemId rec = .ok b ∧ b ≤ 1 := by
  have hk : kindScore rec.body = 3 ∧ rec.body.isProcess = false ∧
      chancePenalty itemId rec.body = .ok 0 := by
    rcases hkind with ⟨g, d, h⟩ | ⟨g, d, h⟩ <;> rw [h] <;> exact ⟨rfl, rfl, rfl⟩
  obtain ⟨h1, h2, h3⟩ := hk
  refine ⟨3 + 0 + 0 - 2 - 0 - ((inputCount rec.body - 2 : Nat) : ℚ) * (1 / 2) + 0, ?eq, ?le⟩
  case eq =>
    unfold recipeScoreForBase
    simp only [h1, h2, h3, hnug, hnoore, hnoraw, bind, Except.bind, pure, Except.pure,
      Bool.or_self, Bool.and_false, Bool.false_eq_true, if_false, if_true,
      decide_eq_false hid, Bool.false_and]
  case le =>
    have : (0 : ℚ) ≤ ((inputCount rec.body - 2 : Nat) : ℚ) := Nat.cast_nonneg _
    linarith

theorem sequencedWithChance_score (type : String) (baseInput : List Opt) (transitional : Json)
    (loops : ℚ) (steps : List Step) (s : String) (count chance : Json) (p : ℚ)
    (hp : chancePenalty (Json.str s) (.sequenced baseInput transitional loops steps
      [{ item := Json.str s, count := count, chance := chance }]) = .ok p) :
    recipeScoreForBase (Json.str s)
        (sequencedWithChance type baseInput transitional loops steps s count chance) =
      .ok (2 + (if isFurnaceType (toLowerCase type) &&
            (((tagsOf baseInput).map Json.toStr).any isOreTag ||
              ((tagsOf baseInput).map Json.toStr).any isRawTag) then 6 else 0)
        + 0 - (if ((tagsOf baseInput).map Json.toStr).any isNuggetTag then 2 else 0) - p
        - (((1 + (steps.filter (fun st => !st.extra.isEmpty)).length - 2 : Nat) : ℚ) * (1 / 2))
        + (if s = "create:shaft" && includes (toLowerCase type) "cutting" then 8 else 0)) := by
  unfold recipeScoreForBase sequencedWithChance
  simp only [hp, bind, Except.bind, pure, Except.pure, kindScore, inputTags, inputCount,
    RecipeBody.isProcess, Json.toStr, Bool.and_false, Bool.false_eq_true, if_false]

theorem prepend_ne_empty (a b : String) (ha : a ≠ "") : a ++ b ≠ "" := by
  intro h
  apply ha
  have := congrArg String.data h
  simp only [String.data_append] at this
  apply String.ext
  exact (List.append_eq_nil.mp this).1

mutual
theorem normalizeIngredient_exactlyOneSet :
    ∀ v : Json, ∀ o ∈ normalizeIngredient v, o.exactlyOneSet
  | .null, o, h => by simp [normalizeIngredient] at h
  | .bool _, o, h => by simp [normalizeIngredient] at h
  | .num _, o, h => by simp [normalizeIngredient] at h
  | .str s, o, h => by
    rw [normalizeIngredient] at h
    split_ifs at h with hs
    · simp at h
    · simp only [List.mem_singleton] at h
      subst h
      exact Or.inl ⟨by simp [Opt.itemField, Json.truthy, hs], rfl⟩
  | .arr xs, o, h => by
    rw [normalizeIngredient] at h
    exact normalizeIngredientList_exactlyOneSet xs o h
  | .obj kvs, o, h => by
    rw [normalizeIngredient] at h
    split_ifs at h with h1 h2 h3 h4 h5
    · simp only [List.mem_singleton] at h
      subst h
      exact Or.inl ⟨h1, rfl⟩
    · simp only [List.mem_singleton] at h
      subst h
      exact Or.inr ⟨rfl, h2⟩
    · simp only [List.mem_singleton] at h
      subst h
      refine Or.inl ⟨?_, rfl⟩
      simp only [Opt.itemField, Json.truthy, decide_eq_true_eq]
      exact prepend_ne_empty _ _ (by decide)
    · exact normalizeIngredientField_exactlyOneSet "ingredient" kvs o h
    · exact normalizeIngredientField_exactlyOneSet "ingredients" kvs o h
    · simp at h
theorem normalizeIngredientList_exactlyOneSet :
    ∀ xs : List Json, ∀ o ∈ normalizeIngredientList xs, o.exactlyOneSet
  | [], o, h => by simp [normalizeIngredientList] at h
  | x :: xs, o, h => by
    rw [normalizeIngredientList, List.mem_append] at h
    rcases h with h | h
    · exact normalizeIngredient_exactlyOneSet x o h
    · exact normalizeIngredientList_exactlyOneSet xs o h
theorem normalizeIngredientField_exactlyOneSet (k : String) :
    ∀ kvs : List (String × Json), ∀ o ∈ normalizeIngredientField k kvs, o.exactlyOneSet
  | [], o, h => by simp [normalizeIngredientField] at h
  | (k', v) :: rest, o, h => by
    rw [normalizeIngredientField] at h
    split_ifs at h
    · exact normalizeIngredient_exactlyOneSet v o h
    · exact normalizeIngredientField_exactlyOneSet k rest o h
end

theorem placeOpts_length : ∀ (opts : List Opt) (i : Nat) (grid : List (List Opt)),
    (placeOpts i opts grid).length = grid.length := by
  intro opts
  induction opts with
  | nil => intro i grid; rfl
  | cons o rest ih =>
    intro i grid
    rw [placeOpts, ih]
    split_ifs <;> simp

theorem placeOpts_get? : ∀ (opts : List Opt) (i : Nat) (grid : List (List Opt)) (j : Nat),
    (placeOpts i opts grid)[j]? =
      if j < i then grid[j]?
      else match opts[j - i]? with
        | some o => if j < 9 ∧ j < grid.length then some [o] else grid[j]?
        | none => grid[j]? := by
  intro opts
  induction opts with
  | nil => intro i grid j; simp [placeOpts]
  | cons o rest ih =>
    intro i grid j
    have hlen : (if i < 9 then grid.set i [o] else grid).length = grid.length := by
      split_ifs <;> simp
    have hG : (if i < 9 then grid.set i [o] else grid)[j]? =
        if j = i ∧ i < 9 ∧ i < grid.length then some [o] else grid[j]? := by
      by_cases h9 : i < 9
      · rw [if_pos h9]
        by_cases hji : j = i
        · subst hji
          by_cases hl : j < grid.length
          · rw [if_pos ⟨rfl, h9, hl⟩, List.getElem?_set_self hl]
          · rw [if_neg (fun h => hl h.2.2), List.getElem?_eq_none (by simp; omega),
              List.getElem?_eq_none (by omega)]
        · rw [if_neg (fun h => hji h.1), List.getElem?_set_ne (fun h => hji h.symm)]
      · rw [if_neg h9, if_neg (fun h => h9 h.2.1)]
    rw [placeOpts, ih, hlen, hG]
    rcases Nat.lt_trichotomy j i with hji | rfl | hij
    · simp [hji, Nat.lt_succ_of_lt hji, Nat.ne_of_lt hji]
    · simp only [Nat.lt_succ_self, if_true, lt_self_iff_false, if_false, Nat.sub_self,
        List.getElem?_cons_zero, true_and]
    · have hsub : j - i = (j - (i + 1)) + 1 := by omega
      have h1 : ¬ j < i + 1 := by omega
      have h2 : ¬ j < i := by omega
      have h3 : ¬ (j = i ∧ i < 9 ∧ i < grid.length) := by omega
      rw [if_neg h1, if_neg h2, if_neg h3, hsub, List.getElem?_cons_succ]

theorem shapelessGrid_slots (ings : List Json) :
    (shapelessGrid ings).length = 9 ∧
    ∀ i, i < 9 → (shapelessGrid ings).getD i [] =
      match ((ings.map normalizeIngredient).flatten)[i]? with
      | some o => [o]
      | none => [] := by
  unfold shapelessGrid
  refine ⟨by rw [placeOpts_length]; simp, ?_⟩
  intro i hi
  have hr : (List.replicate 9 ([] : List Opt))[i]? = some [] := by
    rw [List.getElem?_replicate, if_pos hi]
  rw [List.getD_eq_getElem?_getD, placeOpts_get?, if_neg (Nat.not_lt_zero _), Nat.sub_zero, hr,
    List.length_replicate]
  cases ((ings.map normalizeIngredient).flatten)[i]? with
  | none => rfl
  | some o => simp [hi]

theorem normalizeBody_shapeless (ty : String) (rec : Json)
    (hty : endsWith ty "crafting_shapeless" = true) :
    normalizeBody ty rec =
      .ok (.shapeless (shapelessGrid (rec.get "ingredients").arrayOrEmpty)
        (some { rows := 3, cols := 3 })) := by
  unfold normalizeBody
  rw [if_neg (by rw [endsWith_shaped_of_shapeless ty hty]; decide), if_pos hty]
  rfl

theorem lookup_pushRecipe (key : Json) (e : IndexedRecipe) (k : Json) :
    ∀ m : ByOutput, (pushRecipe m key e).lookup k =
      if k = key then some (((m.lookup key).getD []) ++ [e]) else m.lookup k := by
  intro m
  induction m with
  | nil =>
    by_cases h : k = key
    · subst h; simp [pushRecipe, List.lookup]
    · have hne : (k == key) = false := by simpa using h
      simp [pushRecipe, List.lookup, h, hne]
  | cons p rest ih =>
    obtain ⟨k', rs⟩ := p
    rw [pushRecipe]
    by_cases hk : k' = key
    · subst hk
      rw [if_pos rfl]
      by_cases h : k = k'
      · subst h; simp [List.lookup]
      · have hne : (k == k') = false := by simpa using h
        simp [List.lookup, h, hne]
    · rw [if_neg hk]
      by_cases h : k = key
      · subst h
        have hne : (k == k') = false := by simpa using fun h => hk h.symm
        simp only [List.lookup, hne, ih, if_true]
      · by_cases h2 : k = k'
        · subst h2; simp [List.lookup, h]
        · have hne : (k == k') = false := by simpa using h2
          simp only [List.lookup, hne, ih, if_neg h]

theorem keys_pushRecipe (key : Json) (e : IndexedRecipe) :
    ∀ m : ByOutput, (pushRecipe m key e).map Prod.fst =
      if key ∈ m.map Prod.fst then m.map Prod.fst else m.map Prod.fst ++ [key] := by
  intro m
  induction m with
  | nil => simp [pushRecipe]
  | cons p rest ih =>
    obtain ⟨k', rs⟩ := p
    rw [pushRecipe]
    by_cases hk : k' = key
    · subst hk; simp
    · rw [if_neg hk, List.map_cons, ih]
      have hk2 : ¬ key = k' := fun h => hk h.symm
      by_cases hm : key ∈ rest.map Prod.fst
      · rw [if_pos hm, if_pos (by simp only [List.map_cons, List.mem_cons]; exact Or.inr hm)]
        rfl
      · rw [if_neg hm, if_neg (by
          simp only [List.map_cons, List.mem_cons]
          rintro (h | h)
          · exact hk2 h
          · exact hm h)]
        rfl

theorem nonempty_pushRecipe (key : Json) (e : IndexedRecipe) :
    ∀ m : ByOutput, (∀ p ∈ m, p.2 ≠ []) → ∀ p ∈ pushRecipe m key e, p.2 ≠ [] := by
  intro m
  induction m with
  | nil =>
    intro _ p hp
    simp only [pushRecipe, List.mem_singleton] at hp
    subst hp
    simp
  | cons q rest ih =>
    obtain ⟨k', rs⟩ := q
    intro h p hp
    rw [pushRecipe] at hp
    split_ifs at hp
    · rcases List.mem_cons.mp hp with rfl | hp
      · simp
      · exact h p (List.mem_cons_of_mem _ hp)
    · rcases List.mem_cons.mp hp with rfl | hp
      · exact h _ (List.mem_cons_self _ _)
      · exact ih (fun p hp => h p (List.mem_cons_of_mem _ hp)) p hp

theorem recipesFor_append (k : Json) (l : List IndexedRecipe) (e : IndexedRecipe) :
    recipesFor k (l ++ [e]) = recipesFor k l ++ (if e.out.item = k then [e] else []) := by
  unfold recipesFor
  rw [List.filter_append]
  by_cases h : e.out.item = k <;> simp [List.filter, h]

theorem indexMatchesLog_empty : IndexMatchesLog State.empty := by
  refine ⟨fun k => ?_, fun k => ?_, fun k => ?_, fun p hp => ?_, ?_⟩ <;>
    simp [State.empty, recipesFor, List.lookup] at *

theorem ingestOutput_preserves (rec : Json) (sourcePath : String) (st : State) (out : Output)
    (st' : State) (hinv : IndexMatchesLog st)
    (h : ingestOutput rec sourcePath st out = .ok st') : IndexMatchesLog st' := by
  unfold ingestOutput at h
  obtain ⟨norm, _, h⟩ := bind_eq_ok h
  obtain ⟨allOuts, _, h⟩ := bind_eq_ok h
  obtain ⟨key, hkey, h⟩ := bind_eq_ok h
  have hk : out.item = key := by
    unfold indexKey at hkey
    split at hkey <;> simp_all
  obtain ⟨entry, hentry⟩ : ∃ e : IndexedRecipe, e = ⟨norm, sourcePath, out, allOuts⟩ :=
    ⟨_, rfl⟩
  have hout : entry.out.item = key := by rw [hentry]; exact hk
  simp only [pure, Except.pure, Except.ok.injEq] at h
  rw [← hentry] at h
  subst h
  obtain ⟨hlook, hkeys, hset, hne, hnodup⟩ := hinv
  have hfor : ∀ k, recipesFor k (st.allRecipes ++ [entry]) =
      recipesFor k st.allRecipes ++ (if key = k then [entry] else []) := by
    intro k
    rw [recipesFor_append]
    simp only [hout]
  refine ⟨fun k => ?_, fun k => ?_, fun k => ?_, ?_, ?_⟩
  · simp only [hfor, lookup_pushRecipe, hlook]
    by_cases hkk : k = key
    · subst hkk
      by_cases he : recipesFor k st.allRecipes = [] <;> simp [he]
    · have hkk2 : ¬ key = k := fun h => hkk h.symm
      simp [hkk, hkk2]
  · simp only [hfor, keys_pushRecipe]
    by_cases hkk : key = k
    · subst hkk
      by_cases hm : key ∈ st.byOutput.map Prod.fst <;> simp [hm]
    · have h2 : ¬ k = key := fun h => hkk h.symm
      by_cases hm : key ∈ st.byOutput.map Prod.fst
      · rw [if_pos hm, if_neg hkk, List.append_nil]
        exact hkeys k
      · rw [if_neg hm, if_neg hkk, List.append_nil, List.mem_append, List.mem_singleton]
        rw [← hkeys k]
        tauto
  · simp only [hfor, addOutputOption]
    by_cases hkk : key = k
    · subst hkk
      by_cases hm : key ∈ st.allOutputs <;> simp [hm]
    · have h2 : ¬ k = key := fun h => hkk h.symm
      by_cases hm : key ∈ st.allOutputs
      · rw [if_pos hm, if_neg hkk, List.append_nil]
        exact hset k
      · rw [if_neg hm, if_neg hkk, List.append_nil, List.mem_append, List.mem_singleton]
        rw [← hset k]
        tauto
  · exact nonempty_pushRecipe _ _ _ hne
  · show ((pushRecipe st.byOutput key _).map Prod.fst).Nodup
    rw [keys_pushRecipe]
    split_ifs with hm
    · exact hnodup
    · exact List.Nodup.append hnodup (List.nodup_singleton _) (by simpa using hm)

theorem ingestRecipe_preserves (st : State) (rec : Json) (sourcePath : String) (st' : State)
    (hinv : IndexMatchesLog st) (h : ingestRecipe st rec sourcePath = .ok st') :
    IndexMatchesLog st' := by
  unfold ingestRecipe at h
  split_ifs at h with h1
  · simp only [Except.ok.injEq] at h
    exact h ▸ hinv
  · obtain ⟨outs, _, h⟩ := bind_eq_ok h
    split_ifs at h with h2
    · simp only [Except.ok.injEq] at h
      exact h ▸ hinv
    · exact foldlM_preserves IndexMatchesLog (ingestOutput rec sourcePath)
        (fun s x s' hs hx => ingestOutput_preserves rec sourcePath s x s' hs hx) outs st st'
        hinv h

theorem ingestAll_preserves (recs : List (Json × String)) (st st' : State)
    (hinv : IndexMatchesLog st) (h : ingestAll st recs = .ok st') : IndexMatchesLog st' := by
  unfold ingestAll at h
  exact foldlM_preserves IndexMatchesLog
    (fun (st : State) (r : Json × String) => ingestRecipe st r.1 r.2)
    (fun s x s' hs hx => ingestRecipe_preserves s x.1 x.2 s' hs hx) recs st st' hinv h

theorem split_last_sep (c : Char) : ∀ (a a' b b' : List Char), c ∉ b → c ∉ b' →
    a ++ c :: b = a' ++ c :: b' → a = a' ∧ b = b' := by
  intro a
  induction a with
  | nil =>
    intro a' b b' hb hb' h
    cases a' with
    | nil => exact ⟨rfl, by simpa using h⟩
    | cons x a'' =>
      exfalso
      simp only [List.nil_append, List.cons_append, List.cons.injEq] at h
      apply hb
      rw [h.2]
      simp
  | cons y a ih =>
    intro a' b b' hb hb' h
    cases a' with
    | nil =>
      exfalso
      simp only [List.nil_append, List.cons_append, List.cons.injEq] at h
      apply hb'
      rw [← h.2]
      simp
    | cons x a'' =>
      simp only [List.cons_append, List.cons.injEq] at h
      obtain ⟨h1, h2⟩ := ih a'' b b' hb hb' h.2
      exact ⟨by rw [h.1, h1], h2⟩

theorem key_parts (a b c a' b' c' : String) (hb : '|' ∉ b.data) (hc : '|' ∉ c.data)
    (hb' : '|' ∉ b'.data) (hc' : '|' ∉ c'.data)
    (h : a ++ "|" ++ b ++ "|" ++ c = a' ++ "|" ++ b' ++ "|" ++ c') :
    a = a' ∧ b = b' ∧ c = c' := by
  have hd := congrArg String.data h
  simp only [String.data_append] at hd
  have hd2 : (a.data ++ '|' :: b.data) ++ '|' :: c.data =
      (a'.data ++ '|' :: b'.data) ++ '|' :: c'.data := by
    simpa [List.append_assoc] using hd
  obtain ⟨h1, h2⟩ := split_last_sep '|' _ _ _ _ hc hc' hd2
  obtain ⟨h3, h4⟩ := split_last_sep '|' _ _ _ _ hb hb' h1
  exact ⟨String.ext h3, String.ext h4, String.ext h2⟩

theorem mem_outputNumbers_count : ∀ (l : List Output) (o : Output) (q : ℚ), o ∈ l →
    o.count = Json.num q → q ∈ outputNumbers l := by
  intro l
  induction l with
  | nil => intro o q h; simp at h
  | cons x xs ih =>
    intro o q h hq
    rw [outputNumbers]
    rcases List.mem_cons.mp h with rfl | h
    · simp [hq]
    · exact List.mem_append_right _ (ih o q h hq)

theorem mem_outputNumbers_chance : ∀ (l : List Output) (o : Output) (q : ℚ), o ∈ l →
    o.chance = Json.num q → q ∈ outputNumbers l := by
  intro l
  induction l with
  | nil => intro o q h; simp at h
  | cons x xs ih =>
    intro o q h hq
    rw [outputNumbers]
    rcases List.mem_cons.mp h with rfl | h
    · simp [hq]
    · exact List.mem_append_right _ (ih o q h hq)

theorem printsDistinctly_spec (nums : List ℚ) (h : printsDistinctly nums = true) :
    ∀ q ∈ nums, numToString q ≠ "" ∧ '|' ∉ (numToString q).data ∧
      ∀ q' ∈ nums, numToString q = numToString q' → q = q' := by
  intro q hq
  unfold printsDistinctly at h
  rw [List.all_eq_true] at h
  have hq2 := h q hq
  simp only [Bool.and_eq_true, decide_eq_true_eq, List.all_eq_true] at hq2
  exact ⟨hq2.1.1, hq2.1.2, hq2.2⟩

theorem plainOutput_shape (o : Output) (h : plainOutput o = true) :
    ∃ s q, o.item = Json.str s ∧ o.count = Json.num q ∧
      (o.chance = Json.null ∨ ∃ q', o.chance = Json.num q') := by
  obtain ⟨i, n, c⟩ := o
  cases i <;> cases n <;> cases c <;> simp [plainOutput] at h ⊢

theorem outputKey_injOn (l : List Output) (hplain : ∀ o ∈ l, plainOutput o = true)
    (hprint : printsDistinctly (outputNumbers l) = true) :
    ∀ o ∈ l, ∀ o' ∈ l, outputKey o = outputKey o' → o = o' := by
  replace hprint := printsDistinctly_spec _ hprint
  intro o ho o' ho' hkey
  obtain ⟨s, q, hi, hn, hc⟩ := plainOutput_shape o (hplain o ho)
  obtain ⟨s', q', hi', hn', hc'⟩ := plainOutput_shape o' (hplain o' ho')
  have hq := hprint q (mem_outputNumbers_count l o q ho hn)
  have hq' := hprint q' (mem_outputNumbers_count l o' q' ho' hn')
  obtain ⟨i, n, c⟩ := o
  obtain ⟨i', n', c'⟩ := o'
  simp only at hi hn hc hi' hn' hc'
  subst hi hn hi' hn'
  have hnil : '|' ∉ ("" : String).data := by simp
  rcases hc with rfl | ⟨p, rfl⟩ <;> rcases hc' with rfl | ⟨p', rfl⟩
  · obtain ⟨h1, h2, _⟩ := key_parts _ _ _ _ _ _ hq.2.1 hnil hq'.2.1 hnil hkey
    simp only [Json.toStr] at h1 h2
    rw [h1, hq.2.2 q' (mem_outputNumbers_count l _ q' ho' rfl) h2]
  · have hp' := hprint p' (mem_outputNumbers_chance l _ p' ho' rfl)
    obtain ⟨_, _, h3⟩ := key_parts _ _ _ _ _ _ hq.2.1 hnil hq'.2.1 hp'.2.1 hkey
    exact absurd h3.symm hp'.1
  · have hp := hprint p (mem_outputNumbers_chance l _ p ho rfl)
    obtain ⟨_, _, h3⟩ := key_parts _ _ _ _ _ _ hq.2.1 hp.2.1 hq'.2.1 hnil hkey
    exact absurd h3 hp.1
  · have hp := hprint p (mem_outputNumbers_chance l _ p ho rfl)
    have hp' := hprint p' (mem_outputNumbers_chance l _ p' ho' rfl)
    obtain ⟨h1, h2, h3⟩ := key_parts _ _ _ _ _ _ hq.2.1 hp.2.1 hq'.2.1 hp'.2.1 hkey
    simp only [Json.toStr] at h1 h2 h3
    rw [h1, hq.2.2 q' (mem_outputNumbers_count l _ q' ho' rfl) h2,
      hp.2.2 p' (mem_outputNumbers_chance l _ p' ho' rfl) h3]

theorem mem_firstOccurrences {α : Type} [DecidableEq α] (x : α) :
    ∀ l : List α, x ∈ firstOccurrences l ↔ x ∈ l := by
  intro l
  induction l with
  | nil => simp [firstOccurrences]
  | cons y ys ih =>
    rw [firstOccurrences, List.mem_cons, List.mem_cons, List.mem_filter, ih]
    by_cases h : x = y <;> simp [h]

theorem dedupOutputs_mem : ∀ (l : List Output) (seen : List String),
    ∀ o ∈ dedupOutputs seen l, o ∈ l ∧ outputKey o ∉ seen := by
  intro l
  induction l with
  | nil => intro seen o h; simp [dedupOutputs] at h
  | cons x xs ih =>
    intro seen o h
    rw [dedupOutputs] at h
    split_ifs at h with hx
    · exact ⟨List.mem_cons_of_mem _ (ih seen o h).1, (ih seen o h).2⟩
    · rcases List.mem_cons.mp h with rfl | h
      · exact ⟨List.mem_cons_self _ _, hx⟩
      · refine ⟨List.mem_cons_of_mem _ (ih _ o h).1, fun hs => (ih _ o h).2 ?_⟩
        exact List.mem_cons_of_mem _ hs

theorem dedupOutputs_keys_nodup : ∀ (l : List Output) (seen : List String),
    ((dedupOutputs seen l).map outputKey).Nodup := by
  intro l
  induction l with
  | nil => intro seen; simp [dedupOutputs]
  | cons x xs ih =>
    intro seen
    rw [dedupOutputs]
    split_ifs with hx
    · exact ih seen
    · rw [List.map_cons, List.nodup_cons]
      refine ⟨?_, ih _⟩
      intro hmem
      obtain ⟨o, ho, hk⟩ := List.mem_map.mp hmem
      exact (dedupOutputs_mem xs _ o ho).2 (by rw [hk]; exact List.mem_cons_self _ _)

theorem dedupOutputs_sublist : ∀ (l : List Output) (seen : List String),
    (dedupOutputs seen l).Sublist l := by
  intro l
  induction l with
  | nil => intro seen; simp [dedupOutputs]
  | cons x xs ih =>
    intro seen
    rw [dedupOutputs]
    split_ifs
    · exact (ih seen).cons _
    · exact (ih _).cons₂ _

theorem dedupOutputs_eq_firstOccurrences : ∀ (l : List Output) (seen : List String),
    (∀ o ∈ l, ∀ o' ∈ l, outputKey o = outputKey o' → o = o') →
    dedupOutputs seen l =
      (firstOccurrences l).filter (fun o => decide (outputKey o ∉ seen)) := by
  intro l
  induction l with
  | nil => intro seen _; rfl
  | cons x xs ih =>
    intro seen hinj
    have hinj' : ∀ o ∈ xs, ∀ o' ∈ xs, outputKey o = outputKey o' → o = o' :=
      fun o ho o' ho' => hinj o (List.mem_cons_of_mem _ ho) o' (List.mem_cons_of_mem _ ho')
    rw [dedupOutputs, firstOccurrences]
    by_cases hx : outputKey x ∈ seen
    · rw [if_pos hx, ih seen hinj', List.filter_cons, if_neg (by simpa using hx),
        List.filter_filter]
      apply List.filter_congr
      intro y hy
      by_cases hys : outputKey y ∈ seen
      · simp [hys]
      · have hyx : y ≠ x := fun h => hys (h ▸ hx)
        simp [hys, hyx]
    · rw [if_neg hx, ih _ hinj', List.filter_cons, if_pos (by simpa using hx),
        List.filter_filter]
      congr 1
      apply List.filter_congr
      intro y hy
      have hyxs : y ∈ xs := (mem_firstOccurrences y xs).mp hy
      by_cases hyx : y = x
      · subst hyx; simp
      · have hk : outputKey y ≠ outputKey x := fun h =>
          hyx (hinj y (List.mem_cons_of_mem _ hyxs) x (List.mem_cons_self _ _) h)
        simp [hyx, hk]

theorem orElse_truthy (a b : Json) (hb : b.truthy = true) : (a.orElse b).truthy = true := by
  unfold Json.orElse
  split_ifs with h
  · exact h
  · exact hb

mutual
theorem normalizeOutput_truthy :
    ∀ (v : Json) (o : Output), normalizeOutput v = some o →
      o.item.truthy = true ∧ o.count.truthy = true
  | .null, o, h => by simp [normalizeOutput] at h
  | .bool _, o, h => by simp [normalizeOutput] at h
  | .num _, o, h => by simp [normalizeOutput] at h
  | .str s, o, h => by
    rw [normalizeOutput] at h
    split_ifs at h with hs
    simp only [Option.some.injEq] at h
    subst h
    exact ⟨by simp [Json.truthy, hs], by simp [Json.truthy]⟩
  | .arr xs, o, h => by
    rw [normalizeOutput] at h
    split at h
    · simp at h
    · rename_i first hfind
      simp only [Option.some.injEq] at h
      subst h
      have hp := List.find?_some hfind
      simp only [Bool.and_eq_true] at hp
      exact ⟨hp.2, orElse_truthy _ _ (by decide)⟩
  | .obj kvs, o, h => by
    rw [normalizeOutput] at h
    split_ifs at h with h1 h2 h3
    · simp only [Option.some.injEq] at h
      subst h
      exact ⟨h1, orElse_truthy _ _ (by decide)⟩
    · simp only [Option.some.injEq] at h
      subst h
      exact ⟨h2, orElse_truthy _ _ (by decide)⟩
    · exact normalizeOutputResult_truthy kvs o h
theorem normalizeOutputResult_truthy :
    ∀ (kvs : List (String × Json)) (o : Output), normalizeOutputResult kvs = some o →
      o.item.truthy = true ∧ o.count.truthy = true
  | [], o, h => by simp [normalizeOutputResult] at h
  | (k, v) :: rest, o, h => by
    rw [normalizeOutputResult] at h
    split_ifs at h
    · exact normalizeOutput_truthy v o h
    · exact normalizeOutputResult_truthy rest o h
end

theorem backfillCount_of_truthy (rec : Json) (o : Output) (h : o.count.truthy = true) :
    backfillCount rec o = o := by
  unfold backfillCount
  split
  · rename_i hc _
    rw [hc] at h
    exact absurd h (by decide)
  · rfl

theorem resultsOutputs_eq (rs : List Json) :
    resultsOutputs rs =
      rs.filterMap (fun r =>
        (normalizeOutput r).map (fun o => { o with chance := r.get "chance" })) := by
  unfold resultsOutputs
  congr 1
  funext r
  cases hr : normalizeOutput r with
  | none => rfl
  | some o => simp [(normalizeOutput_truthy r o hr).1]

theorem primaryOutput_eq (rec : Json) :
    primaryOutput rec =
      (normalizeOutput ((rec.get "result").orElse (rec.get "output"))).toList := by
  unfold primaryOutput
  cases hr : normalizeOutput ((rec.get "result").orElse (rec.get "output")) with
  | none => rfl
  | some o => simp [(normalizeOutput_truthy _ o hr).1]

theorem map_backfillCount (rec : Json) :
    ∀ l : List Output, (∀ o ∈ l, o.count.truthy = true) → l.map (backfillCount rec) = l := by
  intro l
  induction l with
  | nil => intro _; rfl
  | cons x xs ih =>
    intro h
    rw [List.map_cons, backfillCount_of_truthy rec x (h x (List.mem_cons_self _ _)),
      ih (fun o ho => h o (List.mem_cons_of_mem _ ho))]

theorem resolvedOutputs_eq (rec : Json) :
    resolvedOutputs rec =
      (rec.get "results").arrayOrEmpty.filterMap (fun r =>
        (normalizeOutput r).map (fun o => { o with chance := r.get "chance" })) ++
      (normalizeOutput ((rec.get "result").orElse (rec.get "output"))).toList := by
  have hunf : resolvedOutputs rec =
      (resultsOutputs (rec.get "results").arrayOrEmpty ++ primaryOutput rec).map
        (backfillCount rec) := by
    unfold resolvedOutputs
    cases rec.get "results" <;> rfl
  rw [hunf, resultsOutputs_eq, primaryOutput_eq]
  apply map_backfillCount
  intro o ho
  rcases List.mem_append.mp ho with h | h
  · obtain ⟨r, _, hr⟩ := List.mem_filterMap.mp h
    obtain ⟨o', ho', rfl⟩ := Option.map_eq_some'.mp hr
    exact (normalizeOutput_truthy r o' ho').2
  · rw [Option.mem_toList] at h
    exact (normalizeOutput_truthy _ o h).2

/-! ## Fluids of sequence steps, any-of slots and grid indices -/

theorem normalizeRecipe_fluidStepRecord (a loops : ℚ) :
    normalizeRecipe (fluidStepRecord a loops) = .ok (fluidStepRecipe a loops) := by
  obtain ⟨c1, c2, c3, c4, c5, c6, c7, c8, c9, c10⟩ := seqType_dispatch
  have hty : toLowerCase (((fluidStepRecord a loops).get "type").orElse
      (Json.str "")).toStr = "create:sequenced_assembly" := by
    simp only [fluidStepRecord, Json.get, lookupField, if_true, Json.orElse]
    exact seqType_lower
  have hseq : ((fluidStepRecord a loops).get "sequence").arrayOrEmpty =
      [Json.obj [("type", Json.str "create:filling"),
        ("ingredients", Json.arr [Json.obj [("item", Json.str "a:part")],
          Json.obj [("fluid", Json.str "minecraft:water"), ("amount", Json.num a)]])]] := by
    simp [fluidStepRecord, Json.get, lookupField, Json.arrayOrEmpty]
  have hres : (fluidStepRecord a loops).get "results" =
      Json.arr [Json.obj [("item", Json.str "a:out")]] := by
    simp [fluidStepRecord, Json.get, lookupField]
  have hloops : (fluidStepRecord a loops).get "loops" = Json.num loops := by
    simp [fluidStepRecord, Json.get, lookupField]
  have hbase : normalizeIngredient (((fluidStepRecord a loops).get "ingredient").orElse
      ((fluidStepRecord a loops).get "input")) = [Opt.item (Json.str "a:base")] := by
    simp [fluidStepRecord, Json.get, Json.orElse, Json.truthy, normalizeIngredient, lookupField]
  have htr : transitionalOf (fluidStepRecord a loops) [Opt.item (Json.str "a:base")] =
      Json.str "a:part" := by
    simp [transitionalOf, fluidStepRecord, Json.get, Json.orElse, Json.truthy, lookupField]
  have hact : String.mk ((splitOnChar ':' ("create:filling" : String).data).getLast?.getD []) =
      "filling" := by decide
  have hamount : (Json.num a).orElse (Json.num 0) = Json.num a := by
    by_cases ha : a = 0
    · simp [Json.orElse, Json.truthy, ha]
    · simp [Json.orElse, Json.truthy, ha]
  have hstep : normalizeStep (Json.obj [("type", Json.str "create:filling"),
        ("ingredients", Json.arr [Json.obj [("item", Json.str "a:part")],
          Json.obj [("fluid", Json.str "minecraft:water"), ("amount", Json.num a)]])]) =
      .ok { action := "filling", extra := [Opt.item (Json.str "fluid:minecraft:water")],
            extraFluids := [{ id := Json.str "minecraft:water", amount := Json.num a }] } := by
    have hfl : normalizeIngredient (Json.obj [("fluid", Json.str "minecraft:water"),
        ("amount", Json.num a)]) = [Opt.item (Json.str "fluid:minecraft:water")] := by
      rw [normalizeIngredient]
      simp [lookupField, Json.truthy, Json.orElse, Json.toStr]
    have hfo : fluidOf (Json.obj [("fluid", Json.str "minecraft:water"),
        ("amount", Json.num a)]) =
        [{ id := Json.str "minecraft:water", amount := Json.num a }] := by
      have hl1 : lookupField "fluid" [("fluid", Json.str "minecraft:water"),
          ("amount", Json.num a)] = Json.str "minecraft:water" := by simp [lookupField]
      have hl2 : lookupField "amount" [("fluid", Json.str "minecraft:water"),
          ("amount", Json.num a)] = Json.num a := by simp [lookupField]
      have ht : (Json.str "minecraft:water").truthy = true := by decide
      simp only [fluidOf, hl1, hl2, ht, if_true, hamount]
    have hing : (Json.obj [("type", Json.str "create:filling"),
        ("ingredients", Json.arr [Json.obj [("item", Json.str "a:part")],
          Json.obj [("fluid", Json.str "minecraft:water"), ("amount", Json.num a)]])]).get
        "ingredients" = Json.arr [Json.obj [("item", Json.str "a:part")],
          Json.obj [("fluid", Json.str "minecraft:water"), ("amount", Json.num a)]] := by
      simp [Json.get, lookupField]
    have htyp : ((Json.obj [("type", Json.str "create:filling"),
        ("ingredients", Json.arr [Json.obj [("item", Json.str "a:part")],
          Json.obj [("fluid", Json.str "minecraft:water"), ("amount", Json.num a)]])]).get
        "type").orElse (Json.str "") = Json.str "create:filling" := by
      simp [Json.get, lookupField, Json.orElse, Json.truthy]
    have hmaybe : (([Json.obj [("item", Json.str "a:part")],
          Json.obj [("fluid", Json.str "minecraft:water"), ("amount", Json.num a)]].getD 1
          Json.null).orElse ([Json.obj [("item", Json.str "a:part")],
          Json.obj [("fluid", Json.str "minecraft:water"), ("amount", Json.num a)]].getD 0
          Json.null)) =
        Json.obj [("fluid", Json.str "minecraft:water"), ("amount", Json.num a)] := by
      simp [Json.orElse, Json.truthy]
    simp only [normalizeStep, hing, htyp, hmaybe, hfl, hfo, Json.toStr, hact]
  have hentry : resultEntry (Json.obj [("item", Json.str "a:out")]) =
      .ok { item := Json.str "a:out", count := Json.num 1 } := by decide!
  show normalizeRecord (fluidStepRecord a loops) = _
  unfold normalizeRecord normalizeBody
  simp only [hty, c1, c2, c3, c4, c5, c6, c7, c8, c9, c10, Bool.false_eq_true, if_false, if_true,
    Bool.or_self, hseq, resultsListOf, hres, hloops, hbase, htr, mapM_singleton, hstep, hentry,
    bind, Except.bind, pure, Except.pure, fluidStepRecipe]

theorem bom_fluidStepRecipe (a loops n : ℚ) :
    bomForRecipe [] 1 (fluidStepRecipe a loops) n [] =
      .ok { items := aggregate (aggregate [] "item:a:base" n) "item:fluid:minecraft:water"
              (n * numOr loops 1),
            fluids := aggregate [] "fluid:minecraft:water" (a * n),
            visited := [] } := by
  have hB : ∀ st q, addOptionList [] (bomForRecipe [] 0) st [Opt.item (Json.str "a:base")] q =
      .ok { st with items := aggregate st.items "item:a:base" q } := fun st q =>
    addOptionList_leaf [] _ st (Json.str "a:base") q (by decide) (Or.inr rfl) (by decide)
      (by decide)
  have hF : ∀ st q, addOptionList [] (bomForRecipe [] 0) st
      [Opt.item (Json.str "fluid:minecraft:water")] q =
      .ok { st with items := aggregate st.items "item:fluid:minecraft:water" q } := fun st q =>
    addOptionList_leaf [] _ st (Json.str "fluid:minecraft:water") q (by decide) (Or.inr rfl)
      (by decide) (by decide)
  have hamount : ((Json.num a).orElse (Json.num 0)).toNumber = .ok a := by
    by_cases ha : a = 0
    · simp [Json.orElse, Json.truthy, ha, Json.toNumber]
    · simp [Json.orElse, Json.truthy, ha, Json.toNumber]
  unfold fluidStepRecipe
  rw [bomForRecipe_sequenced]
  simp only [List.foldlM_cons, List.foldlM_nil, hB, hF, addStepFluids, hamount, bind,
    Except.bind, pure, Except.pure, Json.toStr]
  rfl

theorem addOptionList_many (byOutput : ByOutput)
    (recurse : Recipe → ℚ → List Json → Except Err BomState) (st : BomState) (o1 o2 : Opt)
    (rest : List Opt) (q : ℚ) :
    addOptionList byOutput recurse st (o1 :: o2 :: rest) q =
      .ok { st with items := aggregate st.items (anyKey (o1 :: o2 :: rest)) q } := by
  unfold addOptionList
  simp only [List.isEmpty, Bool.false_and, Bool.false_eq_true, if_false]
  rfl

theorem anyKey_ne_empty (opts : List Opt) : anyKey opts ≠ "" :=
  append_ne_empty _ _ (by decide)

theorem fillRow_cons (key : Json) (row : List Char) (r s c : Nat) (cs : List Nat)
    (grid : List (List Opt)) :
    fillRow key row r s (c :: cs) grid =
      (keyLookup key (charAt row c) >>= fun mapped =>
        fillRow key row r s cs (grid.set (r * s + c) (slotFor mapped))) := by
  unfold fillRow
  rw [List.foldlM_cons]
  cases keyLookup key (charAt row c) <;> rfl

theorem fillRow_spec (key : Json) (row : List Char) (r s : Nat) :
    ∀ (cs : List Nat) (grid grid' : List (List Opt)),
      fillRow key row r s cs grid = .ok grid' →
      grid'.length = grid.length ∧
      (∀ c ∈ cs, ∃ mapped, keyLookup key (charAt row c) = .ok mapped ∧
        (r * s + c < grid.length → grid'[r * s + c]? = some (slotFor mapped))) ∧
      (∀ j, (∀ c ∈ cs, j ≠ r * s + c) → grid'[j]? = grid[j]?) := by
  intro cs
  induction cs with
  | nil =>
    intro grid grid' h
    have : grid' = grid := by
      unfold fillRow at h
      simpa [pure, Except.pure] using h.symm
    subst this
    exact ⟨rfl, fun c hc => absurd hc (List.not_mem_nil c), fun j _ => rfl⟩
  | cons c0 cs ih =>
    intro grid grid' h
    rw [fillRow_cons] at h
    obtain ⟨m0, hm0, h⟩ := bind_eq_ok h
    obtain ⟨hlen, hw, hother⟩ := ih _ _ h
    have hlen' : grid'.length = grid.length := by rw [hlen, List.length_set]
    refine ⟨hlen', ?_, ?_⟩
    · intro c hc
      by_cases hcs : c ∈ cs
      · obtain ⟨m, hm, hget⟩ := hw c hcs
        exact ⟨m, hm, fun hlt => hget (by rw [List.length_set]; exact hlt)⟩
      · have hc0 : c = c0 := by
          rcases List.mem_cons.mp hc with h1 | h1
          · exact h1
          · exact absurd h1 hcs
        subst hc0
        refine ⟨m0, hm0, fun hlt => ?_⟩
        rw [hother (r * s + c) (fun c' hc' heq => hcs (by
          have : c = c' := by omega
          rw [this]; exact hc'))]
        exact List.getElem?_set_self hlt
    · intro j hj
      rw [hother j (fun c hc => hj c (List.mem_cons_of_mem _ hc))]
      exact List.getElem?_set_ne (fun heq => hj c0 (List.mem_cons_self _ _) heq.symm)

theorem fillRows_spec (key : Json) (rowOf : Nat → List Char) (colsOf : Nat → List Nat)
    (s : Nat) (hcols : ∀ r, ∀ c ∈ colsOf r, c < s) :
    ∀ (R : Nat) (grid0 grid : List (List Opt)),
      (List.range R).foldlM (fun grid r => fillRow key (rowOf r) r s (colsOf r) grid) grid0 =
        .ok grid →
      R * s ≤ grid0.length →
      grid.length = grid0.length ∧
      (∀ r, r < R → ∀ c ∈ colsOf r, ∃ mapped,
        keyLookup key (charAt (rowOf r) c) = .ok mapped ∧
        grid[r * s + c]? = some (slotFor mapped)) ∧
      (∀ j, (∀ r, r < R → ∀ c ∈ colsOf r, j ≠ r * s + c) → grid[j]? = grid0[j]?) := by
  intro R
  induction R with
  | zero =>
    intro grid0 grid h _
    have : grid = grid0 := by simpa [pure, Except.pure] using h.symm
    subst this
    exact ⟨rfl, fun r hr => absurd hr (Nat.not_lt_zero r), fun j _ => rfl⟩
  | succ R ih =>
    intro grid0 grid h hbound
    rw [List.range_succ, List.foldlM_append] at h
    obtain ⟨g1, hg1, h⟩ := bind_eq_ok h
    have hstep : fillRow key (rowOf R) R s (colsOf R) g1 = .ok grid := by
      rw [List.foldlM_cons] at h
      obtain ⟨g2, hg2, h⟩ := bind_eq_ok h
      have : g2 = grid := by simpa [pure, Except.pure] using h
      rw [← this]
      exact hg2
    have hmul : R * s + s ≤ grid0.length := by
      have : (R + 1) * s = R * s + s := Nat.succ_mul R s
      omega
    obtain ⟨hlen1, hw1, ho1⟩ := ih grid0 g1 hg1 (by omega)
    obtain ⟨hlen2, hw2, ho2⟩ := fillRow_spec key (rowOf R) R s (colsOf R) g1 grid hstep
    refine ⟨by rw [hlen2, hlen1], ?_, ?_⟩
    · intro r hr c hc
      have hcs := hcols r c hc
      by_cases hrR : r < R
      · obtain ⟨m, hm, hget⟩ := hw1 r hrR c hc
        refine ⟨m, hm, ?_⟩
        rw [ho2 (r * s + c) (fun c' _ heq => by
          have h1 : (r + 1) * s ≤ R * s := Nat.mul_le_mul_right s hrR
          have h2 : (r + 1) * s = r * s + s := Nat.succ_mul r s
          omega)]
        exact hget
      · have hrEq : r = R := by omega
        subst hrEq
        obtain ⟨m, hm, hget⟩ := hw2 c hc
        exact ⟨m, hm, hget (by omega)⟩
    · intro j hj
      rw [ho2 j (fun c hc => hj R (Nat.lt_succ_self R) c hc)]
      exact ho1 j (fun r hr c hc => hj r (Nat.lt_succ_of_lt hr) c hc)

theorem range_map_getD {α : Type} (d : α) (l : List α) :
    (List.range l.length).map (fun i => l.getD i d) = l := by
  apply List.ext_getElem?
  intro i
  by_cases hi : i < l.length
  · rw [List.getElem?_map, List.getElem?_range hi, Option.map_some', List.getD_eq_getElem?_getD,
      List.getElem?_eq_getElem hi]
    rfl
  · rw [List.getElem?_eq_none (by simpa using hi), List.getElem?_eq_none (by omega)]

theorem normalizeBody_crafting_shaped (ty : String) (rec : Json) (body : RecipeBody)
    (hty : endsWith ty "crafting_shaped" = true) (h : normalizeBody ty rec = .ok body) :
    ∃ (grid : List (List Opt)) (m : Nat),
      maxRowLength (rec.get "pattern").arrayOrEmpty = .ok m ∧
      body = .shaped grid
        { rows := max 1 (min 3 (rec.get "pattern").arrayOrEmpty.length),
          cols := max 1 (min 3 m) } ∧
      grid.length = 9 ∧
      ∀ r c, r < min 3 (rec.get "pattern").arrayOrEmpty.length →
        c < min (min 3 m) (rowChars (rec.get "pattern").arrayOrEmpty r).length →
        ∃ mapped,
          keyLookup ((rec.get "key").orElse (Json.obj []))
            (charAt (rowChars (rec.get "pattern").arrayOrEmpty r) c) = .ok mapped ∧
          grid[r * 3 + c]? = some (slotFor mapped) := by
  unfold normalizeBody at h
  rw [if_pos hty] at h
  obtain ⟨m, hm, h⟩ := bind_eq_ok h
  obtain ⟨grid, hgrid, h⟩ := bind_eq_ok h
  simp only [pure, Except.pure, Except.ok.injEq] at h
  unfold shapedGrid at hgrid
  obtain ⟨hlen, hw, _⟩ := fillRows_spec ((rec.get "key").orElse (Json.obj []))
    (rowChars (rec.get "pattern").arrayOrEmpty)
    (fun r => List.range (min (min 3 m) (rowChars (rec.get "pattern").arrayOrEmpty r).length)) 3
    (fun r c hc => by
      have := List.mem_range.mp hc
      omega)
    (min 3 (rec.get "pattern").arrayOrEmpty.length) _ grid hgrid
    (by simp only [List.length_replicate]; omega)
  refine ⟨grid, m, hm, h.symm, by rw [hlen, List.length_replicate], ?_⟩
  intro r c hr hc
  exact hw r hr c (List.mem_range.mpr hc)

theorem normalizeBody_mechanical (ty : String) (rec : Json) (body : RecipeBody)
    (h0 : endsWith ty "crafting_shaped" = false) (h1 : endsWith ty "crafting_shapeless" = false)
    (h2 : includes ty "mechanical_crafting" = true) (h : normalizeBody ty rec = .ok body) :
    ∃ (grid : List (List Opt)) (m : Nat),
      maxRowLength (rec.get "pattern").arrayOrEmpty = .ok m ∧
      body = .shaped grid
        { rows := max 1 (rec.get "pattern").arrayOrEmpty.length, cols := max 1 m } ∧
      grid.length = max 1 (rec.get "pattern").arrayOrEmpty.length * max 1 m ∧
      renderGrid grid
        (some { rows := max 1 (rec.get "pattern").arrayOrEmpty.length, cols := max 1 m }) =
        grid ∧
      ∀ r c, r < max 1 (rec.get "pattern").arrayOrEmpty.length → c < max 1 m →
        ∃ mapped,
          keyLookup ((rec.get "key").orElse (Json.obj []))
            (charAt (rowChars (rec.get "pattern").arrayOrEmpty r) c) = .ok mapped ∧
          grid[r * max 1 m + c]? = some (slotFor mapped) := by
  unfold normalizeBody at h
  rw [if_neg (by rw [h0]; decide), if_neg (by rw [h1]; decide), if_pos h2] at h
  obtain ⟨m, hm, h⟩ := bind_eq_ok h
  obtain ⟨grid, hgrid, h⟩ := bind_eq_ok h
  simp only [pure, Except.pure, Except.ok.injEq] at h
  unfold mechanicalGrid at hgrid
  obtain ⟨hlen, hw, _⟩ := fillRows_spec ((rec.get "key").orElse (Json.obj []))
    (rowChars (rec.get "pattern").arrayOrEmpty) (fun _ => List.range (max 1 m)) (max 1 m)
    (fun r c hc => List.mem_range.mp hc)
    (max 1 (rec.get "pattern").arrayOrEmpty.length) _ grid hgrid
    (by simp only [List.length_replicate]; exact le_refl _)
  have hlen' : grid.length = max 1 (rec.get "pattern").arrayOrEmpty.length * max 1 m := by
    rw [hlen, List.length_replicate]
  refine ⟨grid, m, hm, h.symm, hlen', ?_, ?_⟩
  · unfold renderGrid renderRows renderCols
    have hr : ¬ (max 1 (rec.get "pattern").arrayOrEmpty.length = 0) := by omega
    have hc : ¬ (max 1 m = 0) := by omega
    simp only [if_neg hr, if_neg hc]
    rw [← hlen']
    exact range_map_getD [] grid
  · intro r c hr hc
    exact hw r hr c (List.mem_range.mpr hc)

/-! ## The claims -/

/-- C1. `bomForRecipe` terminates for every Recipe Index, recipe, craft count and starting
visited set: a recursion budget larger than the number of index keys outside `visited` is
never exhausted, because every recursive call is made for an indexed item outside `visited`
after adding it; and with such a budget the outcome does not depend on the budget. -/
theorem C1_bomForRecipe_terminates (byOutput : ByOutput) (rec : Recipe) (n : ℚ)
    (visited : List Json) (fuel : Nat) (h : unvisitedKeys byOutput visited < fuel) :
    bomForRecipe byOutput fuel rec n visited ≠ .error .outOfFuel ∧
      ∀ extra : Nat, bomForRecipe byOutput (fuel + extra) rec n visited =
        bomForRecipe byOutput fuel rec n visited :=
  ⟨bomForRecipe_ne_outOfFuel byOutput fuel rec n visited h,
    bomForRecipe_fuel_irrelevant byOutput rec n visited fuel
      (bomForRecipe_ne_outOfFuel byOutput fuel rec n visited h)⟩

/-- C1 at the mutually referential index `A <- [B], B <- [A]`: two keys are unvisited, so a
budget of 3 suffices. -/
theorem C1_witness :
    unvisitedKeys (cycleIndex (Json.str "A") (Json.str "B")) [] < 3 ∧
    (bomForRecipe (cycleIndex (Json.str "A") (Json.str "B")) 3
        (singleSlotRecipe (Json.str "B")) 5 [] ≠ .error .outOfFuel ∧
      ∀ extra : Nat, bomForRecipe (cycleIndex (Json.str "A") (Json.str "B")) (3 + extra)
          (singleSlotRecipe (Json.str "B")) 5 [] =
        bomForRecipe (cycleIndex (Json.str "A") (Json.str "B")) 3
          (singleSlotRecipe (Json.str "B")) 5 []) :=
  ⟨by decide, C1_bomForRecipe_terminates _ _ _ _ 3 (by decide)⟩

/-- C2. A slot naming a single item that is indexed and not visited, whose chosen sub-recipe
yields `c ≥ 1` per craft, expands a quantity `q ≥ 1` as the sub-recipe for exactly `⌈q / c⌉`
crafts (the result is the sub-recipe's bill for that many crafts, merged into the maps);
`⌈q / c⌉` is at least 1 and is the least integer `k` with `k * c ≥ q`; and a leaf item in a
slot of the sub-recipe is recorded with quantity `⌈q / c⌉`. -/
theorem C2_ceiling_crafts (byOutput : ByOutput)
    (recurse : Recipe → ℚ → List Json → Except Err BomState) (st : BomState) (id : Json)
    (q c : ℚ) (sub : IndexedRecipe) (hid : id.truthy = true) (hvis : id ∉ st.visited)
    (hidx : (byOutput.lookup id).isSome = true)
    (hsub : chooseRecipeForBase byOutput id = .ok (some sub))
    (hc : sub.out.count = Json.num c) (hc1 : 1 ≤ c) (hq : 1 ≤ q) :
    addOptionList byOutput recurse st [Opt.item id] q =
        (do
          let subBom ← recurse sub.recipe ((Int.ceil (q / c) : ℤ) : ℚ) (st.visited ++ [id])
          pure { items := mergeInto st.items subBom.items,
                 fluids := mergeInto st.fluids subBom.fluids,
                 visited := subBom.visited }) ∧
      1 ≤ Int.ceil (q / c) ∧
      q ≤ ((Int.ceil (q / c) : ℤ) : ℚ) * c ∧
      (∀ k : ℤ, q ≤ (k : ℚ) * c → Int.ceil (q / c) ≤ k) ∧
      (∀ (x l : String) (fuel : Nat), x ≠ "" → l ≠ "" → x ≠ l → l ≠ "create:cogwheel" →
        l ≠ "create:large_cogwheel" →
        bomForRecipe (chainIndex (Json.str x) (Json.str l) c) (fuel + 2)
            (singleSlotRecipe (Json.str x)) q [] =
          .ok { items := [("item:" ++ l, ((Int.ceil (q / c) : ℤ) : ℚ))], fluids := [],
                visited := [Json.str x] }) := by
  have hc0 : c ≠ 0 := by linarith
  have hpos := ceil_pos_of_ge_one q c hq hc1
  have hk : mathCeil (q / c) ≠ 0 := by
    unfold mathCeil
    exact_mod_cast (by omega : Int.ceil (q / c) ≠ 0)
  refine ⟨addOptionList_expand byOutput recurse st id q c sub hid hvis hidx hsub hc hc0, hpos,
    (ceil_least q c (by linarith)).1, (ceil_least q c (by linarith)).2, ?_⟩
  intro x l fuel hx hl hxl hl1 hl2
  exact bom_chain x l q c fuel hx hl hxl hl1 hl2 hc0 hk

/-- C2 at yield 3 and quantity 7: the sub-recipe runs for 3 crafts and its leaf `L` is
recorded with quantity 3. -/
theorem C2_witness :
    bomForRecipe (chainIndex (Json.str "X") (Json.str "L") 3) 2
        (singleSlotRecipe (Json.str "X")) 7 [] =
      .ok { items := [("item:L", 3)], fluids := [], visited := [Json.str "X"] } := by
  have h := (C2_ceiling_crafts (chainIndex (Json.str "X") (Json.str "L") 3)
    (bomForRecipe (chainIndex (Json.str "X") (Json.str "L") 3) 1)
    { items := [], fluids := [], visited := [] } (Json.str "X") 7 3
    (indexedAs (Json.str "X") 3 (singleSlotRecipe (Json.str "L")))
    (by decide) (by decide) (by decide) (by decide!) rfl (by norm_num) (by norm_num)).2.2.2.2
    "X" "L" 0 (by decide) (by decide) (by decide) (by decide) (by decide)
  have h3 : Int.ceil ((7 : ℚ) / 3) = 3 := by decide!
  rw [h3] at h
  exact h

/-- C3 (the code departs from the claim). With `X <- [L]` indexed (yield 1), a recipe that
needs `X` in two slots with quantities 2 and 3 expands only the first: the second finds `X`
in the shared visited set and is recorded as the leaf `item:X`.  The same recipe with `X`
once, quantity 5, records 5 of `L`; each slot on its own records 2, respectively 3, of `L`. -/
theorem C3_second_slot_not_expanded :
    bomForRecipe (chainIndex (Json.str "X") (Json.str "L") 1) 2
        (gunsmithRecipe [(Json.str "X", 2), (Json.str "X", 3)]) 1 [] =
      .ok { items := [("item:L", 2), ("item:X", 3)], fluids := [], visited := [Json.str "X"] } ∧
    bomForRecipe (chainIndex (Json.str "X") (Json.str "L") 1) 2
        (gunsmithRecipe [(Json.str "X", 5)]) 1 [] =
      .ok { items := [("item:L", 5)], fluids := [], visited := [Json.str "X"] } ∧
    bomForRecipe (chainIndex (Json.str "X") (Json.str "L") 1) 2
        (gunsmithRecipe [(Json.str "X", 2)]) 1 [] =
      .ok { items := [("item:L", 2)], fluids := [], visited := [Json.str "X"] } ∧
    bomForRecipe (chainIndex (Json.str "X") (Json.str "L") 1) 2
        (gunsmithRecipe [(Json.str "X", 3)]) 1 [] =
      .ok { items := [("item:L", 3)], fluids := [], visited := [Json.str "X"] } := by
  decide!

/-- C4 (the code departs from the claim). A slot naming `create:cogwheel` or
`create:large_cogwheel`, with no indexed recipe, makes `bomForRecipe` throw a ReferenceError
for every quantity and visited set, instead of recording andesite alloy and logs. -/
theorem C4_cogwheel_fallback_throws (q : ℚ) (visited : List Json) (fuel : Nat) :
    bomForRecipe [] (fuel + 1) (singleSlotRecipe (Json.str "create:cogwheel")) q visited =
      .error .referenceError ∧
    bomForRecipe [] (fuel + 1) (singleSlotRecipe (Json.str "create:large_cogwheel")) q visited =
      .error .referenceError := by
  constructor <;>
  · unfold singleSlotRecipe
    rw [bomForRecipe_shapeless]
    simp [addOptionList, Opt.itemField, Json.truthy, addLeafItem, reduceKnownItemToBase,
      bind, Except.bind]

/-- C5. A slot naming a single item that is already in `visited` (and is neither fallback id)
is not expanded through the index: whatever the index and the recursive call, the slot
quantity is added to the key `item:<id>` and no other entry changes.  With the index
`a <- [b], b <- [a]` (yield 1 each), expanding `a`'s recipe for `n` crafts from
`visited = {a}` returns exactly `{item:a -> n}` and no fluids. -/
theorem C5_visited_item_is_leaf (byOutput : ByOutput)
    (recurse : Recipe → ℚ → List Json → Except Err BomState) (st : BomState) (id : Json)
    (q : ℚ) (hid : id.truthy = true) (hvis : id ∈ st.visited)
    (h1 : id ≠ Json.str "create:cogwheel") (h2 : id ≠ Json.str "create:large_cogwheel") :
    addOptionList byOutput recurse st [Opt.item id] q =
        .ok { st with items := aggregate st.items ("item:" ++ id.toStr) q } ∧
      (mapGet (aggregate st.items ("item:" ++ id.toStr) q) ("item:" ++ id.toStr)).getD 0 =
        (mapGet st.items ("item:" ++ id.toStr)).getD 0 + q ∧
      (∀ k, k ≠ "item:" ++ id.toStr →
        mapGet (aggregate st.items ("item:" ++ id.toStr) q) k = mapGet st.items k) ∧
      (∀ (a b : String) (n fuel : ℕ), a ≠ "" → b ≠ "" → a ≠ b → a ≠ "create:cogwheel" →
        a ≠ "create:large_cogwheel" → 0 < n →
        bomForRecipe (cycleIndex (Json.str a) (Json.str b)) (fuel + 2)
            (singleSlotRecipe (Json.str b)) n [Json.str a] =
          .ok { items := [("item:" ++ a, (n : ℚ))], fluids := [],
                visited := [Json.str a, Json.str b] }) :=
  ⟨addOptionList_leaf byOutput recurse st id q hid (Or.inl hvis) h1 h2,
    aggregate_get_self _ _ _ (append_ne_empty _ _ (by decide)),
    fun k hk => aggregate_get_ne _ _ k _ hk,
    fun a b n fuel ha hb hab ha1 ha2 hn => bom_cycle a b n fuel ha hb hab ha1 ha2 hn⟩

/-- C5 at the index `A <- [B], B <- [A]` with 4 crafts and `visited = {A}`. -/
theorem C5_witness :
    bomForRecipe (cycleIndex (Json.str "A") (Json.str "B")) 2
        (singleSlotRecipe (Json.str "B")) (4 : ℕ) [Json.str "A"] =
      .ok { items := [("item:A", ((4 : ℕ) : ℚ))], fluids := [],
            visited := [Json.str "A", Json.str "B"] } :=
  (C5_visited_item_is_leaf (cycleIndex (Json.str "A") (Json.str "B"))
    (bomForRecipe (cycleIndex (Json.str "A") (Json.str "B")) 0)
    { items := [], fluids := [], visited := [Json.str "A"] } (Json.str "A") 4
    (by decide) (by decide) (by decide) (by decide)).2.2.2
    "A" "B" 4 0 (by decide) (by decide) (by decide) (by decide) (by decide) (by decide)

/-- C6. For a `crafting_shapeless` record with ingredients `[a, a, b]` (distinct item ids,
not indexed, not fallback ids) and result `4 x c`, `normalizeRecipe` followed by
`bomForRecipe` for `n` crafts returns `{item:a -> 2n, item:b -> n}` and no fluids. -/
theorem C6_shapeless_scenario (byOutput : ByOutput) (ty a b c : String) (n : ℚ)
    (visited : List Json) (fuel : Nat)
    (hty : endsWith (toLowerCase ty) "crafting_shapeless" = true)
    (ha : a ≠ "") (hb : b ≠ "") (hab : a ≠ b)
    (hia : (byOutput.lookup (Json.str a)).isSome = false)
    (hib : (byOutput.lookup (Json.str b)).isSome = false)
    (ha1 : a ≠ "create:cogwheel") (ha2 : a ≠ "create:large_cogwheel")
    (hb1 : b ≠ "create:cogwheel") (hb2 : b ≠ "create:large_cogwheel") (hn : n ≠ 0) :
    (normalizeRecipe (shapelessRecord ty a b c) >>= fun r =>
        bomForRecipe byOutput (fuel + 1) r n visited) =
      .ok { items := [("item:" ++ a, 2 * n), ("item:" ++ b, n)], fluids := [],
            visited := visited } := by
  rw [normalizeRecipe_shapelessRecord ty a b c hty ha hb]
  simp only [bind, Except.bind]
  exact bom_shapelessRecord_grid byOutput _ a b _ n visited fuel ha hb hab hia hib ha1 ha2 hb1 hb2
    hn

/-- C6 for one craft: exactly 2 of `A` and 1 of `B`. -/
theorem C6_witness :
    (normalizeRecipe (shapelessRecord "minecraft:crafting_shapeless" "A" "B" "C") >>= fun r =>
        bomForRecipe [] 1 r 1 []) =
      .ok { items := [("item:A", 2 * 1), ("item:B", 1)], fluids := [], visited := [] } :=
  C6_shapeless_scenario [] "minecraft:crafting_shapeless" "A" "B" "C" 1 [] 0 (by decide)
    (by decide) (by decide) (by decide) (by decide) (by decide) (by decide) (by decide)
    (by decide) (by decide) (by norm_num)

/-- C7. For a sequenced recipe with `loops = L ≥ 1`, base input `b` and one step whose extra
ingredient is the single leaf item `d` (both not indexed, not fallback ids),
`normalizeRecipe` followed by `bomForRecipe` for `n` crafts records `n` under `item:b` and
`n * L` under `item:d`. -/
theorem C7_sequenced_scenario (byOutput : ByOutput) (b t d r sty : String) (loops n : ℚ)
    (visited : List Json) (fuel : Nat) (hb : b ≠ "") (hd : d ≠ "") (hbd : b ≠ d)
    (hib : (byOutput.lookup (Json.str b)).isSome = false)
    (hid : (byOutput.lookup (Json.str d)).isSome = false)
    (hb1 : b ≠ "create:cogwheel") (hb2 : b ≠ "create:large_cogwheel")
    (hd1 : d ≠ "create:cogwheel") (hd2 : d ≠ "create:large_cogwheel")
    (hl : 1 ≤ loops) (hn : n ≠ 0) :
    (normalizeRecipe (sequencedRecord b t d r sty loops) >>= fun rec =>
        bomForRecipe byOutput (fuel + 1) rec n visited) =
      .ok { items := [("item:" ++ b, n), ("item:" ++ d, n * loops)], fluids := [],
            visited := visited } := by
  obtain ⟨tr, act, res, hnorm⟩ := normalizeRecipe_sequencedRecord b t d r sty loops hb hd
  rw [hnorm]
  simp only [bind, Except.bind]
  exact bom_sequenced_leaves byOutput _ b d act tr res loops n visited fuel hb hd hbd hib hid
    hb1 hb2 hd1 hd2 (by linarith) hn

/-- C7 with `loops = 3` and 2 crafts: 6 units of `D`. -/
theorem C7_witness :
    (normalizeRecipe (sequencedRecord "B" "T" "D" "R" "create:deploying" 3) >>= fun rec =>
        bomForRecipe [] 1 rec 2 []) =
      .ok { items := [("item:B", 2), ("item:D", 6)], fluids := [], visited := [] } := by
  have h := C7_sequenced_scenario [] "B" "T" "D" "R" "create:deploying" 3 2 [] 0 (by decide)
    (by decide) (by decide) (by decide) (by decide) (by decide) (by decide) (by decide)
    (by decide) (by norm_num) (by norm_num)
  have h6 : (2 : ℚ) * 3 = 6 := by norm_num
  rw [h6] at h
  exact h

/-- C8. A slot whose only Option is the tag `minecraft:planks` adds exactly `⌈q / 4⌉` to
`tag:minecraft:logs` and leaves `tag:minecraft:planks` untouched; a slot whose only Option
is any other tag `t` adds exactly `q` to `tag:<t>`. -/
theorem C8_tag_slots (byOutput : ByOutput)
    (recurse : Recipe → ℚ → List Json → Except Err BomState) (st : BomState) (t : String)
    (q : ℚ) (ht : t ≠ "") :
    (t = "minecraft:planks" →
      addOptionList byOutput recurse st [Opt.tag (Json.str t)] q =
          .ok { st with
            items := aggregate st.items "tag:minecraft:logs" ((Int.ceil (q / 4) : ℤ) : ℚ) } ∧
        (mapGet (aggregate st.items "tag:minecraft:logs" ((Int.ceil (q / 4) : ℤ) : ℚ))
            "tag:minecraft:logs").getD 0 =
          (mapGet st.items "tag:minecraft:logs").getD 0 + ((Int.ceil (q / 4) : ℤ) : ℚ) ∧
        mapGet (aggregate st.items "tag:minecraft:logs" ((Int.ceil (q / 4) : ℤ) : ℚ))
            "tag:minecraft:planks" = mapGet st.items "tag:minecraft:planks") ∧
    (t ≠ "minecraft:planks" →
      addOptionList byOutput recurse st [Opt.tag (Json.str t)] q =
          .ok { st with items := aggregate st.items ("tag:" ++ t) q } ∧
        (mapGet (aggregate st.items ("tag:" ++ t) q) ("tag:" ++ t)).getD 0 =
          (mapGet st.items ("tag:" ++ t)).getD 0 + q) := by
  have h := addOptionList_tag byOutput recurse st t q ht
  constructor
  · intro hp
    rw [if_pos hp] at h
    exact ⟨h, aggregate_get_self _ _ _ (by decide), aggregate_get_ne _ _ _ _ (by decide)⟩
  · intro hp
    rw [if_neg hp] at h
    exact ⟨h, aggregate_get_self _ _ _ (append_ne_empty _ _ (by decide))⟩

/-- C8 at quantity 10: 3 logs for the planks tag, 10 for another tag. -/
theorem C8_witness :
    addOptionList [] (bomForRecipe [] 0) { items := [], fluids := [], visited := [] }
        [Opt.tag (Json.str "minecraft:planks")] 10 =
      .ok { items := [("tag:minecraft:logs", 3)], fluids := [], visited := [] } ∧
    addOptionList [] (bomForRecipe [] 0) { items := [], fluids := [], visited := [] }
        [Opt.tag (Json.str "forge:ingots/iron")] 10 =
      .ok { items := [("tag:forge:ingots/iron", 10)], fluids := [], visited := [] } := by
  have h1 := ((C8_tag_slots [] (bomForRecipe [] 0) { items := [], fluids := [], visited := [] }
    "minecraft:planks" 10 (by decide)).1 rfl).1
  have h2 := ((C8_tag_slots [] (bomForRecipe [] 0) { items := [], fluids := [], visited := [] }
    "forge:ingots/iron" 10 (by decide)).2 (by decide)).1
  have h3 : Int.ceil ((10 : ℚ) / 4) = 3 := by decide!
  rw [h3] at h1
  exact ⟨h1.trans (by decide!), h2.trans (by decide!)⟩

/-- C9 (the code departs from the claim). `normalizeRecipe` throws a TypeError on records
that are JSON objects when a list it maps over holds `null`: a `null` pattern row, a `null`
element of `results`, of `materials` or of `sequence`. -/
theorem C9_null_elements_throw :
    normalizeRecipe (nullElementRecord "minecraft:crafting_shaped" "pattern") =
      .error .typeError ∧
    normalizeRecipe (nullElementRecord "create:mechanical_crafting" "pattern") =
      .error .typeError ∧
    normalizeRecipe (nullElementRecord "create:milling" "results") = .error .typeError ∧
    normalizeRecipe (nullElementRecord "tacz:gun_smith_table_crafting" "materials") =
      .error .typeError ∧
    normalizeRecipe (nullElementRecord "create:sequenced_assembly" "sequence") =
      .error .typeError ∧
    normalizeRecipe (nullElementRecord "create:sequenced_assembly" "results") =
      .error .typeError := by
  decide!

/-- C10 (counterexample). Normalising the canonical form of
`{type: "minecraft:crafting_shapeless", ingredients: ["a"]}` again loses the ingredient:
the first pass fills slot 0 with item `a`, the second pass returns nine empty slots. -/
theorem C10_not_idempotent :
    normalizeRecipe oneIngredientRecord =
      .ok { type := "minecraft:crafting_shapeless",
            body := .shapeless [[Opt.item (Json.str "a")], [], [], [], [], [], [], [], []]
              (some { rows := 3, cols := 3 }) } ∧
    (normalizeRecipe oneIngredientRecord >>= fun r => normalizeRecipe r.toJson) =
      .ok { type := "minecraft:crafting_shapeless",
            body := .shapeless [[], [], [], [], [], [], [], [], []]
              (some { rows := 3, cols := 3 }) } ∧
    (normalizeRecipe oneIngredientRecord >>= fun r => normalizeRecipe r.toJson) ≠
      normalizeRecipe oneIngredientRecord := by
  decide!

/-- C10 (amended). Normalising a canonical Recipe again never fails and keeps its `type`
string; it returns the same Recipe when that Recipe is of kind `unknown`. -/
theorem C10_renormalize (rec : Json) (R : Recipe) (h : normalizeRecipe rec = .ok R) :
    (∃ R', normalizeRecipe R.toJson = .ok R' ∧ R'.type = R.type) ∧
      (R.body = .unknown → normalizeRecipe R.toJson = .ok R) := by
  obtain ⟨hty, hbody⟩ := normalizeRecipe_ok h
  have hlow : toLowerCase R.type = R.type := by
    rw [hty, toLowerCase_idem]
  have hrec : normalizeRecipe R.toJson = normalizeRecord R.toJson := rfl
  have htype : toLowerCase ((R.toJson.get "type").orElse (Json.str "")).toStr = R.type := by
    rw [toJson_type, hlow]
  constructor
  · obtain ⟨body, hb⟩ := normalizeBody_toJson_ok R.type R
    refine ⟨{ type := R.type, body := body }, ?_, rfl⟩
    rw [hrec]
    unfold normalizeRecord
    simp only [htype, hb, bind, Except.bind, pure, Except.pure]
  · intro hu
    obtain ⟨ty, body⟩ := R
    simp only at hu hbody htype
    subst hu
    rw [hrec]
    unfold normalizeRecord
    simp only [htype, normalizeBody_unknown_stable ty rec hbody, bind, Except.bind, pure,
      Except.pure]

/-- C10 (amended) at a record of an unrecognised type. -/
theorem C10_witness :
    (∃ R', normalizeRecipe
        (Recipe.toJson { type := "example:custom", body := RecipeBody.unknown }) = .ok R' ∧
        R'.type = "example:custom") ∧
      (RecipeBody.unknown = RecipeBody.unknown →
        normalizeRecipe (Recipe.toJson { type := "example:custom", body := RecipeBody.unknown }) =
          .ok { type := "example:custom", body := RecipeBody.unknown }) :=
  C10_renormalize (Json.obj [("type", Json.str "Example:Custom"), ("note", Json.num 1)])
    { type := "example:custom", body := RecipeBody.unknown } (by decide!)

/-- C11 (counterexample). The record `{type: "custom:x", ingredient: "a", results:
[{item: "b"}]}` has a type that no branch recognises and neither an `ingredients` nor a
`result` field; `normalizeRecipe` returns kind `process` for it, and `ingestRecipe` on the
empty state stores it under the output `b`. -/
theorem C11_results_field_indexed :
    recognisedType "custom:x" = false ∧
    resultsOnlyRecord.get "ingredients" = Json.null ∧
    resultsOnlyRecord.get "result" = Json.null ∧
    normalizeRecipe resultsOnlyRecord =
      .ok { type := "custom:x", body := .process [Opt.item (Json.str "a")] [] } ∧
    ingestRecipe State.empty resultsOnlyRecord "f" =
      .ok { byOutput := [(Json.str "b", [resultsOnlyEntry "f"])],
            allOutputs := [Json.str "b"],
            allRecipes := [resultsOnlyEntry "f"] } := by
  decide!

/-- C11 (amended). A record (JSON object) whose type no branch of `normalizeRecipe`
recognises and that has none of the fields `ingredients`, `result`, `results`, `output`
normalizes to kind `unknown`, and `ingestRecipe` returns the state it was given: the index
`byOutput`, `allOutputs` and `allRecipes` are unchanged. -/
theorem C11_unknown_record (kvs : List (String × Json)) (st : State) (sourcePath : String)
    (htype : recognisedType
      (toLowerCase ((lookupField "type" kvs).orElse (Json.str "")).toStr) = false)
    (hing : kvs.any (fun kv => kv.1 == "ingredients") = false)
    (hres : kvs.any (fun kv => kv.1 == "result") = false)
    (hress : kvs.any (fun kv => kv.1 == "results") = false)
    (hout : kvs.any (fun kv => kv.1 == "output") = false) :
    normalizeRecipe (Json.obj kvs) =
      .ok { type := toLowerCase ((lookupField "type" kvs).orElse (Json.str "")).toStr,
            body := .unknown } ∧
    ingestRecipe st (Json.obj kvs) sourcePath = .ok st := by
  constructor
  · show normalizeRecord (Json.obj kvs) = _
    unfold normalizeRecord
    simp only [Json.get]
    rw [normalizeBody_unknown_of_absent _ kvs htype hing hres hress]
    rfl
  · have hnone : normalizeOutputs (Json.obj kvs) = .ok [] := by
      show Except.ok (dedupOutputs [] (resolvedOutputs (Json.obj kvs))) = _
      unfold resolvedOutputs primaryOutput
      simp only [Json.get, lookupField_absent _ _ hres, lookupField_absent _ _ hress,
        lookupField_absent _ _ hout]
      rfl
    unfold ingestRecipe
    rw [hnone]
    simp [Json.truthy, bind, Except.bind]

/-- C11 (amended) at the record `{type: "custom:x", note: "n"}` and the empty state. -/
theorem C11_witness :
    normalizeRecipe (Json.obj [("type", Json.str "custom:x"), ("note", Json.str "n")]) =
      .ok { type := "custom:x", body := .unknown } ∧
    ingestRecipe State.empty (Json.obj [("type", Json.str "custom:x"), ("note", Json.str "n")])
      "f" = .ok State.empty :=
  C11_unknown_record [("type", Json.str "custom:x"), ("note", Json.str "n")] State.empty "f"
    (by decide!) (by decide!) (by decide!) (by decide!) (by decide!)

/-- C12. Let the item id be other than `create:shaft` and have exactly two candidates: `s`,
a `minecraft:smelting` process recipe whose single input Option is an ore tag `t`, and `n`, a
shaped or shapeless recipe whose input tags include a nugget tag and no ore or raw tag.  An
ore tag is a tag containing `ores/` that is not itself a nugget tag, or that has `ores/` at a
path boundary (where it earns the ore bonus of 6).  Then `chooseRecipeForBase` returns `s`,
whichever of the two was ingested first: `s` scores at least 2 and `n` at most 1. -/
theorem C12_smelting_beats_nuggets (byOutput : ByOutput) (itemId t : Json)
    (s n : IndexedRecipe)
    (hid : itemId.toStr ≠ "create:shaft")
    (hs : s.recipe = smeltingFromTag t) (ht : t.truthy = true)
    (hore : includes t.toStr "ores/" = true ∧
      (isNuggetTag t.toStr = false ∨ isOreTag t.toStr = true))
    (hkind : (∃ g d, n.recipe.body = .shaped g d) ∨ (∃ g d, n.recipe.body = .shapeless g d))
    (hnug : ((inputTags n.recipe.body).map Json.toStr).any isNuggetTag = true)
    (hnoore : ((inputTags n.recipe.body).map Json.toStr).any isOreTag = false)
    (hnoraw : ((inputTags n.recipe.body).map Json.toStr).any isRawTag = false)
    (hlook : byOutput.lookup itemId = some [s, n] ∨ byOutput.lookup itemId = some [n, s]) :
    chooseRecipeForBase byOutput itemId = .ok (some s) := by
  obtain ⟨a, ha, ha2⟩ := smeltingFromTag_score itemId t ht hore.2
  obtain ⟨b, hb, hb1⟩ := crafting_score_le itemId n.recipe hid hkind hnug hnoore hnoraw
  rw [← hs] at ha
  have hsn : n ≠ s := by
    intro h
    rw [h, hs] at hkind
    rcases hkind with ⟨g, d, h⟩ | ⟨g, d, h⟩ <;> simp [smeltingFromTag] at h
  have hsc : ∀ r, r = s ∨ r = n →
      recipeScoreForBase itemId r.recipe = .ok ((fun r => if r = s then a else b) r) := by
    intro r hr
    rcases hr with rfl | rfl
    · simp [ha]
    · simp [hsn, hb]
  have key : ∀ rs : List IndexedRecipe, byOutput.lookup itemId = some rs →
      (∀ r ∈ rs, r = s ∨ r = n) → s ∈ rs → rs ≠ [] →
      chooseRecipeForBase byOutput itemId = .ok (some s) := by
    intro rs hl hmem hin hne
    obtain ⟨pre, r, post, hrs, hch, hpre, hpost⟩ :=
      chooseRecipeForBase_first_max byOutput itemId rs (fun r => if r = s then a else b) hl hne
        (fun r hr => hsc r (hmem r hr))
    rcases hmem r (by rw [hrs]; simp) with rfl | rfl
    · exact hch
    · exfalso
      have hle : (fun r => if r = s then a else b) s ≤ (fun r => if r = s then a else b) r := by
        rw [hrs, List.mem_append, List.mem_cons] at hin
        rcases hin with h | h | h
        · exact le_of_lt (hpre s h)
        · exact absurd h.symm hsn
        · exact hpost s h
      simp [hsn] at hle
      linarith
  rcases hlook with h | h
  · exact key _ h (by simp) (by simp) (by simp)
  · exact key _ h (by intro r hr; simp at hr; tauto) (by simp) (by simp)

/-- C12 at the ore tag `forge:ores/iron` with the nugget recipe ingested first, and at the
tag `x:stores/a`, where `ores/` does not stand at a path boundary, with the smelting recipe
ingested first. -/
theorem C12_witness :
    chooseRecipeForBase
      [(Json.str "minecraft:iron_ingot",
        [indexedAs (Json.str "minecraft:iron_ingot") 1
           (singleTagRecipe (Json.str "forge:nuggets/iron")),
         indexedAs (Json.str "minecraft:iron_ingot") 1
           (smeltingFromTag (Json.str "forge:ores/iron"))])]
      (Json.str "minecraft:iron_ingot") =
      .ok (some (indexedAs (Json.str "minecraft:iron_ingot") 1
        (smeltingFromTag (Json.str "forge:ores/iron")))) ∧
    chooseRecipeForBase
      [(Json.str "x:thing",
        [indexedAs (Json.str "x:thing") 1 (smeltingFromTag (Json.str "x:stores/a")),
         indexedAs (Json.str "x:thing") 9 (singleTagRecipe (Json.str "forge:nuggets/iron"))])]
      (Json.str "x:thing") =
      .ok (some (indexedAs (Json.str "x:thing") 1 (smeltingFromTag (Json.str "x:stores/a")))) :=
  ⟨C12_smelting_beats_nuggets _ (Json.str "minecraft:iron_ingot") (Json.str "forge:ores/iron")
    (indexedAs (Json.str "minecraft:iron_ingot") 1 (smeltingFromTag (Json.str "forge:ores/iron")))
    (indexedAs (Json.str "minecraft:iron_ingot") 1
      (singleTagRecipe (Json.str "forge:nuggets/iron")))
    (by decide!) rfl (by decide!) ⟨by decide!, Or.inl (by decide!)⟩ (Or.inr ⟨_, _, rfl⟩)
    (by decide!) (by decide!) (by decide!) (Or.inr (by decide!)),
   C12_smelting_beats_nuggets _ (Json.str "x:thing") (Json.str "x:stores/a")
    (indexedAs (Json.str "x:thing") 1 (smeltingFromTag (Json.str "x:stores/a")))
    (indexedAs (Json.str "x:thing") 9 (singleTagRecipe (Json.str "forge:nuggets/iron")))
    (by decide!) rfl (by decide!) ⟨by decide!, Or.inl (by decide!)⟩ (Or.inr ⟨_, _, rfl⟩)
    (by decide!) (by decide!) (by decide!) (Or.inl (by decide!))⟩

example : isOreTag "x:stores/a" = false := by decide!
example : recipeScoreForBase (Json.str "x:thing") (smeltingFromTag (Json.str "x:stores/a")) = .ok 2 := by decide!

/-- C13. For an item id with at least one indexed recipe (all of whose scores are computed,
`sc` naming them), `chooseRecipeForBase` returns a candidate `r` of the item's list
`pre ++ r :: post` such that every candidate before it scores strictly less and every
candidate after it scores at most as much: `r` has the maximal score and is the earliest
candidate with that score. -/
theorem C13_first_maximal_candidate (byOutput : ByOutput) (itemId : Json)
    (rs : List IndexedRecipe) (sc : IndexedRecipe → ℚ)
    (hlook : byOutput.lookup itemId = some rs) (hne : rs ≠ [])
    (hsc : ∀ r ∈ rs, recipeScoreForBase itemId r.recipe = .ok (sc r)) :
    ∃ pre r post, rs = pre ++ r :: post ∧
      chooseRecipeForBase byOutput itemId = .ok (some r) ∧
      (∀ x ∈ rs, sc x ≤ sc r) ∧
      (∀ x ∈ pre, sc x < sc r) ∧ (∀ x ∈ post, sc x ≤ sc r) := by
  obtain ⟨pre, r, post, hrs, hch, hpre, hpost⟩ :=
    chooseRecipeForBase_first_max byOutput itemId rs sc hlook hne hsc
  refine ⟨pre, r, post, hrs, hch, ?_, hpre, hpost⟩
  intro x hx
  rw [hrs, List.mem_append, List.mem_cons] at hx
  rcases hx with hx | rfl | hx
  · exact le_of_lt (hpre x hx)
  · exact le_refl _
  · exact hpost x hx

/-- C13 at three candidates scoring 2, 3 and 3: the second one is returned, the earliest of
the two with the maximal score. -/
theorem C13_witness :
    chooseRecipeForBase [(Json.str "x", threeCandidates (Json.str "x"))] (Json.str "x") =
      .ok (some (indexedAs (Json.str "x") 1 (singleSlotRecipe (Json.str "a")))) ∧
    ∃ pre r post, threeCandidates (Json.str "x") = pre ++ r :: post ∧
      chooseRecipeForBase [(Json.str "x", threeCandidates (Json.str "x"))] (Json.str "x") =
        .ok (some r) ∧
      (∀ x ∈ threeCandidates (Json.str "x"),
        scoreOf (Json.str "x") x ≤ scoreOf (Json.str "x") r) ∧
      (∀ x ∈ pre, scoreOf (Json.str "x") x < scoreOf (Json.str "x") r) ∧
      (∀ x ∈ post, scoreOf (Json.str "x") x ≤ scoreOf (Json.str "x") r) :=
  ⟨by decide!,
    C13_first_maximal_candidate [(Json.str "x", threeCandidates (Json.str "x"))] (Json.str "x")
      (threeCandidates (Json.str "x")) (scoreOf (Json.str "x")) (by decide!) (by decide!)
      (by decide!)⟩

/-- C14 (the code departs from the claim). The penalty test is `entry.chance < 100`, so a
chance of 1 is penalised like a chance of 0.5: for every sequenced recipe whose results list
is one entry for the item `s`, the score with chance 1 and the score with chance 0.5 are both
12 below the score of the same recipe without a chance.  For the recipe with one base input,
no steps and output `a:out` the three scores are 2, -10 and -10. -/
theorem C14_chance_one_penalised (type : String) (baseInput : List Opt) (transitional : Json)
    (loops : ℚ) (steps : List Step) (s : String) (count : Json) :
    (∃ x : ℚ,
      recipeScoreForBase (Json.str s)
        (sequencedWithChance type baseInput transitional loops steps s count Json.null) =
          .ok x ∧
      recipeScoreForBase (Json.str s)
        (sequencedWithChance type baseInput transitional loops steps s count (Json.num 1)) =
          .ok (x - 12) ∧
      recipeScoreForBase (Json.str s)
        (sequencedWithChance type baseInput transitional loops steps s count
          (Json.num (1 / 2))) = .ok (x - 12)) ∧
    recipeScoreForBase (Json.str "a:out")
      (sequencedWithChance "create:sequenced_assembly" [Opt.item (Json.str "a:base")]
        (Json.str "a:base") 1 [] "a:out" (Json.num 1) Json.null) = .ok 2 ∧
    recipeScoreForBase (Json.str "a:out")
      (sequencedWithChance "create:sequenced_assembly" [Opt.item (Json.str "a:base")]
        (Json.str "a:base") 1 [] "a:out" (Json.num 1) (Json.num 1)) = .ok (-10) ∧
    recipeScoreForBase (Json.str "a:out")
      (sequencedWithChance "create:sequenced_assembly" [Opt.item (Json.str "a:base")]
        (Json.str "a:base") 1 [] "a:out" (Json.num 1) (Json.num (1 / 2))) = .ok (-10) := by
  refine ⟨⟨_, sequencedWithChance_score type baseInput transitional loops steps s count
    Json.null 0 ?_, ?_, ?_⟩, by decide!, by decide!, by decide!⟩
  · simp [chancePenalty, List.find?, strictEq, chanceBelow100, bind, Except.bind, pure,
      Except.pure]
  · rw [sequencedWithChance_score type baseInput transitional loops steps s count
      (Json.num 1) 12 (by
        simp [chancePenalty, List.find?, strictEq, chanceBelow100, bind, Except.bind, pure,
          Except.pure])]
    congr 1
    ring
  · rw [sequencedWithChance_score type baseInput transitional loops steps s count
      (Json.num (1 / 2)) 12 (by
        simp [chancePenalty, List.find?, strictEq, chanceBelow100, bind, Except.bind, pure,
          Except.pure]
        norm_num)]
    congr 1
    ring

/-- C15. `normalizeIngredient` is a total function from JSON values to lists of Options (it
has no failing outcome).  Every Option it returns has exactly one of `item` / `tag` set; it
returns the empty list for `null`, booleans, numbers, the empty string and an object none of
whose fields `item`, `tag`, `fluid`, `fluidTag`, `ingredient`, `ingredients` is truthy; and
nested lists and wrappers are flattened in order. -/
theorem C15_normalizeIngredient_options (v : Json) :
    (∃ opts : List Opt, normalizeIngredient v = opts ∧ ∀ o ∈ opts, o.exactlyOneSet) ∧
    normalizeIngredient Json.null = [] ∧
    (∀ b, normalizeIngredient (Json.bool b) = []) ∧
    (∀ q, normalizeIngredient (Json.num q) = []) ∧
    normalizeIngredient (Json.str "") = [] ∧
    (∀ kvs, (lookupField "item" kvs).truthy = false → (lookupField "tag" kvs).truthy = false →
      (lookupField "fluid" kvs).truthy = false → (lookupField "fluidTag" kvs).truthy = false →
      (lookupField "ingredient" kvs).truthy = false →
      (lookupField "ingredients" kvs).truthy = false →
      normalizeIngredient (Json.obj kvs) = []) ∧
    normalizeIngredient (Json.arr [Json.str "a", Json.num 5, Json.null,
      Json.obj [("tag", Json.str "t")],
      Json.arr [Json.obj [("ingredient", Json.obj [("item", Json.str "b")])]],
      Json.obj [("count", Json.num 2)]]) =
      [Opt.item (Json.str "a"), Opt.tag (Json.str "t"), Opt.item (Json.str "b")] := by
  refine ⟨⟨_, rfl, normalizeIngredient_exactlyOneSet v⟩, by simp [normalizeIngredient],
    fun b => by simp [normalizeIngredient], fun q => by simp [normalizeIngredient],
    by simp [normalizeIngredient], ?_, by decide!⟩
  intro kvs h1 h2 h3 h4 h5 h6
  rw [normalizeIngredient]
  simp [h1, h2, h3, h4, h5, h6, Json.orElse]

/-- C16 (counterexample). `normalizeIngredient` does not read an `id` field: the object
`{id: "minecraft:stick"}` resolves to no Option, while `{item: "minecraft:stick"}` resolves to
the single item Option. -/
theorem C16_id_not_read :
    normalizeIngredient (Json.obj [("id", Json.str "minecraft:stick")]) = [] ∧
    normalizeIngredient (Json.obj [("item", Json.str "minecraft:stick")]) =
      [Opt.item (Json.str "minecraft:stick")] := by
  decide!

/-- C16 (amended). For every identifier `s`, an object whose only field is `id = s` resolves
to the empty list; an object whose only field is `item = s` resolves to the single item
Option `[{item: s}]` when `s` is not the empty string (and to the empty list when it is). -/
theorem C16_item_field_only (s : String) :
    normalizeIngredient (Json.obj [("id", Json.str s)]) = [] ∧
    (s ≠ "" → normalizeIngredient (Json.obj [("item", Json.str s)]) = [Opt.item (Json.str s)]) ∧
    normalizeIngredient (Json.obj [("item", Json.str "")]) = [] := by
  refine ⟨?_, ?_, by decide!⟩
  · rw [normalizeIngredient.eq_def]
    simp [lookupField, Json.truthy, Json.orElse]
  · intro hs
    rw [normalizeIngredient.eq_def]
    simp [lookupField, Json.truthy, hs]

/-- C16 (amended) at `s = "minecraft:iron_ingot"`. -/
theorem C16_witness :
    normalizeIngredient (Json.obj [("id", Json.str "minecraft:iron_ingot")]) = [] ∧
    normalizeIngredient (Json.obj [("item", Json.str "minecraft:iron_ingot")]) =
      [Opt.item (Json.str "minecraft:iron_ingot")] :=
  ⟨(C16_item_field_only "minecraft:iron_ingot").1,
    (C16_item_field_only "minecraft:iron_ingot").2.1 (by decide)⟩

/-- C17 (the code departs from the claim). `normalizeOutput` always sets a count
(`res.count || 1`, and 1 for a string), so the test `o.count == null` of the backfill is
never true: for every recipe-level count `n`, the records `{result: "x", count: n}` and
`{result: {item: "x"}, count: n}` yield the output `{item: x, count: 1}`. -/
theorem C17_count_not_backfilled (n : ℚ) :
    normalizeOutputs (Json.obj [("result", Json.str "x"), ("count", Json.num n)]) =
      .ok [{ item := Json.str "x", count := Json.num 1 }] ∧
    normalizeOutputs (Json.obj [("result", Json.obj [("item", Json.str "x")]),
        ("count", Json.num n)]) =
      .ok [{ item := Json.str "x", count := Json.num 1 }] := by
  constructor <;> rfl

/-- C18. Let `resolved` be the resolved outputs of a record in order: for each entry `r` of
`results` the output `normalizeOutput r` with the chance of `r` carried through, then the
output `normalizeOutput` gives for the primary `result` / `output`.  When they have string
items and numeric counts and chances (the numbers printing unambiguously), `normalizeOutputs`
returns a list with no two equal `(item, count, chance)` triples and no two equal keys, which
is a sublist of `resolved` and exactly its first-occurrence de-duplication.  Every resolved
output is in it, the primary one and each of the `results` entries included, so two outputs
that differ in item, count or chance are both kept. -/
theorem C18_first_occurrence_dedup (rec : Json) (resolved : List Output)
    (hrec : rec ≠ Json.null)
    (hres : resolved =
      (rec.get "results").arrayOrEmpty.filterMap (fun r =>
        (normalizeOutput r).map (fun o => { o with chance := r.get "chance" })) ++
      (normalizeOutput ((rec.get "result").orElse (rec.get "output"))).toList)
    (hplain : ∀ o ∈ resolved, plainOutput o = true)
    (hprint : printsDistinctly (outputNumbers resolved) = true) :
    ∃ outs : List Output,
      normalizeOutputs rec = .ok outs ∧
      outs.Nodup ∧ (outs.map outputKey).Nodup ∧
      outs.Sublist resolved ∧
      outs = firstOccurrences resolved ∧
      (∀ o ∈ resolved, o ∈ outs) ∧
      (∀ o, normalizeOutput ((rec.get "result").orElse (rec.get "output")) = some o →
        o ∈ outs) ∧
      (∀ r ∈ (rec.get "results").arrayOrEmpty, ∀ o, normalizeOutput r = some o →
        { o with chance := r.get "chance" } ∈ outs) := by
  have hmodel : resolvedOutputs rec = resolved := by rw [hres]; exact resolvedOutputs_eq rec
  have hn : normalizeOutputs rec = .ok (dedupOutputs [] resolved) := by
    rw [← hmodel]
    cases rec <;> first | rfl | exact absurd rfl hrec
  have hinj := outputKey_injOn resolved hplain hprint
  have heq : dedupOutputs [] resolved = firstOccurrences resolved := by
    rw [dedupOutputs_eq_firstOccurrences _ _ hinj]
    simp
  have hall : ∀ o ∈ resolved, o ∈ dedupOutputs [] resolved := by
    intro o ho
    rw [heq]
    exact (mem_firstOccurrences o _).mpr ho
  refine ⟨_, hn, List.Nodup.of_map _ (dedupOutputs_keys_nodup _ _),
    dedupOutputs_keys_nodup _ _, dedupOutputs_sublist _ _, heq, hall, ?_, ?_⟩
  · intro o ho
    apply hall
    rw [hres, ho]
    simp
  · intro r hr o ho
    apply hall
    rw [hres]
    apply List.mem_append_left
    rw [List.mem_filterMap]
    exact ⟨r, hr, by rw [ho]; rfl⟩

/-- C18 at a record whose five resolved outputs are `a x2 (0.5)`, the same again, `a x2`,
`b x2 (0.5)` from `results` and the primary result `c x3`: four outputs remain, the primary one
last. -/
theorem C18_witness :
    normalizeOutputs repeatedOutputsRecord =
      .ok [{ item := Json.str "a", count := Json.num 2, chance := Json.num (1 / 2) },
           { item := Json.str "a", count := Json.num 2 },
           { item := Json.str "b", count := Json.num 2, chance := Json.num (1 / 2) },
           { item := Json.str "c", count := Json.num 3 }] ∧
    ∃ outs : List Output,
      normalizeOutputs repeatedOutputsRecord = .ok outs ∧
      outs.Nodup ∧ (outs.map outputKey).Nodup ∧
      outs.Sublist
        [{ item := Json.str "a", count := Json.num 2, chance := Json.num (1 / 2) },
         { item := Json.str "a", count := Json.num 2, chance := Json.num (1 / 2) },
         { item := Json.str "a", count := Json.num 2 },
         { item := Json.str "b", count := Json.num 2, chance := Json.num (1 / 2) },
         { item := Json.str "c", count := Json.num 3 }] ∧
      outs = firstOccurrences
        [{ item := Json.str "a", count := Json.num 2, chance := Json.num (1 / 2) },
         { item := Json.str "a", count := Json.num 2, chance := Json.num (1 / 2) },
         { item := Json.str "a", count := Json.num 2 },
         { item := Json.str "b", count := Json.num 2, chance := Json.num (1 / 2) },
         { item := Json.str "c", count := Json.num 3 }] ∧
      (∀ o ∈ ([{ item := Json.str "a", count := Json.num 2, chance := Json.num (1 / 2) },
         { item := Json.str "a", count := Json.num 2, chance := Json.num (1 / 2) },
         { item := Json.str "a", count := Json.num 2 },
         { item := Json.str "b", count := Json.num 2, chance := Json.num (1 / 2) },
         { item := Json.str "c", count := Json.num 3 }] : List Output), o ∈ outs) ∧
      (∀ o, normalizeOutput ((repeatedOutputsRecord.get "result").orElse
          (repeatedOutputsRecord.get "output")) = some o → o ∈ outs) ∧
      (∀ r ∈ (repeatedOutputsRecord.get "results").arrayOrEmpty, ∀ o,
        normalizeOutput r = some o → { o with chance := r.get "chance" } ∈ outs) :=
  ⟨by decide!,
    C18_first_occurrence_dedup repeatedOutputsRecord
      [{ item := Json.str "a", count := Json.num 2, chance := Json.num (1 / 2) },
       { item := Json.str "a", count := Json.num 2, chance := Json.num (1 / 2) },
       { item := Json.str "a", count := Json.num 2 },
       { item := Json.str "b", count := Json.num 2, chance := Json.num (1 / 2) },
       { item := Json.str "c", count := Json.num 3 }]
      (by decide) (by decide!) (by decide!) (by decide!)⟩

/-- C19. After any run of `ingestRecipe` calls from the empty state, for every item id `k`:
`byOutput(k)` is exactly the list, in ingestion order, of the recipes of the log `allRecipes`
whose primary output `__out.item` is `k` (and is absent when there is none); `k` is a key of
`byOutput`, and a member of `allOutputs`, if and only if that list is not empty; no key maps
to an empty list, and no key occurs twice. -/
theorem C19_index_matches_log (recs : List (Json × String)) (st : State)
    (h : ingestAll State.empty recs = .ok st) (k : Json) :
    (st.byOutput.lookup k =
      if recipesFor k st.allRecipes = [] then none else some (recipesFor k st.allRecipes)) ∧
    (k ∈ st.byOutput.map Prod.fst ↔ recipesFor k st.allRecipes ≠ []) ∧
    (k ∈ st.allOutputs ↔ recipesFor k st.allRecipes ≠ []) ∧
    (∀ p ∈ st.byOutput, p.2 ≠ []) ∧
    (st.byOutput.map Prod.fst).Nodup := by
  obtain ⟨h1, h2, h3, h4, h5⟩ := ingestAll_preserves recs State.empty st indexMatchesLog_empty h
  exact ⟨h1 k, h2 k, h3 k, h4, h5⟩

/-- C19 at a run of three files, two of them with output `c`: the log has three recipes, and
`byOutput(c)` is the first and the third. -/
theorem C19_witness :
    exampleState.allRecipes.length = 3 ∧
    exampleState.allOutputs = [Json.str "c", Json.str "b"] ∧
    (recipesFor (Json.str "c") exampleState.allRecipes).length = 2 ∧
    ((exampleState.byOutput.lookup (Json.str "c") =
      if recipesFor (Json.str "c") exampleState.allRecipes = [] then none
      else some (recipesFor (Json.str "c") exampleState.allRecipes)) ∧
    (Json.str "c" ∈ exampleState.byOutput.map Prod.fst ↔
      recipesFor (Json.str "c") exampleState.allRecipes ≠ []) ∧
    (Json.str "c" ∈ exampleState.allOutputs ↔
      recipesFor (Json.str "c") exampleState.allRecipes ≠ []) ∧
    (∀ p ∈ exampleState.byOutput, p.2 ≠ []) ∧
    (exampleState.byOutput.map Prod.fst).Nodup) :=
  ⟨by decide!, by decide!, by decide!,
    C19_index_matches_log exampleRun exampleState (by decide!) (Json.str "c")⟩

/-- C20. For every record whose lower-cased type ends in `crafting_shapeless`, with `opts` the
concatenation in order of `normalizeIngredient` of each element of `ingredients` (no element
when `ingredients` is not a list), `normalizeRecipe` returns kind `shapeless` with dims 3 x 3
and a grid of exactly 9 slots: slot `i` is `[opts[i]]` when `i < |opts|` and empty otherwise,
for every `i < 9`; the Options from the tenth on appear in no slot. -/
theorem C20_shapeless_grid (rec : Json)
    (htype : endsWith (toLowerCase ((rec.get "type").orElse (Json.str "")).toStr)
      "crafting_shapeless" = true) :
    ∃ grid : List (List Opt),
      normalizeRecipe rec =
        .ok { type := toLowerCase ((rec.get "type").orElse (Json.str "")).toStr,
              body := .shapeless grid (some { rows := 3, cols := 3 }) } ∧
      grid.length = 9 ∧
      ∀ i, i < 9 → grid.getD i [] =
        match (((rec.get "ingredients").arrayOrEmpty.map normalizeIngredient).flatten)[i]? with
        | some o => [o]
        | none => [] := by
  refine ⟨shapelessGrid (rec.get "ingredients").arrayOrEmpty, ?_,
    (shapelessGrid_slots _).1, (shapelessGrid_slots _).2⟩
  have hn : normalizeRecipe rec = normalizeRecord rec := by
    cases rec <;> rfl
  rw [hn]
  unfold normalizeRecord
  simp only [normalizeBody_shapeless _ rec htype, bind, Except.bind, pure, Except.pure]

/-- C20 at a record with ten ingredients whose second ingredient is a list of two
alternatives: eleven Options, of which the first nine fill the grid. -/
theorem C20_witness :
    normalizeRecipe tenIngredientRecord =
      .ok { type := "minecraft:crafting_shapeless",
            body := .shapeless [[Opt.item (Json.str "i0")], [Opt.item (Json.str "i1")],
              [Opt.tag (Json.str "t2")], [Opt.item (Json.str "i3")], [Opt.item (Json.str "i4")],
              [Opt.item (Json.str "i5")], [Opt.item (Json.str "i6")], [Opt.item (Json.str "i7")],
              [Opt.item (Json.str "i8")]] (some { rows := 3, cols := 3 }) } ∧
    ∃ grid : List (List Opt),
      normalizeRecipe tenIngredientRecord =
        .ok { type := toLowerCase
                ((tenIngredientRecord.get "type").orElse (Json.str "")).toStr,
              body := .shapeless grid (some { rows := 3, cols := 3 }) } ∧
      grid.length = 9 ∧
      ∀ i, i < 9 → grid.getD i [] =
        match (((tenIngredientRecord.get "ingredients").arrayOrEmpty.map
          normalizeIngredient).flatten)[i]? with
        | some o => [o]
        | none => [] :=
  ⟨by decide!, C20_shapeless_grid tenIngredientRecord (by decide!)⟩

/-- C21 (the code departs from the claim). For the sequenced record with loops `L` whose step
has the extra ingredient `{fluid: "minecraft:water", amount: a}`, `normalizeRecipe` followed
by `bomForRecipe` for `n` crafts adds `a * n` under `fluid:minecraft:water` in the fluids map,
whatever `L` is, while the step's item extra `fluid:minecraft:water` is recorded with
`n * L`.  With `a = 250`, `L = 3`, `n = 2` the fluids map holds 500, not 1500. -/
theorem C21_fluid_not_multiplied_by_loops (a loops n : ℚ) :
    (normalizeRecipe (fluidStepRecord a loops) >>= fun rec => bomForRecipe [] 1 rec n []) =
      .ok { items := aggregate (aggregate [] "item:a:base" n) "item:fluid:minecraft:water"
              (n * numOr loops 1),
            fluids := aggregate [] "fluid:minecraft:water" (a * n),
            visited := [] } ∧
    (normalizeRecipe (fluidStepRecord 250 3) >>= fun rec => bomForRecipe [] 1 rec 2 []) =
      .ok { items := [("item:a:base", 2), ("item:fluid:minecraft:water", 6)],
            fluids := [("fluid:minecraft:water", 500)],
            visited := [] } := by
  refine ⟨?_, by decide!⟩
  rw [normalizeRecipe_fluidStepRecord]
  exact bom_fluidStepRecipe a loops n

/-- C22. For every slot with two or more Options and every quantity `q ≥ 1`, `addOptionList`
adds `q` to exactly one key of the items map, `any:` followed by the Options' labels joined
by `/` in slot order (the label is the item id, or `#` followed by the tag), and leaves every
other item entry, the fluids map and the visited set as they were.  The result does not
depend on the index or on the recursive call: nothing is expanded.  A recipe whose only slot
is such a slot has the bill of materials `any:... -> q`. -/
theorem C22_any_of_slot (byOutput : ByOutput)
    (recurse : Recipe → ℚ → List Json → Except Err BomState) (st : BomState) (o1 o2 : Opt)
    (rest : List Opt) (q : ℚ) (hq : 1 ≤ q) :
    addOptionList byOutput recurse st (o1 :: o2 :: rest) q =
      .ok { items := aggregate st.items (anyKey (o1 :: o2 :: rest)) q,
            fluids := st.fluids, visited := st.visited } ∧
    anyKey (o1 :: o2 :: rest) =
      "any:" ++ "/".intercalate ((o1 :: o2 :: rest).map optLabel) ∧
    (∀ id : Json, id.truthy = true → optLabel (Opt.item id) = id.toStr) ∧
    (∀ t : Json, optLabel (Opt.tag t) = "#" ++ t.toStr) ∧
    (mapGet (aggregate st.items (anyKey (o1 :: o2 :: rest)) q)
        (anyKey (o1 :: o2 :: rest))).getD 0 =
      (mapGet st.items (anyKey (o1 :: o2 :: rest))).getD 0 + q ∧
    (∀ k, k ≠ anyKey (o1 :: o2 :: rest) →
      mapGet (aggregate st.items (anyKey (o1 :: o2 :: rest)) q) k = mapGet st.items k) ∧
    addOptionList byOutput recurse st (o1 :: o2 :: rest) q =
      addOptionList [] (fun _ _ _ => .error .outOfFuel) st (o1 :: o2 :: rest) q ∧
    (∀ (fuel : Nat) (ty : String) (dims : Option Dims) (visited : List Json),
      bomForRecipe byOutput (fuel + 1)
          { type := ty, body := .shapeless [o1 :: o2 :: rest] dims } q visited =
        .ok { items := [(anyKey (o1 :: o2 :: rest), q)], fluids := [], visited := visited }) := by
  have hq0 : q ≠ 0 := by
    intro h
    rw [h] at hq
    norm_num at hq
  refine ⟨addOptionList_many _ _ _ _ _ _ _, rfl, ?_, fun t => rfl,
    aggregate_get_self _ _ _ (anyKey_ne_empty _), fun k hk => aggregate_get_ne _ _ _ _ hk,
    ?_, ?_⟩
  · intro id hid
    simp [optLabel, hid]
  · rw [addOptionList_many, addOptionList_many]
  · intro fuel ty dims visited
    rw [bomForRecipe_shapeless]
    simp only [List.foldlM_cons, List.foldlM_nil, addOptionList_many, bind, Except.bind, pure,
      Except.pure]
    simp [aggregate, anyKey_ne_empty, hq0, mapGet, mapSet]

/-- C22 at the slot `[{item: a}, {tag: t}]` with quantity 3, the item `a` having an indexed
recipe: 3 is recorded under `any:a/#t` and `a` is not expanded. -/
theorem C22_witness :
    ((chainIndex (Json.str "a") (Json.str "l") 1).lookup (Json.str "a")).isSome = true ∧
    addOptionList (chainIndex (Json.str "a") (Json.str "l") 1)
        (bomForRecipe (chainIndex (Json.str "a") (Json.str "l") 1) 5)
        { items := [], fluids := [], visited := [] }
        [Opt.item (Json.str "a"), Opt.tag (Json.str "t")] 3 =
      .ok { items := [("any:a/#t", 3)], fluids := [], visited := [] } :=
  ⟨by decide!,
    (C22_any_of_slot (chainIndex (Json.str "a") (Json.str "l") 1)
      (bomForRecipe (chainIndex (Json.str "a") (Json.str "l") 1) 5)
      { items := [], fluids := [], visited := [] } (Opt.item (Json.str "a"))
      (Opt.tag (Json.str "t")) [] 3 (by norm_num)).1.trans (by decide!)⟩

/-- C23 (the code departs from the claim). Let `normalizeRecipe` return `R` for a record with
pattern rows `pattern`.  For a `crafting_shaped` type the grid has 9 slots and the slot of
the symbol at row `r`, column `c` is stored at index `r * 3 + c`, whatever the recorded
`dims.cols = max 1 (min 3 m)` is (`m` the longest row); for a `mechanical_crafting` type it
is stored at `r * dims.cols + c`, and `renderGrid` shows the grid as it is.  For the
`crafting_shaped` pattern `["AB", "CD"]` the dims are 2 x 2 and `c`, `d` are stored at
indices 3 and 4, so `renderGrid`, which reads the first `2 * 2` slots, shows `a`, `b`, an
empty cell and `c`; the same pattern as `mechanical_crafting` is stored and shown as
`a`, `b`, `c`, `d`. -/
theorem C23_shaped_grid_stride_three (rec : Json) (R : Recipe)
    (h : normalizeRecipe rec = .ok R) :
    (endsWith R.type "crafting_shaped" = true →
      ∃ (grid : List (List Opt)) (m : Nat),
        maxRowLength (rec.get "pattern").arrayOrEmpty = .ok m ∧
        R.body = .shaped grid
          { rows := max 1 (min 3 (rec.get "pattern").arrayOrEmpty.length),
            cols := max 1 (min 3 m) } ∧
        grid.length = 9 ∧
        ∀ r c, r < min 3 (rec.get "pattern").arrayOrEmpty.length →
          c < min (min 3 m) (rowChars (rec.get "pattern").arrayOrEmpty r).length →
          ∃ mapped,
            keyLookup ((rec.get "key").orElse (Json.obj []))
              (charAt (rowChars (rec.get "pattern").arrayOrEmpty r) c) = .ok mapped ∧
            grid[r * 3 + c]? = some (slotFor mapped)) ∧
    (endsWith R.type "crafting_shaped" = false → endsWith R.type "crafting_shapeless" = false →
      includes R.type "mechanical_crafting" = true →
      ∃ (grid : List (List Opt)) (m : Nat),
        maxRowLength (rec.get "pattern").arrayOrEmpty = .ok m ∧
        R.body = .shaped grid
          { rows := max 1 (rec.get "pattern").arrayOrEmpty.length, cols := max 1 m } ∧
        grid.length = max 1 (rec.get "pattern").arrayOrEmpty.length * max 1 m ∧
        renderGrid grid
          (some { rows := max 1 (rec.get "pattern").arrayOrEmpty.length, cols := max 1 m }) =
          grid ∧
        ∀ r c, r < max 1 (rec.get "pattern").arrayOrEmpty.length → c < max 1 m →
          ∃ mapped,
            keyLookup ((rec.get "key").orElse (Json.obj []))
              (charAt (rowChars (rec.get "pattern").arrayOrEmpty r) c) = .ok mapped ∧
            grid[r * max 1 m + c]? = some (slotFor mapped)) ∧
    normalizeRecipe (twoByTwoRecord "minecraft:crafting_shaped") =
      .ok { type := "minecraft:crafting_shaped",
            body := .shaped [[Opt.item (Json.str "a")], [Opt.item (Json.str "b")], [],
              [Opt.item (Json.str "c")], [Opt.item (Json.str "d")], [], [], [], []]
              { rows := 2, cols := 2 } } ∧
    renderGrid [[Opt.item (Json.str "a")], [Opt.item (Json.str "b")], [],
        [Opt.item (Json.str "c")], [Opt.item (Json.str "d")], [], [], [], []]
        (some { rows := 2, cols := 2 }) =
      [[Opt.item (Json.str "a")], [Opt.item (Json.str "b")], [], [Opt.item (Json.str "c")]] ∧
    normalizeRecipe (twoByTwoRecord "create:mechanical_crafting") =
      .ok { type := "create:mechanical_crafting",
            body := .shaped [[Opt.item (Json.str "a")], [Opt.item (Json.str "b")],
              [Opt.item (Json.str "c")], [Opt.item (Json.str "d")]]
              { rows := 2, cols := 2 } } ∧
    renderGrid [[Opt.item (Json.str "a")], [Opt.item (Json.str "b")],
        [Opt.item (Json.str "c")], [Opt.item (Json.str "d")]]
        (some { rows := 2, cols := 2 }) =
      [[Opt.item (Json.str "a")], [Opt.item (Json.str "b")], [Opt.item (Json.str "c")],
        [Opt.item (Json.str "d")]] := by
  obtain ⟨_, hbody⟩ := normalizeRecipe_ok h
  exact ⟨fun hty => normalizeBody_crafting_shaped R.type rec R.body hty hbody,
    fun h0 h1 h2 => normalizeBody_mechanical R.type rec R.body h0 h1 h2 hbody,
    by decide!, by decide!, by decide!, by decide!⟩

/-- C23 at the `crafting_shaped` pattern `["AB", "CD"]`: the symbol `C` at row 1, column 0 is
stored at index `1 * 3 + 0 = 3`, while the recorded dims have 2 columns. -/
theorem C23_witness :
    ∃ (grid : List (List Opt)) (m : Nat),
      maxRowLength ((twoByTwoRecord "minecraft:crafting_shaped").get "pattern").arrayOrEmpty =
        .ok m ∧
      RecipeBody.shaped [[Opt.item (Json.str "a")], [Opt.item (Json.str "b")], [],
          [Opt.item (Json.str "c")], [Opt.item (Json.str "d")], [], [], [], []]
          { rows := 2, cols := 2 } =
        .shaped grid
          { rows := max 1 (min 3
              ((twoByTwoRecord "minecraft:crafting_shaped").get "pattern").arrayOrEmpty.length),
            cols := max 1 (min 3 m) } ∧
      grid.length = 9 ∧
      ∀ r c,
        r < min 3
          ((twoByTwoRecord "minecraft:crafting_shaped").get "pattern").arrayOrEmpty.length →
        c < min (min 3 m) (rowChars
          ((twoByTwoRecord "minecraft:crafting_shaped").get "pattern").arrayOrEmpty r).length →
        ∃ mapped,
          keyLookup (((twoByTwoRecord "minecraft:crafting_shaped").get "key").orElse
              (Json.obj []))
            (charAt (rowChars
              ((twoByTwoRecord "minecraft:crafting_shaped").get "pattern").arrayOrEmpty r) c) =
            .ok mapped ∧
          grid[r * 3 + c]? = some (slotFor mapped) :=
  (C23_shaped_grid_stride_three (twoByTwoRecord "minecraft:crafting_shaped")
    { type := "minecraft:crafting_shaped",
      body := .shaped [[Opt.item (Json.str "a")], [Opt.item (Json.str "b")], [],
        [Opt.item (Json.str "c")], [Opt.item (Json.str "d")], [], [], [], []]
        { rows := 2, cols := 2 } }
    (by decide!)).1 (by decide!)

end Crafting
